import Mathlib

/-! # tilman: layout, window and manager geometry

A shallow embedding of `layout.go`, `manager.go` and `pkg/window/window.go`.

Conventions of the embedding.

* Go `int` is modelled by `Int`; `/` is `Int.tdiv` (truncation toward zero).
  Coordinates and sizes are terminal cells, far away from the 64-bit range.
* A non-nil value of the interface `tview.Primitive` is a `Primitive`: the
  address of a region together with its dynamic type.  A nil interface is
  `none`.  What the embedding knows about a region is its rectangle
  (`GetRect` returns what the last `SetRect` stored), kept in `Heap.rect`.
* `*Item` is an address into `Heap.item`; `&Item{...}` allocates `Heap.next`.
* A `*splitter` is modelled by the splitter record itself: no field of a
  splitter is written after its construction.
* A nil dereference or an explicit `panic` is the result `none`.
-/

namespace Tilman

/-! ## Basic data -/

/-- Direction: `type Direction int`. -/
abbrev Direction := Int

/-- VerticalLayout: first constant of the `iota` block. -/
def VerticalLayout : Direction := 0

/-- HorizontalLayout: second constant of the `iota` block. -/
def HorizontalLayout : Direction := 1

/-- AutoSize: the Size value that marks an auto-sized item. -/
def AutoSize : Int := 0

/-- Rect: the four numbers of `GetRect` and `SetRect`. -/
structure Rect where
  x : Int
  y : Int
  width : Int
  height : Int
  deriving DecidableEq, Repr

/-- Primitive: a non-nil `tview.Primitive`, tagged with its dynamic type. -/
inductive Primitive where
  | layout (addr : Nat)
  | window (addr : Nat)
  | region (addr : Nat)
  deriving DecidableEq, Repr

/-- Item: `struct { tview.Primitive; Size int }`. -/
structure Item where
  Primitive : Option Primitive
  Size : Int
  deriving DecidableEq, Repr

/-- Splitter record: `x, y [2]int` (begin and end points) and the two items. -/
structure splitter where
  x : Int × Int
  y : Int × Int
  a : Nat
  b : Nat
  deriving DecidableEq, Repr

/-- Heap: the Item objects, the allocation pointer and the region rectangles. -/
structure Heap where
  item : Nat → Item
  next : Nat
  rect : Primitive → Rect

/-- MouseAction: the `tview.MouseAction` values the code distinguishes. -/
inductive MouseAction where
  | MouseMove
  | MouseLeftDown
  | MouseLeftUp
  | MouseLeftClick
  | other (code : Nat)
  deriving DecidableEq, Repr

/-- EventMouse: a `*tcell.EventMouse`, reduced to its `Position()`. -/
structure EventMouse where
  x : Int
  y : Int
  deriving DecidableEq, Repr

/-- Glyph: the runes the layout writes to the screen. -/
inductive Glyph where
  | Blank
  | Vertical
  | VerticalFocus
  | Horizontal
  | HorizontalFocus
  deriving DecidableEq, Repr

/-- Cell: one `screen.SetContent(x, y, glyph, nil, style)` call. -/
structure Cell where
  x : Int
  y : Int
  glyph : Glyph
  deriving DecidableEq, Repr

/-- ColorDefault: `tcell.ColorDefault`. -/
def ColorDefault : Nat := 0

/-- ColorBlack: `tcell.ColorBlack`, a colour other than the default one. -/
def ColorBlack : Nat := 1

/-- PrimitiveBackgroundColor: `tview.Styles.PrimitiveBackgroundColor`.  The
theme is tview's; it holds `tcell.ColorBlack` unless the application replaces
it. -/
def PrimitiveBackgroundColor : Nat := ColorBlack

/-- Layout: the fields of `type Layout struct` (styles are passive and left out,
as is the keyboard capture hook). -/
structure Layout where
  items : List Nat
  dragX : Int
  dragY : Int
  focusedSplitterNumber : Int
  draggedSplitter : Option splitter
  splitters : List splitter
  splitterFlag : Bool
  direction : Direction
  x : Int
  y : Int
  width : Int
  height : Int
  backgroundColor : Nat
  mouseCapture : Option (MouseAction → EventMouse → MouseAction × Option EventMouse)

/-- Env: the mouse handlers of the child regions, which are external code.
A handler answers `(consumed, capture)`; it does not touch the layout. -/
structure Env where
  mouse : Primitive → MouseAction → EventMouse → Bool × Option Primitive

/-- Heap.setRect: `p.SetRect(x, y, width, height)` on a region. -/
def Heap.setRect (hp : Heap) (p : Primitive) (r : Rect) : Heap :=
  { hp with rect := Function.update hp.rect p r }

/-- Heap.setSize: the assignment `item.Size = v` through an `*Item`. -/
def Heap.setSize (hp : Heap) (i : Nat) (v : Int) : Heap :=
  { hp with item := Function.update hp.item i { hp.item i with Size := v } }

/-- Heap.empty: no item allocated, every rectangle zero. -/
def Heap.empty : Heap :=
  { item := fun _ => { Primitive := none, Size := 0 }, next := 0, rect := fun _ => ⟨0, 0, 0, 0⟩ }

/-! ## splitter -/

/-- Contain: `func (s *splitter) contain(x, y int) bool`. -/
def splitter.contain (s : splitter) (x y : Int) : Bool :=
  if s.x.1 = s.x.2 then
    decide (s.x.1 = x) && (decide (s.y.1 ≤ y) && decide (y ≤ s.y.2))
  else
    decide (s.y.1 = y) && (decide (s.x.1 ≤ x) && decide (x ≤ s.x.2))

/-! ## Layout: construction and sizing -/

/-- NewLayout: `func NewLayout() *Layout`. -/
def NewLayout : Layout :=
  { items := [], dragX := 0, dragY := 0, focusedSplitterNumber := -1, draggedSplitter := none,
    splitters := [], splitterFlag := false, direction := 0, x := 0, y := 0, width := 0,
    height := 0, backgroundColor := PrimitiveBackgroundColor, mouseCapture := none }

/-- SetDirection: `func (l *Layout) SetDirection(d Direction) *Layout`. -/
def Layout.SetDirection (l : Layout) (d : Direction) : Layout :=
  { l with direction := d }

/-- GetDirection: `func (l *Layout) GetDirection() Direction`. -/
def Layout.GetDirection (l : Layout) : Direction :=
  l.direction

/-- SetBackgroundColor: `func (l *Layout) SetBackgroundColor(color)`. -/
def Layout.SetBackgroundColor (l : Layout) (color : Nat) : Layout :=
  { l with backgroundColor := color }

/-- SetSplitter: `func (l *Layout) SetSplitter(show bool) *Layout`. -/
def Layout.SetSplitter (l : Layout) (flag : Bool) : Layout :=
  { l with splitterFlag := flag }

/-- SetMouseCapture: `func (l *Layout) SetMouseCapture(capture)`. -/
def Layout.SetMouseCapture (l : Layout)
    (capture : Option (MouseAction → EventMouse → MouseAction × Option EventMouse)) : Layout :=
  { l with mouseCapture := capture }

/-- The loop of itemsAmount: `auto += 1` for every item with `Size == AutoSize`. -/
def countAuto (hp : Heap) : List Nat → Int → Int
  | [], auto => auto
  | item :: rest, auto =>
    if (hp.item item).Size = AutoSize then countAuto hp rest (auto + 1) else countAuto hp rest auto

/-- ItemsAmount: `func (l *Layout) itemsAmount() (int, int)`. -/
def Layout.itemsAmount (hp : Heap) (l : Layout) : Int × Int :=
  let auto := countAuto hp l.items 0
  ((l.items.length : Int) - auto, auto)

/-- The loop of itemsSize: `size += item.Size`. -/
def sumSize (hp : Heap) : List Nat → Int → Int
  | [], size => size
  | item :: rest, size => sumSize hp rest (size + (hp.item item).Size)

/-- ItemsSize: `func (l *Layout) itemsSize() int`. -/
def Layout.itemsSize (hp : Heap) (l : Layout) : Int :=
  sumSize hp l.items 0

/-- AvailableSpace: `func (l *Layout) availableSpace() int`. -/
def Layout.availableSpace (l : Layout) : Int :=
  if l.direction = HorizontalLayout then l.width
  else if l.direction = VerticalLayout then l.height
  else 0

/-- SplittersAmount: `func (l *Layout) splittersAmount() int`. -/
def Layout.splittersAmount (l : Layout) : Int :=
  if (l.items.length : Int) ≤ 1 then 0 else (l.items.length : Int) - 1

/-- The auto share computed at the top of Draw and of rebuildSplitters:
`autoSize := 0; if auto != 0 { autoSize = (space - size - seps) / auto }`. -/
def Layout.autoSize (hp : Heap) (l : Layout) : Int :=
  let auto := (l.itemsAmount hp).2
  let size := l.itemsSize hp
  let space := l.availableSpace
  let seps := l.splittersAmount
  if auto ≠ 0 then Int.tdiv (space - size - seps) auto else 0

/-- GetRect: `func (l *Layout) GetRect() (int, int, int, int)`. -/
def Layout.GetRect (l : Layout) : Rect :=
  ⟨l.x, l.y, l.width, l.height⟩

/-- The cells `lo, lo+1, ..., lo+n-1` of a loop `for c := lo; c < lo+n; c++`. -/
def cellRange (lo n : Int) : List Int :=
  (List.range n.toNat).map (fun k => lo + (k : Int))

/-! ## Layout: rebuildSplitters -/

/-- The HorizontalLayout loop of rebuildSplitters.  The Go loop runs `i` over
`0 .. len(items)-2` and reads `items[i]` and `items[i+1]`: here the list is
walked by adjacent pairs.  The appended splitters are returned in order. -/
def rebuildH (hp : Heap) (autoSize y height : Int) : List Nat → Int → Int → List splitter
  | a :: b :: rest, x, seps =>
    let x1 := if (hp.item a).Size = AutoSize then x + autoSize else x + (hp.item a).Size
    if seps > 0 then
      { x := (x1, x1), y := (y, y + height - 1), a := a, b := b } ::
        rebuildH hp autoSize y height (b :: rest) (x1 + 1) (seps - 1)
    else
      rebuildH hp autoSize y height (b :: rest) x1 seps
  | _, _, _ => []

/-- The VerticalLayout loop of rebuildSplitters. -/
def rebuildV (hp : Heap) (autoSize x width : Int) : List Nat → Int → Int → List splitter
  | a :: b :: rest, y, seps =>
    let y1 := if (hp.item a).Size = AutoSize then y + autoSize else y + (hp.item a).Size
    if seps > 0 then
      { x := (x, x + width - 1), y := (y1, y1), a := a, b := b } ::
        rebuildV hp autoSize x width (b :: rest) (y1 + 1) (seps - 1)
    else
      rebuildV hp autoSize x width (b :: rest) y1 seps
  | _, _, _ => []

/-- RebuildSplitters: `func (l *Layout) rebuildSplitters()`. -/
def Layout.rebuildSplitters (hp : Heap) (l : Layout) : Layout :=
  let autoSize := l.autoSize hp
  let seps := l.splittersAmount
  if l.direction = HorizontalLayout then
    { l with splitters := rebuildH hp autoSize l.y l.height l.items l.x seps }
  else if l.direction = VerticalLayout then
    { l with splitters := rebuildV hp autoSize l.x l.width l.items l.y seps }
  else
    { l with splitters := [] }

/-- SetRect: `func (l *Layout) SetRect(x, y, width, height int)`. -/
def Layout.SetRect (hp : Heap) (l : Layout) (x y width height : Int) : Layout :=
  Layout.rebuildSplitters hp { l with x := x, y := y, width := width, height := height }

/-! ## Layout: items -/

/-- AddItem: `func (l *Layout) AddItem(p tview.Primitive, size int) *Layout`. -/
def Layout.AddItem (hp : Heap) (l : Layout) (p : Option Primitive) (size : Int) : Heap × Layout :=
  let hp1 : Heap :=
    { hp with item := Function.update hp.item hp.next { Primitive := p, Size := size },
              next := hp.next + 1 }
  let l1 : Layout := { l with items := l.items ++ [hp.next], draggedSplitter := none }
  (hp1, Layout.rebuildSplitters hp1 l1)

/-- RemoveItem: `func (l *Layout) RemoveItem(i int) *Layout`. -/
def Layout.RemoveItem (hp : Heap) (l : Layout) (i : Int) : Layout :=
  if i < 0 ∨ i ≥ (l.items.length : Int) then l
  else
    Layout.rebuildSplitters hp
      { l with draggedSplitter := none,
               items := l.items.take i.toNat ++ l.items.drop (i.toNat + 1) }

/-- GetItem: `func (l *Layout) GetItem(i int) *Item`; `none` is the nil result. -/
def Layout.GetItem (l : Layout) (i : Int) : Option Nat :=
  if i < 0 ∨ i ≥ (l.items.length : Int) then none else l.items[i.toNat]?

/-- CountItems: `func (l *Layout) CountItems() int`. -/
def Layout.CountItems (l : Layout) : Int :=
  (l.items.length : Int)

/-- ClearItems: `func (l *Layout) ClearItems() *Layout`. -/
def Layout.ClearItems (l : Layout) : Layout :=
  { l with items := [], splitters := [] }

/-- Blur (layout part): `l.focusedSplitterNumber = -1`. -/
def Layout.Blur (l : Layout) : Layout :=
  { l with focusedSplitterNumber := -1 }

/-- InRect: `func (l *Layout) InRect(x, y int) bool`. -/
def Layout.InRect (l : Layout) (x y : Int) : Bool :=
  decide (x ≥ l.x) && decide (x < l.x + l.width) && decide (y ≥ l.y) && decide (y < l.y + l.height)

/-! ## Layout: Draw -/

/-- The background loop of Draw: one blank per cell of the rectangle, row by row. -/
def fillCells (x y width height : Int) : List Cell :=
  (cellRange y height).flatMap (fun y_ => (cellRange x width).map (fun x_ => Cell.mk x_ y_ Glyph.Blank))

/-- The HorizontalLayout loop of Draw, for the items from index `number` on.
The result lists, in order, the rectangle given to each item (the arguments of
`item.Primitive.SetRect` and of the `NewClipRegion` the item is drawn through)
and the separator cells written to the screen.  A nil Primitive faults. -/
def drawH (hp : Heap) (l : Layout) (autoSize y height : Int) :
    List Nat → Nat → Int → Int → Glyph → Option (List (Primitive × Rect) × List Cell)
  | [], _, _, _, _ => some ([], [])
  | item :: rest, number, x, seps, vertical =>
    match (hp.item item).Primitive with
    | none => none
    | some p =>
      let len := if (hp.item item).Size = AutoSize then autoSize else (hp.item item).Size
      let x1 := x + len
      if seps > 0 then
        let vertical1 :=
          if l.splitterFlag && decide ((number : Int) = l.focusedSplitterNumber)
          then Glyph.VerticalFocus else vertical
        let line :=
          if l.splitterFlag then (cellRange y height).map (fun y_ => Cell.mk x1 y_ vertical1)
          else []
        match drawH hp l autoSize y height rest (number + 1) (x1 + 1) (seps - 1) vertical1 with
        | none => none
        | some (calls, screen) => some ((p, ⟨x, y, len, height⟩) :: calls, line ++ screen)
      else
        match drawH hp l autoSize y height rest (number + 1) x1 seps vertical with
        | none => none
        | some (calls, screen) => some ((p, ⟨x, y, len, height⟩) :: calls, screen)

/-- The VerticalLayout loop of Draw. -/
def drawV (hp : Heap) (l : Layout) (autoSize x width : Int) :
    List Nat → Nat → Int → Int → Glyph → Option (List (Primitive × Rect) × List Cell)
  | [], _, _, _, _ => some ([], [])
  | item :: rest, number, y, seps, horizontal =>
    match (hp.item item).Primitive with
    | none => none
    | some p =>
      let len := if (hp.item item).Size = AutoSize then autoSize else (hp.item item).Size
      let y1 := y + len
      if seps > 0 then
        let horizontal1 :=
          if l.splitterFlag && decide ((number : Int) = l.focusedSplitterNumber)
          then Glyph.HorizontalFocus else horizontal
        let line :=
          if l.splitterFlag then (cellRange x width).map (fun x_ => Cell.mk x_ y1 horizontal1)
          else []
        match drawV hp l autoSize x width rest (number + 1) (y1 + 1) (seps - 1) horizontal1 with
        | none => none
        | some (calls, screen) => some ((p, ⟨x, y, width, len⟩) :: calls, line ++ screen)
      else
        match drawV hp l autoSize x width rest (number + 1) y1 seps horizontal with
        | none => none
        | some (calls, screen) => some ((p, ⟨x, y, width, len⟩) :: calls, screen)

/-- The SetRect calls of a Draw pass, applied to the region rectangles in order. -/
def applyCalls (hp : Heap) : List (Primitive × Rect) → Heap
  | [] => hp
  | c :: rest => applyCalls (hp.setRect c.1 c.2) rest

/-- DrawResult: the heap after Draw, the rectangle handed to each item in
item order, and the cells Draw itself wrote to the screen. -/
structure DrawResult where
  heap : Heap
  calls : List (Primitive × Rect)
  screen : List Cell

/-- Draw: `func (l *Layout) Draw(screen tcell.Screen)`. -/
def Layout.Draw (hp : Heap) (l : Layout) : Option DrawResult :=
  let background :=
    if l.backgroundColor ≠ ColorDefault then fillCells l.x l.y l.width l.height else []
  let autoSize := l.autoSize hp
  let seps := l.splittersAmount
  if l.direction = HorizontalLayout then
    match drawH hp l autoSize l.y l.height l.items 0 l.x seps Glyph.Vertical with
    | none => none
    | some (calls, screen) =>
      some { heap := applyCalls hp calls, calls := calls, screen := background ++ screen }
  else if l.direction = VerticalLayout then
    match drawV hp l autoSize l.x l.width l.items 0 l.y seps Glyph.Horizontal with
    | none => none
    | some (calls, screen) =>
      some { heap := applyCalls hp calls, calls := calls, screen := background ++ screen }
  else
    some { heap := hp, calls := [], screen := background }

/-! ## Layout: MouseHandler -/

/-- MouseResult: the state after the handler, its two results, the children
whose mouse handler was called and the children that were blurred, in order. -/
structure MouseResult where
  heap : Heap
  l : Layout
  consumed : Bool
  capture : Option Primitive
  offered : List Primitive
  blurred : List Primitive

/-- The first loop of the mouse handler: every non-nil child is offered the
event until one consumes it.  `consumed` and `capture` are the named results,
overwritten by every child that is asked. -/
def offerChildren (env : Env) (hp : Heap) (action : MouseAction) (event : EventMouse) :
    List Nat → Bool → Option Primitive → Bool × Option Primitive × List Primitive
  | [], consumed, capture => (consumed, capture, [])
  | item :: rest, consumed, capture =>
    match (hp.item item).Primitive with
    | none => offerChildren env hp action event rest consumed capture
    | some p =>
      let r := env.mouse p action event
      if r.1 then (true, r.2, [p])
      else
        let t := offerChildren env hp action event rest r.1 r.2
        (t.1, t.2.1, p :: t.2.2)

/-- The MouseLeftDown loop: the first splitter that contains the position,
with its index. -/
def findSplitter (x y : Int) : List splitter → Nat → Option (Nat × splitter)
  | [], _ => none
  | s :: rest, number =>
    if s.contain x y then some (number, s) else findSplitter x y rest (number + 1)

/-- The Blur loop of MouseLeftDown: every non-nil child, in order. -/
def blurAll (hp : Heap) (items : List Nat) : List Primitive :=
  items.filterMap (fun item => (hp.item item).Primitive)

/-- The handler that MouseHandler passes to WrapMouseHandler. -/
def Layout.mouseHandler (env : Env) (hp : Heap) (l : Layout) (action : MouseAction)
    (event : EventMouse) : Option MouseResult :=
  if !l.InRect event.x event.y then
    some { heap := hp, l := l, consumed := false, capture := none, offered := [], blurred := [] }
  else
    let t := offerChildren env hp action event l.items false none
    if t.1 then
      some { heap := hp, l := { l with focusedSplitterNumber := -1 }, consumed := t.1,
             capture := t.2.1, offered := t.2.2, blurred := [] }
    else
      match action with
      | MouseAction.MouseMove =>
        match l.draggedSplitter with
        | some s =>
          let x := event.x
          let y := event.y
          let dx := x - l.dragX
          let dy := y - l.dragY
          match (hp.item s.a).Primitive, (hp.item s.b).Primitive with
          | some pa, some pb =>
            let ra := hp.rect pa
            let rb := hp.rect pb
            let l1 := { l with dragX := x, dragY := y }
            if l.direction = HorizontalLayout then
              let hp1 := hp.setRect pa ⟨ra.x, ra.y, ra.width + dx, ra.height⟩
              let hp2 := hp1.setRect pb ⟨rb.x + dx, rb.y, rb.width - dx, rb.height⟩
              let hp3 := hp2.setSize s.a (ra.width + dx)
              let hp4 := hp3.setSize s.b (rb.width - dx)
              some { heap := hp4, l := l1, consumed := true, capture := none,
                     offered := t.2.2, blurred := [] }
            else if l.direction = VerticalLayout then
              let hp1 := hp.setRect pa ⟨ra.x, ra.y, ra.width, ra.height + dy⟩
              let hp2 := hp1.setRect pb ⟨rb.x, rb.y + dy, rb.width, rb.height - dy⟩
              let hp3 := hp2.setSize s.a (ra.height + dy)
              let hp4 := hp3.setSize s.b (rb.height - dy)
              some { heap := hp4, l := l1, consumed := true, capture := none,
                     offered := t.2.2, blurred := [] }
            else none
          | _, _ => none
        | none =>
          some { heap := hp, l := l, consumed := t.1, capture := t.2.1, offered := t.2.2,
                 blurred := [] }
      | MouseAction.MouseLeftDown =>
        match findSplitter event.x event.y l.splitters 0 with
        | some (number, s) =>
          some { heap := hp,
                 l := { l with focusedSplitterNumber := (number : Int), draggedSplitter := some s,
                               dragX := event.x, dragY := event.y },
                 consumed := true, capture := none, offered := t.2.2,
                 blurred := blurAll hp l.items }
        | none =>
          some { heap := hp, l := l, consumed := t.1, capture := t.2.1, offered := t.2.2,
                 blurred := [] }
      | MouseAction.MouseLeftUp =>
        some { heap := hp, l := Layout.rebuildSplitters hp { l with draggedSplitter := none },
               consumed := true, capture := none, offered := t.2.2, blurred := [] }
      | _ =>
        some { heap := hp, l := l, consumed := t.1, capture := t.2.1, offered := t.2.2,
               blurred := [] }

/-- The first half of WrapMouseHandler: the capture hook, when installed,
replaces the action and the event (a nil event is `none`). -/
def Layout.captured (l : Layout) (action : MouseAction) (event : EventMouse) :
    MouseAction × Option EventMouse :=
  match l.mouseCapture with
  | some capture => capture action event
  | none => (action, some event)

/-- MouseHandler: `func (l *Layout) MouseHandler()`, that is WrapMouseHandler
applied to `mouseHandler`. -/
def Layout.MouseHandler (env : Env) (hp : Heap) (l : Layout) (action : MouseAction)
    (event : EventMouse) : Option MouseResult :=
  match (l.captured action event).2 with
  | some ev => l.mouseHandler env hp (l.captured action event).1 ev
  | none =>
    some { heap := hp, l := l, consumed := false, capture := none, offered := [], blurred := [] }

/-! ## Manager -/

/-- Manager: the two roots and the restore rectangle.  The rectangle of a
root, layout or window, is the one `Heap.rect` keeps for it. -/
structure Manager where
  logicalRoot : Option Primitive
  visibleRoot : Option Primitive
  restoreX : Int
  restoreY : Int
  restoreWidth : Int
  restoreHeight : Int
  deriving DecidableEq, Repr

/-- NewWindowManager: `func NewWindowManager() *Manager`. -/
def NewWindowManager : Manager :=
  { logicalRoot := none, visibleRoot := none, restoreX := 0, restoreY := 0, restoreWidth := 0,
    restoreHeight := 0 }

/-- SetRoot: `func (m *Manager) SetRoot(root *Layout) *Manager`. -/
def Manager.SetRoot (m : Manager) (root : Nat) : Manager :=
  { m with logicalRoot := some (Primitive.layout root), visibleRoot := some (Primitive.layout root) }

/-- Maximize: `func (m *Manager) Maximize(w *Window) *Manager`. -/
def Manager.Maximize (hp : Heap) (m : Manager) (w : Nat) : Manager :=
  let m1 := { m with visibleRoot := some (Primitive.window w) }
  let r := hp.rect (Primitive.window w)
  { m1 with restoreX := r.x, restoreY := r.y, restoreWidth := r.width, restoreHeight := r.height }

/-- IsMaximazed: `func (m *Manager) IsMaximazed(w *Window) bool`. -/
def Manager.IsMaximazed (m : Manager) (w : Nat) : Bool :=
  match m.visibleRoot with
  | some (Primitive.window vw) => decide (vw = w)
  | _ => false

/-- Restore: `func (m *Manager) Restore() *Manager`; a nil visible root faults. -/
def Manager.Restore (hp : Heap) (m : Manager) : Option (Heap × Manager) :=
  match m.visibleRoot with
  | none => none
  | some p =>
    some (hp.setRect p ⟨m.restoreX, m.restoreY, m.restoreWidth, m.restoreHeight⟩,
          { m with visibleRoot := m.logicalRoot })

/-- The restore rectangle: the four `restore*` fields. -/
def Manager.restoreRect (m : Manager) : Rect :=
  ⟨m.restoreX, m.restoreY, m.restoreWidth, m.restoreHeight⟩

/-- The states of a Manager: NewWindowManager and what SetRoot, Maximize and
Restore make of it, on any heap. -/
inductive Manager.Reachable : Manager → Prop
  | new : Manager.Reachable NewWindowManager
  | setRoot {m : Manager} (root : Nat) : Manager.Reachable m → Manager.Reachable (m.SetRoot root)
  | maximize {m : Manager} (hp : Heap) (w : Nat) :
      Manager.Reachable m → Manager.Reachable (Manager.Maximize hp m w)
  | restore {m : Manager} (hp : Heap) (r : Heap × Manager) :
      Manager.Reachable m → Manager.Restore hp m = some r → Manager.Reachable r.2

/-- The sentence on Maximize as the specification words it: the stored
rectangle is the one of the root that is visible when Maximize is called. -/
def SavesVisibleRect (hp : Heap) (m : Manager) (w : Nat) : Prop :=
  ∀ p, m.visibleRoot = some p → (Manager.Maximize hp m w).restoreRect = hp.rect p

/-! ## Window buttons -/

/-- ButtonAlignment: `type ButtonAlignment int`. -/
abbrev ButtonAlignment := Int

/-- ButtonAlignLeft: `tview.AlignLeft`. -/
def ButtonAlignLeft : ButtonAlignment := 0

/-- ButtonAlignRight: `tview.AlignRight`. -/
def ButtonAlignRight : ButtonAlignment := 2

/-- Button: a title-bar button; `OnClick` names the callback, `none` is nil. -/
structure Button where
  Alignment : ButtonAlignment
  Symbol : Nat
  OnClick : Option Nat
  offsetX : Int
  offsetY : Int
  deriving DecidableEq, Repr

/-- Window: the fields of `type Window struct` the operations read or write;
`x, y, width, height` is the rectangle of the embedded Box. -/
structure Window where
  root : Option Primitive
  buttons : List Button
  border : Bool
  x : Int
  y : Int
  width : Int
  height : Int
  deriving DecidableEq, Repr

/-- New: `func New() *Window`. -/
def Window.New : Window :=
  { root := none, buttons := [], border := false, x := 0, y := 0, width := 0, height := 0 }

/-- The loop of AddButton over `w.buttons`, carrying `offsetLeft` and `offsetRight`. -/
def renumber : List Button → Int → Int → List Button
  | [], _, _ => []
  | button :: rest, offsetLeft, offsetRight =>
    if button.Alignment = ButtonAlignRight then
      { button with offsetX := offsetRight } :: renumber rest offsetLeft (offsetRight - 3)
    else
      { button with offsetX := offsetLeft } :: renumber rest (offsetLeft + 3) offsetRight

/-- AddButton: `func (w *Window) AddButton(symbol, alignment, onclick) *Window`. -/
def Window.AddButton (w : Window) (symbol : Nat) (alignment : ButtonAlignment)
    (onclick : Option Nat) : Window :=
  let buttons :=
    w.buttons ++ [{ Symbol := symbol, Alignment := alignment, OnClick := onclick,
                    offsetX := 0, offsetY := 0 }]
  { w with buttons := renumber buttons 2 (-3) }

/-- RemoveButton: `func (w *Window) RemoveButton(i int) *Window`. -/
def Window.RemoveButton (w : Window) (i : Int) : Window :=
  if i < 0 ∨ i ≥ (w.buttons.length : Int) then w
  else { w with buttons := w.buttons.take i.toNat ++ w.buttons.drop (i.toNat + 1) }

/-- GetButton: `func (w *Window) GetButton(i int) *Button`; `none` is nil. -/
def Window.GetButton (w : Window) (i : Int) : Option Button :=
  if i < 0 ∨ i ≥ (w.buttons.length : Int) then none else w.buttons[i.toNat]?

/-- CountButtons: `func (w *Window) CountButtons() int`. -/
def Window.CountButtons (w : Window) : Int :=
  (w.buttons.length : Int)

/-- ClearButtons: `func (w *Window) ClearButtons() *Window`. -/
def Window.ClearButtons (w : Window) : Window :=
  { w with buttons := [] }

/-- InRect of the embedded Box (`tview.Box.InRect`): the same test as
`Layout.InRect`, on the rectangle of the window. -/
def Window.InRect (w : Window) (x y : Int) : Bool :=
  decide (x ≥ w.x) && decide (x < w.x + w.width) && decide (y ≥ w.y) && decide (y < w.y + w.height)

/-- The test of the button loop: `button.offsetX >= 0 && x == wx+button.offsetX ||
button.offsetX < 0 && x == wx+width+button.offsetX`. -/
def Button.hit (button : Button) (wx width x : Int) : Bool :=
  (decide (button.offsetX ≥ 0) && decide (x = wx + button.offsetX)) ||
    (decide (button.offsetX < 0) && decide (x = wx + width + button.offsetX))

/-- The button loop of the mouse handler: the first button that is hit, with
its index. -/
def findButton (wx width x : Int) : List Button → Nat → Option (Nat × Button)
  | [], _ => none
  | button :: rest, number =>
    if button.hit wx width x then some (number, button)
    else findButton wx width x rest (number + 1)

/-- Receiver: the handler an event is passed on to, the one of the content
region or the one of the embedded Box. -/
inductive Receiver where
  | root (p : Primitive)
  | box
  deriving DecidableEq, Repr

/-- ClickResult: the two results of the window handler, the index of the
button whose branch was taken, the callback that ran and the handler the event
was passed on to. -/
structure ClickResult where
  consumed : Bool
  capture : Option Primitive
  clicked : Option Nat
  callback : Option Nat
  forwarded : Option Receiver
  deriving DecidableEq, Repr

/-- The handler that `Window.MouseHandler` passes to the WrapMouseHandler of
the embedded Box.  `env` answers for the content region, `box` for the mouse
handler of the Box; both are external code. -/
def Window.mouseHandler (env : Env) (box : MouseAction → EventMouse → Bool × Option Primitive)
    (w : Window) (action : MouseAction) (event : EventMouse) : ClickResult :=
  if !w.InRect event.x event.y then
    { consumed := false, capture := none, clicked := none, callback := none, forwarded := none }
  else
    let found :=
      if action = MouseAction.MouseLeftClick then
        if event.y = w.y ∧ w.border = true then findButton w.x w.width event.x w.buttons 0
        else none
      else none
    match found with
    | some (number, button) =>
      { consumed := true, capture := none, clicked := some number, callback := button.OnClick,
        forwarded := none }
    | none =>
      match w.root with
      | some p =>
        { consumed := (env.mouse p action event).1, capture := (env.mouse p action event).2,
          clicked := none, callback := none, forwarded := some (Receiver.root p) }
      | none =>
        { consumed := (box action event).1, capture := (box action event).2,
          clicked := none, callback := none, forwarded := some Receiver.box }

/-- SetRoot: `func (w *Window) SetRoot(root tview.Primitive) *Window`. -/
def Window.SetRoot (w : Window) (root : Option Primitive) : Window :=
  { w with root := root }

/-- SetBorder: `func (w *Window) SetBorder(show bool) *Window`. -/
def Window.SetBorder (w : Window) (flag : Bool) : Window :=
  { w with border := flag }

/-- SetRect of the embedded Box (`tview.Box.SetRect`). -/
def Window.SetRect (w : Window) (x y width height : Int) : Window :=
  { w with x := x, y := y, width := width, height := height }

/-- DrawBox: `func (w *Window) drawBox(screen, x, y, width, height int) (int, int, int, int)`,
the draw function New installs on the Box.  `backgroundColor` and `focus` are
what the Box answers to GetBackgroundColor and HasFocus.  The result is the
cells written (the title, which `tview.Print` writes over the rule, is left
out) and the rectangle returned. -/
def Window.drawBox (w : Window) (backgroundColor : Nat) (focus : Bool) (x y width height : Int) :
    List Cell × Rect :=
  let background :=
    if backgroundColor ≠ ColorDefault then fillCells x y width height else []
  let rule :=
    if w.border = true ∧ width ≥ 2 ∧ height ≥ 2 then
      (cellRange x width).map
        (fun x_ => Cell.mk x_ y (if focus then Glyph.HorizontalFocus else Glyph.Horizontal))
    else []
  (background ++ rule, ⟨x, y + 1, width, height - 1⟩)

/-- BoxInner: what the embedded `tview.Box` keeps for its inner rectangle: the
rectangle its last Draw stored (`innerX` is -1 when none is stored, as after
SetRect) and the border padding.  The Box is tview's and not part of this
repository; this and the two definitions after it follow its Draw and
GetInnerRect. -/
structure BoxInner where
  innerX : Int
  innerY : Int
  innerWidth : Int
  innerHeight : Int
  paddingTop : Int
  paddingBottom : Int
  paddingLeft : Int
  paddingRight : Int
  deriving DecidableEq, Repr

/-- The inner state of a Box as `tview.NewBox()` makes it. -/
def BoxInner.new : BoxInner :=
  { innerX := -1, innerY := 0, innerWidth := 0, innerHeight := 0, paddingTop := 0,
    paddingBottom := 0, paddingLeft := 0, paddingRight := 0 }

/-- BoxDraw: `w.Box.Draw(screen)`, for the inner rectangle.  A Box without
space draws nothing; otherwise it calls the draw function New installed,
drawBox, with its rectangle and stores the rectangle that returns. -/
def Window.BoxDraw (w : Window) (box : BoxInner) (backgroundColor : Nat) (focus : Bool) :
    BoxInner :=
  if w.width ≤ 0 ∨ w.height ≤ 0 then box
  else
    let r := (w.drawBox backgroundColor focus w.x w.y w.width w.height).2
    { box with innerX := r.x, innerY := r.y, innerWidth := r.width, innerHeight := r.height }

/-- GetInnerRect: `w.GetInnerRect()` of the embedded Box.  The stored
rectangle is returned when its x is not negative; otherwise the rectangle is
computed from the border flag and the padding. -/
def Window.GetInnerRect (w : Window) (box : BoxInner) : Rect :=
  if box.innerX ≥ 0 then ⟨box.innerX, box.innerY, box.innerWidth, box.innerHeight⟩
  else
    let x := if w.border then w.x + 1 else w.x
    let y := if w.border then w.y + 1 else w.y
    let width := if w.border then w.width - 2 else w.width
    let height := if w.border then w.height - 2 else w.height
    let width1 := width - box.paddingLeft - box.paddingRight
    let height1 := height - box.paddingTop - box.paddingBottom
    ⟨x + box.paddingLeft, y + box.paddingTop, if width1 < 0 then 0 else width1,
     if height1 < 0 then 0 else height1⟩

/-- WindowDrawResult: the heap and the inner state of the Box after the Draw
of a window, the rectangle handed to the content region (to its SetRect and
to the clip region it is drawn through) and, for every button printed, its
symbol and position. -/
structure WindowDrawResult where
  heap : Heap
  box : BoxInner
  content : Option (Primitive × Rect)
  buttons : List (Nat × Int × Int)

/-- Draw: `func (w *Window) Draw(screen tcell.Screen)`.  `focus` is the answer
of `w.HasFocus()`, which Draw hands on to the Box before it draws. -/
def Window.Draw (hp : Heap) (w : Window) (box : BoxInner) (backgroundColor : Nat)
    (focus : Bool) : WindowDrawResult :=
  let box1 := w.BoxDraw box backgroundColor focus
  let inner := w.GetInnerRect box1
  let printed :=
    if w.border then
      w.buttons.map (fun button =>
        let buttonX := button.offsetX + w.x
        let buttonY := button.offsetY + w.y
        let buttonX1 := if button.offsetX < 0 then buttonX + w.width else buttonX
        let buttonY1 := if button.offsetY < 0 then buttonY + w.height else buttonY
        (button.Symbol, buttonX1 - 1, buttonY1))
    else []
  match w.root with
  | some p =>
    { heap := hp.setRect p inner, box := box1, content := some (p, inner), buttons := printed }
  | none => { heap := hp, box := box1, content := none, buttons := printed }

/-! ## Manager: the guard -/

/-- GuardStep: the steps of a Manager method that matter for the guard:
`m.Lock()`, `m.Unlock()` (deferred calls run last) and the reads and writes of
`m.visibleRoot`. -/
inductive GuardStep where
  | Lock
  | Unlock
  | ReadVisible
  | WriteVisible
  deriving DecidableEq, Repr

/-- Whether every read and write of the visible root in a run of steps happens
while the guard is held; `held` is the state of the guard before the run. -/
def guardedFrom : Bool → List GuardStep → Bool
  | _, [] => true
  | _, GuardStep.Lock :: rest => guardedFrom true rest
  | _, GuardStep.Unlock :: rest => guardedFrom false rest
  | held, GuardStep.ReadVisible :: rest => held && guardedFrom held rest
  | held, GuardStep.WriteVisible :: rest => held && guardedFrom held rest

/-- The steps of `Manager.SetRoot`: `m.logicalRoot = root`, `m.visibleRoot = root`. -/
def Manager.SetRootSteps : List GuardStep :=
  [GuardStep.WriteVisible]

/-- The steps of `Manager.Maximize`: `m.visibleRoot = w`, then `w.GetRect()`. -/
def Manager.MaximizeSteps : List GuardStep :=
  [GuardStep.WriteVisible]

/-- The steps of `Manager.IsMaximazed`: `m.visibleRoot.(*Window)`. -/
def Manager.IsMaximazedSteps : List GuardStep :=
  [GuardStep.ReadVisible]

/-- The steps of `Manager.Restore`: `m.visibleRoot.SetRect(...)`, then
`m.visibleRoot = m.logicalRoot`. -/
def Manager.RestoreSteps : List GuardStep :=
  [GuardStep.ReadVisible, GuardStep.WriteVisible]

/-- The steps of `Manager.Focus`: Lock, deferred Unlock, `m.visibleRoot.Focus`. -/
def Manager.FocusSteps : List GuardStep :=
  [GuardStep.Lock, GuardStep.ReadVisible, GuardStep.Unlock]

/-- The steps of `Manager.HasFocus`: `return m.visibleRoot.HasFocus()`. -/
def Manager.HasFocusSteps : List GuardStep :=
  [GuardStep.ReadVisible]

/-- The steps of `Manager.Draw`: Lock, deferred Unlock, `m.visibleRoot.SetRect`
and `m.visibleRoot.Draw`. -/
def Manager.DrawSteps : List GuardStep :=
  [GuardStep.Lock, GuardStep.ReadVisible, GuardStep.ReadVisible, GuardStep.Unlock]

/-- The steps of the handler of `Manager.MouseHandler`: Lock, deferred Unlock,
and `m.visibleRoot.MouseHandler()` when the event is inside the manager. -/
def Manager.MouseHandlerSteps (inside : Bool) : List GuardStep :=
  if inside then [GuardStep.Lock, GuardStep.ReadVisible, GuardStep.Unlock]
  else [GuardStep.Lock, GuardStep.Unlock]

/-- The steps of the handler of `Manager.InputHandler`: Lock, deferred Unlock,
`m.visibleRoot.InputHandler()`. -/
def Manager.InputHandlerSteps : List GuardStep :=
  [GuardStep.Lock, GuardStep.ReadVisible, GuardStep.Unlock]

/-! ## Notions used by the statements -/

/-- The axis length Draw and rebuildSplitters use for an item: the auto share
for an auto-sized item, its Size otherwise. -/
def itemLen (hp : Heap) (autoSize : Int) (item : Nat) : Int :=
  if (hp.item item).Size = AutoSize then autoSize else (hp.item item).Size

/-- The length of a rectangle along the axis of a layout: its width in a
HorizontalLayout, its height otherwise. -/
def axisLen (d : Direction) (r : Rect) : Int :=
  if d = HorizontalLayout then r.width else r.height

/-- The number of auto-sized items of a layout. -/
def autoCount (hp : Heap) (l : Layout) : Int :=
  ((l.items.filter (fun i => decide ((hp.item i).Size = AutoSize))).length : Int)

/-- The sum of the Sizes of the items (an auto-sized item adds 0). -/
def fixedSum (hp : Heap) (l : Layout) : Int :=
  (l.items.map (fun i => (hp.item i).Size)).sum

/-- The sum of the axis lengths of the rectangles a Draw pass handed out,
plus one cell for every pair of neighbours. -/
def consumed (l : Layout) (out : DrawResult) : Int :=
  (out.calls.map (fun c => axisLen l.direction c.2)).sum + max 0 (l.CountItems - 1)

/-- Every item of the layout holds a region (no nil Primitive). -/
def AllRegions (hp : Heap) (l : Layout) : Prop :=
  ∀ i ∈ l.items, (hp.item i).Primitive ≠ none

instance (hp : Heap) (l : Layout) : Decidable (AllRegions hp l) := by
  unfold AllRegions
  infer_instance

/-- The axis length left for the auto-sized items: `space - size - seps`. -/
def slack (hp : Heap) (l : Layout) : Int :=
  axisLen l.direction l.GetRect - fixedSum hp l - max 0 (l.CountItems - 1)

/-- The sentence on the filled axis as the specification words it: the
consumed length is `L - r` with `0 <= r < a` when `a > 0` and `r = 0` when
`a = 0`. -/
def FillsAxis (hp : Heap) (l : Layout) : Prop :=
  ∃ out r, l.Draw hp = some out ∧
    consumed l out = axisLen l.direction l.GetRect - r ∧
    (0 < autoCount hp l → 0 ≤ r ∧ r < autoCount hp l) ∧
    (autoCount hp l = 0 → r = 0)

/-- The rectangles the HorizontalLayout loop of Draw hands out when one cell
is reserved after every item but the last. -/
def placeH (hp : Heap) (autoSize y height : Int) : List Nat → Int → List Rect
  | [], _ => []
  | item :: rest, x =>
    ⟨x, y, itemLen hp autoSize item, height⟩ ::
      placeH hp autoSize y height rest (x + itemLen hp autoSize item + 1)

/-- The rectangles the VerticalLayout loop of Draw hands out. -/
def placeV (hp : Heap) (autoSize x width : Int) : List Nat → Int → List Rect
  | [], _ => []
  | item :: rest, y =>
    ⟨x, y, width, itemLen hp autoSize item⟩ ::
      placeV hp autoSize x width rest (y + itemLen hp autoSize item + 1)

/-- The states of a Layout: NewLayout and what the exported operations make of
it, on any heap and with any children.  The direction is only ever set to one
of the two declared constants. -/
inductive Layout.Reachable : Layout → Prop
  | new : Layout.Reachable NewLayout
  | setDirection {l : Layout} (d : Direction) :
      Layout.Reachable l → d = HorizontalLayout ∨ d = VerticalLayout →
      Layout.Reachable (l.SetDirection d)
  | setSplitter {l : Layout} (flag : Bool) :
      Layout.Reachable l → Layout.Reachable (l.SetSplitter flag)
  | setBackgroundColor {l : Layout} (color : Nat) :
      Layout.Reachable l → Layout.Reachable (l.SetBackgroundColor color)
  | setMouseCapture {l : Layout}
      (capture : Option (MouseAction → EventMouse → MouseAction × Option EventMouse)) :
      Layout.Reachable l → Layout.Reachable (l.SetMouseCapture capture)
  | addItem {l : Layout} (hp : Heap) (p : Option Primitive) (size : Int) :
      Layout.Reachable l → Layout.Reachable (Layout.AddItem hp l p size).2
  | removeItem {l : Layout} (hp : Heap) (i : Int) :
      Layout.Reachable l → Layout.Reachable (Layout.RemoveItem hp l i)
  | clearItems {l : Layout} : Layout.Reachable l → Layout.Reachable l.ClearItems
  | setRect {l : Layout} (hp : Heap) (x y width height : Int) :
      Layout.Reachable l → Layout.Reachable (Layout.SetRect hp l x y width height)
  | blur {l : Layout} : Layout.Reachable l → Layout.Reachable l.Blur
  | mouse {l : Layout} (env : Env) (hp : Heap) (action : MouseAction) (event : EventMouse)
      (r : MouseResult) :
      Layout.Reachable l → Layout.MouseHandler env hp l action event = some r →
      Layout.Reachable r.l

/-- The splitter count the specification asks for: `max(0, CountItems() - 1)`. -/
def SplitterCount (l : Layout) : Prop :=
  (l.splitters.length : Int) = max 0 (l.CountItems - 1)

/-- The sum of `f` over the first `k` items. -/
def prefixSum (f : Nat → Int) (items : List Nat) (k : Nat) : Int :=
  ((items.take k).map f).sum

/-- The rectangle Draw hands to the item `j` at index `k`: it starts after the
items before it and one cell for each of them. -/
def drawnRect (hp : Heap) (l : Layout) (k : Nat) (j : Nat) : Rect :=
  if l.direction = HorizontalLayout then
    ⟨l.x + prefixSum (fun i => itemLen hp (l.autoSize hp) i + 1) l.items k, l.y,
     itemLen hp (l.autoSize hp) j, l.height⟩
  else
    ⟨l.x, l.y + prefixSum (fun i => itemLen hp (l.autoSize hp) i + 1) l.items k, l.width,
     itemLen hp (l.autoSize hp) j⟩

/-- The splitter rebuildSplitters puts between the item `a` at index `k` and
its successor `b`: on the cell after the rectangle of `a`, across the layout. -/
def builtSplitter (hp : Heap) (l : Layout) (k : Nat) (a b : Nat) : splitter :=
  if l.direction = HorizontalLayout then
    { x := (l.x + prefixSum (fun i => itemLen hp (l.autoSize hp) i + 1) l.items k
              + itemLen hp (l.autoSize hp) a,
            l.x + prefixSum (fun i => itemLen hp (l.autoSize hp) i + 1) l.items k
              + itemLen hp (l.autoSize hp) a),
      y := (l.y, l.y + l.height - 1), a := a, b := b }
  else
    { x := (l.x, l.x + l.width - 1),
      y := (l.y + prefixSum (fun i => itemLen hp (l.autoSize hp) i + 1) l.items k
              + itemLen hp (l.autoSize hp) a,
            l.y + prefixSum (fun i => itemLen hp (l.autoSize hp) i + 1) l.items k
              + itemLen hp (l.autoSize hp) a),
      a := a, b := b }

/-- A splitter moved by `delta` along the axis of the layout. -/
def splitter.shift (s : splitter) (d : Direction) (delta : Int) : splitter :=
  if d = HorizontalLayout then { s with x := (s.x.1 + delta, s.x.2 + delta) }
  else { s with y := (s.y.1 + delta, s.y.2 + delta) }

/-- The position `delta` cells further along the axis of the layout. -/
def movedTo (d : Direction) (px py delta : Int) : EventMouse :=
  if d = HorizontalLayout then ⟨px + delta, py⟩ else ⟨px, py + delta⟩

/-- The separator cells the HorizontalLayout loop of Draw writes when one cell
is reserved after every item but the last: for the items from index `number`
on, with the cursor at `x` and the glyph variable at `g`. -/
def sepsH (l : Layout) (hp : Heap) (autoSize y height : Int) :
    List Nat → Nat → Int → Glyph → List Cell
  | item :: next :: rest, number, x, g =>
    (if l.splitterFlag then
        (cellRange y height).map (fun y_ => Cell.mk (x + itemLen hp autoSize item) y_
          (if l.splitterFlag && decide ((number : Int) = l.focusedSplitterNumber)
            then Glyph.VerticalFocus else g))
      else []) ++
      sepsH l hp autoSize y height (next :: rest) (number + 1) (x + itemLen hp autoSize item + 1)
        (if l.splitterFlag && decide ((number : Int) = l.focusedSplitterNumber)
          then Glyph.VerticalFocus else g)
  | _, _, _, _ => []

/-- The separator cells the VerticalLayout loop of Draw writes. -/
def sepsV (l : Layout) (hp : Heap) (autoSize x width : Int) :
    List Nat → Nat → Int → Glyph → List Cell
  | item :: next :: rest, number, y, g =>
    (if l.splitterFlag then
        (cellRange x width).map (fun x_ => Cell.mk x_ (y + itemLen hp autoSize item)
          (if l.splitterFlag && decide ((number : Int) = l.focusedSplitterNumber)
            then Glyph.HorizontalFocus else g))
      else []) ++
      sepsV l hp autoSize x width (next :: rest) (number + 1) (y + itemLen hp autoSize item + 1)
        (if l.splitterFlag && decide ((number : Int) = l.focusedSplitterNumber)
          then Glyph.HorizontalFocus else g)
  | _, _, _, _ => []

/-- The start of a rectangle along the axis of a layout: its x in a
HorizontalLayout, its y otherwise. -/
def axisStart (d : Direction) (r : Rect) : Int :=
  if d = HorizontalLayout then r.x else r.y

/-- The axis length of the rectangle of the region `p` when the item that
holds it is auto-sized, 0 when the item has a fixed Size. -/
def autoLen (hp : Heap) (d : Direction) (item : Nat) (p : Primitive) : Int :=
  if (hp.item item).Size = AutoSize then axisLen d (hp.rect p) else 0

/-- The cell `(x, y)` is in the rectangle, as InRect tests it. -/
def Rect.has (r : Rect) (x y : Int) : Prop :=
  x ≥ r.x ∧ x < r.x + r.width ∧ y ≥ r.y ∧ y < r.y + r.height

instance (r : Rect) (x y : Int) : Decidable (r.has x y) := by
  unfold Rect.has
  infer_instance

/-- The rectangle `r` lies inside the rectangle `outer`: it starts no earlier
and ends no later, along both axes. -/
def Rect.inside (r outer : Rect) : Prop :=
  outer.x ≤ r.x ∧ r.x + r.width ≤ outer.x + outer.width ∧
  outer.y ≤ r.y ∧ r.y + r.height ≤ outer.y + outer.height

instance (r outer : Rect) : Decidable (r.inside outer) := by
  unfold Rect.inside
  infer_instance

/-- The invariant on the drag state: the two items of the dragged splitter,
when there is one, are neighbours, in order, in the item list. -/
def DragAdjacent (l : Layout) : Prop :=
  ∀ s, l.draggedSplitter = some s →
    ∃ k, l.items[k]? = some s.a ∧ l.items[k + 1]? = some s.b

/-- Every splitter of the layout lies between two neighbours of the item list. -/
def SplittersAdjacent (l : Layout) : Prop :=
  ∀ s ∈ l.splitters, ∃ k, l.items[k]? = some s.a ∧ l.items[k + 1]? = some s.b

/-- No child region of the layout consumes the event. -/
def NoChildConsumes (env : Env) (hp : Heap) (l : Layout) (action : MouseAction)
    (event : EventMouse) : Prop :=
  ∀ p ∈ blurAll hp l.items, (env.mouse p action event).1 = false

instance (env : Env) (hp : Heap) (l : Layout) (action : MouseAction) (event : EventMouse) :
    Decidable (NoChildConsumes env hp l action event) := by
  unfold NoChildConsumes
  infer_instance

/-- Some button of a bordered window is hit by a click at `(x, y)`: the click
is on the title row and in the column of a button. -/
def ButtonHit (w : Window) (x y : Int) : Prop :=
  w.border = true ∧ y = w.y ∧ ∃ b ∈ w.buttons, b.hit w.x w.width x = true

instance (w : Window) (x y : Int) : Decidable (ButtonHit w x y) := by
  unfold ButtonHit
  infer_instance

/-- The sentence on button clicks as the specification words it: a callback
runs exactly when a button is hit, and otherwise the event goes to the mouse
handler of the content region. -/
def ClickRunsCallback (env : Env) (box : MouseAction → EventMouse → Bool × Option Primitive)
    (w : Window) (x y : Int) : Prop :=
  ((w.mouseHandler env box MouseAction.MouseLeftClick ⟨x, y⟩).callback ≠ none ↔ ButtonHit w x y) ∧
  (¬ ButtonHit w x y →
    ∃ p, (w.mouseHandler env box MouseAction.MouseLeftClick ⟨x, y⟩).forwarded
      = some (Receiver.root p))

/-! ## Example states -/

/-- A horizontal layout of width 10 with one fixed item of size 5. -/
def exFixed : Heap × Layout :=
  let s0 := (Heap.empty, NewLayout.SetDirection HorizontalLayout)
  let s1 := Layout.AddItem s0.1 s0.2 (some (Primitive.region 0)) 5
  (s1.1, Layout.SetRect s1.1 s1.2 0 0 10 4)

/-- A horizontal layout of width 0 with two auto-sized items. -/
def exNarrow : Heap × Layout :=
  let s0 := (Heap.empty, NewLayout.SetDirection HorizontalLayout)
  let s1 := Layout.AddItem s0.1 s0.2 (some (Primitive.region 0)) 0
  let s2 := Layout.AddItem s1.1 s1.2 (some (Primitive.region 1)) 0
  (s2.1, Layout.SetRect s2.1 s2.2 0 0 0 4)

/-- A vertical layout of width 1 and height 10 with two auto-sized items. -/
def exThin : Heap × Layout :=
  let s0 := (Heap.empty, NewLayout.SetDirection VerticalLayout)
  let s1 := Layout.AddItem s0.1 s0.2 (some (Primitive.region 0)) 0
  let s2 := Layout.AddItem s1.1 s1.2 (some (Primitive.region 1)) 0
  (s2.1, Layout.SetRect s2.1 s2.2 0 0 1 10)

/-- Children that never consume a mouse event. -/
def envIdle : Env :=
  { mouse := fun _ _ _ => (false, none) }

/-- A horizontal layout of width 40 and height 10 with three auto-sized items. -/
def exThree : Heap × Layout :=
  let s0 := (Heap.empty, NewLayout.SetDirection HorizontalLayout)
  let s1 := Layout.AddItem s0.1 s0.2 (some (Primitive.region 0)) 0
  let s2 := Layout.AddItem s1.1 s1.2 (some (Primitive.region 1)) 0
  let s3 := Layout.AddItem s2.1 s2.2 (some (Primitive.region 2)) 0
  (s3.1, Layout.SetRect s3.1 s3.2 0 0 40 10)

/-- The heap and layout of a mouse result, or the given state after a fault. -/
def stateOr (d : Heap × Layout) (r : Option MouseResult) : Heap × Layout :=
  match r with
  | some m => (m.heap, m.l)
  | none => d

/-- The heap of a Draw result, or the given heap after a fault. -/
def heapOr (d : Heap) (r : Option DrawResult) : Heap :=
  match r with
  | some out => out.heap
  | none => d

/-- `exThree` after Draw: the items are 12 wide, at columns 0, 13 and 26. -/
def exDrawn : Heap × Layout :=
  (heapOr exThree.1 (exThree.2.Draw exThree.1), exThree.2)

/-- `exDrawn` after a left press on the first splitter, at `(12, 0)`. -/
def exPressed : Heap × Layout :=
  stateOr exDrawn
    (exDrawn.2.MouseHandler envIdle exDrawn.1 MouseAction.MouseLeftDown ⟨12, 0⟩)

/-- A screen of 80 by 24 cells: the root layout 0 fills it, the window 1 has
the right half. -/
def exScreen : Heap :=
  (Heap.empty.setRect (Primitive.layout 0) ⟨0, 0, 80, 24⟩).setRect (Primitive.window 1)
    ⟨40, 0, 40, 24⟩

/-- A manager whose root is the layout 0. -/
def exManager : Manager :=
  NewWindowManager.SetRoot 0

/-- AddButton for every call of a list, in order. -/
def addButtons (w : Window) : List (Nat × ButtonAlignment × Option Nat) → Window
  | [] => w
  | c :: rest => addButtons (w.AddButton c.1 c.2.1 c.2.2) rest

/-- The offsets of the buttons of an alignment, in list order. -/
def offsetsOf (w : Window) (alignment : ButtonAlignment) : List Int :=
  (w.buttons.filter (fun b => decide (b.Alignment = alignment))).map (fun b => b.offsetX)

/-- The three calls of the button example: B1 left, B2 right, B3 left. -/
def exCalls : List (Nat × ButtonAlignment × Option Nat) :=
  [(1, ButtonAlignLeft, none), (2, ButtonAlignRight, none), (3, ButtonAlignLeft, none)]

/-- A horizontal layout of width 40 and height 10 with two auto-sized items:
each is 19 wide, the splitter is at column 19. -/
def exTwo : Heap × Layout :=
  let s0 := (Heap.empty, NewLayout.SetDirection HorizontalLayout)
  let s1 := Layout.AddItem s0.1 s0.2 (some (Primitive.region 0)) 0
  let s2 := Layout.AddItem s1.1 s1.2 (some (Primitive.region 1)) 0
  (s2.1, Layout.SetRect s2.1 s2.2 0 0 40 10)

/-- Draw, left press, mouse move, left release and Draw again, one after the
other on the same layout; the result keeps the first and the last Draw and
the state after the release. -/
def dragScenario (env : Env) (hp0 : Heap) (l : Layout) (press move release : EventMouse) :
    Option (DrawResult × MouseResult × DrawResult) :=
  match l.Draw hp0 with
  | none => none
  | some d0 =>
    match l.MouseHandler env d0.heap MouseAction.MouseLeftDown press with
    | none => none
    | some m1 =>
      match m1.l.MouseHandler env m1.heap MouseAction.MouseMove move with
      | none => none
      | some m2 =>
        match m2.l.MouseHandler env m2.heap MouseAction.MouseLeftUp release with
        | none => none
        | some m3 =>
          match m3.l.Draw m3.heap with
          | none => none
          | some d1 => some (d0, m3, d1)

/-- Children of which the one that holds region 1 consumes every mouse event
and asks for the capture; the others consume nothing. -/
def envSecond : Env :=
  { mouse := fun p _ _ =>
      if p = Primitive.region 1 then (true, some (Primitive.region 1)) else (false, none) }

/-- A horizontal layout of width 40 and height 10 with two items of fixed
Size 5 whose regions have the rectangle `(0, 0, 15, 10)`: the layout was never
drawn.  The state is the one after a left press on its splitter, at `(5, 0)`. -/
def exUndrawn : Heap × Layout :=
  let h0 := (Heap.empty.setRect (Primitive.region 0) ⟨0, 0, 15, 10⟩).setRect
    (Primitive.region 1) ⟨0, 0, 15, 10⟩
  let s1 := Layout.AddItem h0 (NewLayout.SetDirection HorizontalLayout) (some (Primitive.region 0)) 5
  let s2 := Layout.AddItem s1.1 s1.2 (some (Primitive.region 1)) 5
  let s3 := (s2.1, Layout.SetRect s2.1 s2.2 0 0 40 10)
  stateOr s3 (s3.2.MouseHandler envIdle s3.1 MouseAction.MouseLeftDown ⟨5, 0⟩)

/-- `exPressed` after ClearItems: the first splitter of `exThree` was pressed,
then the items were cleared. -/
def exCleared : Heap × Layout :=
  (exPressed.1, exPressed.2.ClearItems)

/-- A bordered window with the content region 7 that hangs over the left edge
of the screen: its rectangle is `(-2, 0, 20, 5)`. -/
def exOffscreen : Window :=
  ((Window.New.SetRoot (some (Primitive.region 7))).SetBorder true).SetRect (-2) 0 20 5

/-- A mouse handler of the Box that consumes nothing. -/
def boxIdle : MouseAction → EventMouse → Bool × Option Primitive :=
  fun _ _ => (false, none)

/-- A bordered window at `(0, 0, 20, 5)` with the content region 7 and one
left-aligned button without a callback (offsetX 2). -/
def exSilent : Window :=
  (((Window.New.SetRoot (some (Primitive.region 7))).SetBorder true).SetRect 0 0 20 5).AddButton
    1 ButtonAlignLeft none

/-- A bordered window at `(0, 0, 20, 5)` without a content region and with the
buttons B1 (left, callback 11), B2 (right, callback 12), B3 (left, callback 13). -/
def exBare : Window :=
  addButtons ((Window.New.SetBorder true).SetRect 0 0 20 5)
    [(1, ButtonAlignLeft, some 11), (2, ButtonAlignRight, some 12), (3, ButtonAlignLeft, some 13)]

/-- `exThree` with the splitter flag on, drawn, after a left press on the
first splitter at `(12, 0)`: the focused splitter index is 0. -/
def exFocused : Heap × Layout :=
  stateOr (heapOr exThree.1 ((exThree.2.SetSplitter true).Draw exThree.1),
           exThree.2.SetSplitter true)
    ((exThree.2.SetSplitter true).MouseHandler envIdle
      (heapOr exThree.1 ((exThree.2.SetSplitter true).Draw exThree.1))
      MouseAction.MouseLeftDown ⟨12, 0⟩)

/-! ## Sizing lemmas -/

theorem countAuto_eq (hp : Heap) (items : List Nat) (acc : Int) :
    countAuto hp items acc
      = acc + ((items.filter (fun i => decide ((hp.item i).Size = AutoSize))).length : Int) := by
  induction items generalizing acc with
  | nil => simp [countAuto]
  | cons i rest ih =>
    by_cases h : (hp.item i).Size = AutoSize
    · simp [countAuto, h, ih]; omega
    · simp [countAuto, h, ih]

theorem sumSize_eq (hp : Heap) (items : List Nat) (acc : Int) :
    sumSize hp items acc = acc + (items.map (fun i => (hp.item i).Size)).sum := by
  induction items generalizing acc with
  | nil => simp [sumSize]
  | cons i rest ih => simp [sumSize, ih]; omega

theorem itemsAmount_snd (hp : Heap) (l : Layout) : (l.itemsAmount hp).2 = autoCount hp l := by
  simp [Layout.itemsAmount, autoCount, countAuto_eq]

theorem itemsSize_eq (hp : Heap) (l : Layout) : l.itemsSize hp = fixedSum hp l := by
  simp [Layout.itemsSize, fixedSum, sumSize_eq]

theorem splittersAmount_eq (l : Layout) : l.splittersAmount = max 0 (l.CountItems - 1) := by
  unfold Layout.splittersAmount Layout.CountItems
  split <;> omega

theorem sum_itemLen (hp : Heap) (q : Int) (items : List Nat) :
    (items.map (itemLen hp q)).sum
      = (items.map (fun i => (hp.item i).Size)).sum
        + ((items.filter (fun i => decide ((hp.item i).Size = AutoSize))).length : Int) * q := by
  induction items with
  | nil => simp
  | cons i rest ih =>
    by_cases h : (hp.item i).Size = AutoSize
    · simp only [List.map_cons, List.sum_cons, ih, itemLen, h, if_true, List.filter_cons,
        decide_True, List.length_cons, Nat.cast_add, Nat.cast_one]
      simp only [AutoSize]
      ring
    · simp only [List.map_cons, List.sum_cons, ih, itemLen, h, if_false, List.filter_cons,
        decide_False]
      simp
      ring

theorem placeH_map_width (hp : Heap) (q y height : Int) (items : List Nat) (x : Int) :
    (placeH hp q y height items x).map (fun r => r.width) = items.map (itemLen hp q) := by
  induction items generalizing x with
  | nil => simp [placeH]
  | cons i rest ih => simp [placeH, ih]

theorem placeV_map_height (hp : Heap) (q x width : Int) (items : List Nat) (y : Int) :
    (placeV hp q x width items y).map (fun r => r.height) = items.map (itemLen hp q) := by
  induction items generalizing y with
  | nil => simp [placeV]
  | cons i rest ih => simp [placeV, ih]

/-- The horizontal loop of Draw returns, and hands out the rectangles of placeH. -/
theorem drawH_spec (hp : Heap) (l : Layout) (q y height : Int) (items : List Nat) :
    ∀ (number : Nat) (c seps : Int) (g : Glyph),
      (∀ i ∈ items, (hp.item i).Primitive ≠ none) →
      (items ≠ [] → seps = (items.length : Int) - 1) →
      ∃ calls screen, drawH hp l q y height items number c seps g = some (calls, screen) ∧
        calls.map (fun c => some c.1) = items.map (fun i => (hp.item i).Primitive) ∧
        calls.map Prod.snd = placeH hp q y height items c := by
  induction items with
  | nil => intro number c seps g _ _; exact ⟨[], [], rfl, rfl, rfl⟩
  | cons i rest ih =>
    intro number c seps g hprim hseps
    have hseps := hseps (List.cons_ne_nil _ _)
    have hi : (hp.item i).Primitive ≠ none := hprim i (List.mem_cons_self _ _)
    have hrest : ∀ j ∈ rest, (hp.item j).Primitive ≠ none :=
      fun j hj => hprim j (List.mem_cons_of_mem _ hj)
    obtain ⟨p, hpi⟩ := Option.ne_none_iff_exists'.mp hi
    cases rest with
    | nil =>
      have hs : ¬ seps > 0 := by simp at hseps; omega
      refine ⟨[(p, ⟨c, y, itemLen hp q i, height⟩)], [], ?_, ?_, ?_⟩
      · simp [drawH, hpi, hs, itemLen]
      · simp [hpi]
      · simp [placeH]
    | cons j rest2 =>
      have hs : seps > 0 := by simp at hseps; omega
      obtain ⟨calls, screen, hd, hc1, hc2⟩ :=
        ih (number + 1) (c + itemLen hp q i + 1) (seps - 1)
          (if l.splitterFlag && decide ((number : Int) = l.focusedSplitterNumber)
            then Glyph.VerticalFocus else g) hrest (fun _ => by simp at hseps ⊢; omega)
      refine ⟨(p, ⟨c, y, itemLen hp q i, height⟩) :: calls,
        (if l.splitterFlag then (cellRange y height).map (fun k => Cell.mk (c + itemLen hp q i) k
          (if l.splitterFlag && decide ((number : Int) = l.focusedSplitterNumber)
            then Glyph.VerticalFocus else g)) else []) ++ screen, ?_, ?_, ?_⟩
      · rw [drawH]
        simp only [hpi, hs, if_true]
        simp only [itemLen] at hd
        rw [hd]
        simp [itemLen]
      · simp [hpi, hc1]
      · simp [placeH, hc2]

/-- The vertical loop of Draw returns, and hands out the rectangles of placeV. -/
theorem drawV_spec (hp : Heap) (l : Layout) (q x width : Int) (items : List Nat) :
    ∀ (number : Nat) (c seps : Int) (g : Glyph),
      (∀ i ∈ items, (hp.item i).Primitive ≠ none) →
      (items ≠ [] → seps = (items.length : Int) - 1) →
      ∃ calls screen, drawV hp l q x width items number c seps g = some (calls, screen) ∧
        calls.map (fun c => some c.1) = items.map (fun i => (hp.item i).Primitive) ∧
        calls.map Prod.snd = placeV hp q x width items c := by
  induction items with
  | nil => intro number c seps g _ _; exact ⟨[], [], rfl, rfl, rfl⟩
  | cons i rest ih =>
    intro number c seps g hprim hseps
    have hseps := hseps (List.cons_ne_nil _ _)
    have hi : (hp.item i).Primitive ≠ none := hprim i (List.mem_cons_self _ _)
    have hrest : ∀ j ∈ rest, (hp.item j).Primitive ≠ none :=
      fun j hj => hprim j (List.mem_cons_of_mem _ hj)
    obtain ⟨p, hpi⟩ := Option.ne_none_iff_exists'.mp hi
    cases rest with
    | nil =>
      have hs : ¬ seps > 0 := by simp at hseps; omega
      refine ⟨[(p, ⟨x, c, width, itemLen hp q i⟩)], [], ?_, ?_, ?_⟩
      · simp [drawV, hpi, hs, itemLen]
      · simp [hpi]
      · simp [placeV]
    | cons j rest2 =>
      have hs : seps > 0 := by simp at hseps; omega
      obtain ⟨calls, screen, hd, hc1, hc2⟩ :=
        ih (number + 1) (c + itemLen hp q i + 1) (seps - 1)
          (if l.splitterFlag && decide ((number : Int) = l.focusedSplitterNumber)
            then Glyph.HorizontalFocus else g) hrest (fun _ => by simp at hseps ⊢; omega)
      refine ⟨(p, ⟨x, c, width, itemLen hp q i⟩) :: calls,
        (if l.splitterFlag then (cellRange x width).map (fun k => Cell.mk k (c + itemLen hp q i)
          (if l.splitterFlag && decide ((number : Int) = l.focusedSplitterNumber)
            then Glyph.HorizontalFocus else g)) else []) ++ screen, ?_, ?_, ?_⟩
      · rw [drawV]
        simp only [hpi, hs, if_true]
        simp only [itemLen] at hd
        rw [hd]
        simp [itemLen]
      · simp [hpi, hc1]
      · simp [placeV, hc2]

theorem availableSpace_eq (l : Layout)
    (hd : l.direction = HorizontalLayout ∨ l.direction = VerticalLayout) :
    l.availableSpace = axisLen l.direction l.GetRect := by
  rcases hd with h | h <;> simp [Layout.availableSpace, axisLen, Layout.GetRect, h, HorizontalLayout, VerticalLayout]

theorem autoSize_eq (hp : Heap) (l : Layout)
    (hd : l.direction = HorizontalLayout ∨ l.direction = VerticalLayout) :
    l.autoSize hp = if autoCount hp l ≠ 0 then Int.tdiv (slack hp l) (autoCount hp l) else 0 := by
  unfold Layout.autoSize slack
  simp only [itemsAmount_snd, itemsSize_eq, splittersAmount_eq, availableSpace_eq l hd]

/-- Draw on a horizontal layout whose items all hold a region. -/
theorem Draw_horizontal (hp : Heap) (l : Layout) (hd : l.direction = HorizontalLayout)
    (hreg : AllRegions hp l) :
    ∃ out, l.Draw hp = some out ∧ out.heap = applyCalls hp out.calls ∧
      out.calls.map (fun c => some c.1) = l.items.map (fun i => (hp.item i).Primitive) ∧
      out.calls.map Prod.snd = placeH hp (l.autoSize hp) l.y l.height l.items l.x := by
  obtain ⟨calls, screen, h1, h2, h3⟩ :=
    drawH_spec hp l (l.autoSize hp) l.y l.height l.items 0 l.x l.splittersAmount Glyph.Vertical
      hreg (fun hne => by
        unfold Layout.splittersAmount
        have : 0 < l.items.length := List.length_pos.mpr hne
        split <;> omega)
  refine ⟨{ heap := applyCalls hp calls, calls := calls,
              screen := (if l.backgroundColor ≠ ColorDefault
                then fillCells l.x l.y l.width l.height else []) ++ screen }, ?_, rfl, h2, h3⟩
  unfold Layout.Draw
  simp only [hd, if_true, h1]

/-- Draw on a vertical layout whose items all hold a region. -/
theorem Draw_vertical (hp : Heap) (l : Layout) (hd : l.direction = VerticalLayout)
    (hreg : AllRegions hp l) :
    ∃ out, l.Draw hp = some out ∧ out.heap = applyCalls hp out.calls ∧
      out.calls.map (fun c => some c.1) = l.items.map (fun i => (hp.item i).Primitive) ∧
      out.calls.map Prod.snd = placeV hp (l.autoSize hp) l.x l.width l.items l.y := by
  obtain ⟨calls, screen, h1, h2, h3⟩ :=
    drawV_spec hp l (l.autoSize hp) l.x l.width l.items 0 l.y l.splittersAmount Glyph.Horizontal
      hreg (fun hne => by
        unfold Layout.splittersAmount
        have : 0 < l.items.length := List.length_pos.mpr hne
        split <;> omega)
  have hne : ¬ l.direction = HorizontalLayout := by
    rw [hd]; decide
  refine ⟨{ heap := applyCalls hp calls, calls := calls,
              screen := (if l.backgroundColor ≠ ColorDefault
                then fillCells l.x l.y l.width l.height else []) ++ screen }, ?_, rfl, h2, h3⟩
  unfold Layout.Draw
  rw [hd] at hne
  simp only [hne, hd, if_true, if_false, h1]

/-- The axis lengths Draw hands out are the item lengths, in item order. -/
theorem Draw_lengths (hp : Heap) (l : Layout)
    (hd : l.direction = HorizontalLayout ∨ l.direction = VerticalLayout)
    (hreg : AllRegions hp l) :
    ∃ out, l.Draw hp = some out ∧
      out.calls.map (fun c => axisLen l.direction c.2) = l.items.map (itemLen hp (l.autoSize hp)) := by
  rcases hd with h | h
  · obtain ⟨out, h1, _, _, h4⟩ := Draw_horizontal hp l h hreg
    refine ⟨out, h1, ?_⟩
    have := congrArg (List.map (fun r : Rect => r.width)) h4
    rw [placeH_map_width, List.map_map] at this
    rw [← this]
    apply List.map_congr_left
    intro c _
    simp [axisLen, h]
  · obtain ⟨out, h1, _, _, h4⟩ := Draw_vertical hp l h hreg
    refine ⟨out, h1, ?_⟩
    have := congrArg (List.map (fun r : Rect => r.height)) h4
    rw [placeV_map_height, List.map_map] at this
    rw [← this]
    apply List.map_congr_left
    intro c _
    simp [axisLen, h, VerticalLayout, HorizontalLayout]

/-! ## C1 -/

/-- C1, amended.  For a HorizontalLayout or VerticalLayout whose items all hold
a region, Draw returns and hands out one rectangle per item; the sum of their
axis lengths plus `max(0, k-1)` is the sum of the Sizes plus `max(0, k-1)`
when no item is auto-sized, and is `L - r` with `r` the truncated remainder of
`L - sizes - max(0, k-1)` by the number `a` of auto-sized items otherwise,
where `0 <= r < a` as soon as the fixed sizes and separators fit into `L`. -/
theorem draw_consumed_length (hp : Heap) (l : Layout)
    (hd : l.direction = HorizontalLayout ∨ l.direction = VerticalLayout)
    (hreg : AllRegions hp l) :
    ∃ out, l.Draw hp = some out ∧ out.calls.length = l.items.length ∧
      (autoCount hp l = 0 → consumed l out = fixedSum hp l + max 0 (l.CountItems - 1)) ∧
      (0 < autoCount hp l →
        consumed l out = axisLen l.direction l.GetRect - Int.tmod (slack hp l) (autoCount hp l) ∧
        (0 ≤ slack hp l →
          0 ≤ Int.tmod (slack hp l) (autoCount hp l) ∧
          Int.tmod (slack hp l) (autoCount hp l) < autoCount hp l)) := by
  obtain ⟨out, h1, h2⟩ := Draw_lengths hp l hd hreg
  refine ⟨out, h1, ?_, ?_, ?_⟩
  · have := congrArg List.length h2
    simpa using this
  · intro ha
    unfold consumed
    rw [h2, sum_itemLen]
    have : ((l.items.filter (fun i => decide ((hp.item i).Size = AutoSize))).length : Int) = 0 := ha
    rw [this]
    simp [fixedSum]
  · intro ha
    have hne : autoCount hp l ≠ 0 := by omega
    refine ⟨?_, fun hs => ⟨Int.tmod_nonneg _ hs, Int.tmod_lt_of_pos _ ha⟩⟩
    unfold consumed
    rw [h2, sum_itemLen, autoSize_eq hp l hd, if_pos hne]
    have hfilt : ((l.items.filter (fun i => decide ((hp.item i).Size = AutoSize))).length : Int)
        = autoCount hp l := rfl
    rw [hfilt]
    have hdm := Int.tdiv_add_tmod (slack hp l) (autoCount hp l)
    have hsl : slack hp l = axisLen l.direction l.GetRect - fixedSum hp l - max 0 (l.CountItems - 1) := rfl
    have hfs : (l.items.map (fun i => (hp.item i).Size)).sum = fixedSum hp l := rfl
    rw [hfs]
    have hmul : autoCount hp l * (slack hp l).tdiv (autoCount hp l)
        = (slack hp l).tdiv (autoCount hp l) * autoCount hp l := by ring
    linarith

/-- C1, witness: the theorem at a horizontal layout of width 0 with two auto items. -/
theorem draw_consumed_length_witness :
    ∃ out, exNarrow.2.Draw exNarrow.1 = some out ∧ out.calls.length = exNarrow.2.items.length ∧
      (autoCount exNarrow.1 exNarrow.2 = 0 →
        consumed exNarrow.2 out = fixedSum exNarrow.1 exNarrow.2 + max 0 (exNarrow.2.CountItems - 1)) ∧
      (0 < autoCount exNarrow.1 exNarrow.2 →
        consumed exNarrow.2 out = axisLen exNarrow.2.direction exNarrow.2.GetRect
          - Int.tmod (slack exNarrow.1 exNarrow.2) (autoCount exNarrow.1 exNarrow.2) ∧
        (0 ≤ slack exNarrow.1 exNarrow.2 →
          0 ≤ Int.tmod (slack exNarrow.1 exNarrow.2) (autoCount exNarrow.1 exNarrow.2) ∧
          Int.tmod (slack exNarrow.1 exNarrow.2) (autoCount exNarrow.1 exNarrow.2)
            < autoCount exNarrow.1 exNarrow.2)) :=
  draw_consumed_length exNarrow.1 exNarrow.2 (by decide) (by decide)

/-- C1, counterexample.  With the splitter flag on, the sentence as written
fails on a layout of width 10 with one fixed item of size 5 (5 cells consumed,
no auto item, yet `5 ≠ 10`), and on a layout of width 0 with two auto items
(1 cell consumed: the remainder would be `-1`). -/
theorem fills_axis_fails :
    (exFixed.2.SetSplitter true).splitterFlag = true ∧
    ¬ FillsAxis exFixed.1 (exFixed.2.SetSplitter true) ∧
    (exNarrow.2.SetSplitter true).splitterFlag = true ∧
    ¬ FillsAxis exNarrow.1 (exNarrow.2.SetSplitter true) := by
  refine ⟨rfl, ?_, rfl, ?_⟩
  · rintro ⟨out, r, hdraw, hsum, _, h0⟩
    have hr : r = 0 := h0 (by decide)
    have hc : ((exFixed.2.SetSplitter true).Draw exFixed.1).map
        (consumed (exFixed.2.SetSplitter true)) = some 5 := by decide
    rw [hdraw] at hc
    simp only [Option.map_some', Option.some.injEq] at hc
    rw [hc, hr] at hsum
    revert hsum
    decide
  · rintro ⟨out, r, hdraw, hsum, hpos, _⟩
    have hr := hpos (by decide)
    have hc : ((exNarrow.2.SetSplitter true).Draw exNarrow.1).map
        (consumed (exNarrow.2.SetSplitter true)) = some 1 := by decide
    rw [hdraw] at hc
    simp only [Option.map_some', Option.some.injEq] at hc
    rw [hc] at hsum
    have hL : axisLen (exNarrow.2.SetSplitter true).direction
        (exNarrow.2.SetSplitter true).GetRect = 0 := by decide
    rw [hL] at hsum
    omega

/-! ## C2 -/

theorem rebuildH_length (hp : Heap) (q y height : Int) (items : List Nat) :
    ∀ (x seps : Int), (items ≠ [] → seps = (items.length : Int) - 1) →
      (rebuildH hp q y height items x seps).length = items.length - 1 := by
  induction items with
  | nil => intro x seps _; simp [rebuildH]
  | cons a rest ih =>
    intro x seps hseps
    have hseps := hseps (List.cons_ne_nil _ _)
    cases rest with
    | nil => simp [rebuildH]
    | cons b rest2 =>
      have hs : seps > 0 := by simp at hseps; omega
      rw [rebuildH]
      simp only [hs, if_true, List.length_cons]
      rw [ih _ _ (fun _ => by simp at hseps ⊢; omega)]
      simp

theorem rebuildV_length (hp : Heap) (q x width : Int) (items : List Nat) :
    ∀ (y seps : Int), (items ≠ [] → seps = (items.length : Int) - 1) →
      (rebuildV hp q x width items y seps).length = items.length - 1 := by
  induction items with
  | nil => intro y seps _; simp [rebuildV]
  | cons a rest ih =>
    intro y seps hseps
    have hseps := hseps (List.cons_ne_nil _ _)
    cases rest with
    | nil => simp [rebuildV]
    | cons b rest2 =>
      have hs : seps > 0 := by simp at hseps; omega
      rw [rebuildV]
      simp only [hs, if_true, List.length_cons]
      rw [ih _ _ (fun _ => by simp at hseps ⊢; omega)]
      simp

theorem splittersAmount_of_ne_nil (l : Layout) (hne : l.items ≠ []) :
    l.splittersAmount = (l.items.length : Int) - 1 := by
  unfold Layout.splittersAmount
  have : 0 < l.items.length := List.length_pos.mpr hne
  split <;> omega

theorem rebuildSplitters_items (hp : Heap) (l : Layout) :
    (Layout.rebuildSplitters hp l).items = l.items := by
  unfold Layout.rebuildSplitters
  split
  · rfl
  · split <;> rfl

theorem rebuildSplitters_direction (hp : Heap) (l : Layout) :
    (Layout.rebuildSplitters hp l).direction = l.direction := by
  unfold Layout.rebuildSplitters
  split
  · rfl
  · split <;> rfl

/-- After rebuildSplitters, a layout of one of the two directions holds one
splitter per pair of neighbours. -/
theorem rebuildSplitters_count (hp : Heap) (l : Layout)
    (hd : l.direction = HorizontalLayout ∨ l.direction = VerticalLayout) :
    SplitterCount (Layout.rebuildSplitters hp l) := by
  unfold SplitterCount Layout.CountItems
  rw [rebuildSplitters_items]
  have hlen : (Layout.rebuildSplitters hp l).splitters.length = l.items.length - 1 := by
    rcases hd with h | h
    · unfold Layout.rebuildSplitters
      simp only [h, if_true]
      exact rebuildH_length hp _ _ _ l.items _ _ (splittersAmount_of_ne_nil l)
    · have hne : ¬ l.direction = HorizontalLayout := by rw [h]; decide
      unfold Layout.rebuildSplitters
      simp only [hne, h, if_true, if_false]
      exact rebuildV_length hp _ _ _ l.items _ _ (splittersAmount_of_ne_nil l)
  rw [hlen]
  omega

theorem mouseHandler_inv (env : Env) (hp : Heap) (l : Layout) (action : MouseAction)
    (event : EventMouse) (r : MouseResult) (h : l.mouseHandler env hp action event = some r) :
    r.l.direction = l.direction ∧ r.l.items = l.items ∧
      (r.l.splitters = l.splitters ∨
        r.l.splitters = (Layout.rebuildSplitters hp { l with draggedSplitter := none }).splitters) := by
  unfold Layout.mouseHandler at h
  by_cases hin : l.InRect event.x event.y = true
  · by_cases hc : (offerChildren env hp action event l.items false none).1 = true
    · simp only [hin, hc, Bool.not_true, Bool.false_eq_true, if_false, if_true] at h
      cases h; exact ⟨rfl, rfl, Or.inl rfl⟩
    · simp only [hin, hc, Bool.not_true, Bool.false_eq_true, if_false] at h
      cases action with
      | MouseMove =>
        cases hds : l.draggedSplitter with
        | none =>
          simp only [hds] at h
          cases h; exact ⟨rfl, rfl, Or.inl rfl⟩
        | some s =>
          simp only [hds] at h
          cases hpa : (hp.item s.a).Primitive with
          | none => simp [hpa] at h
          | some pa =>
            cases hpb : (hp.item s.b).Primitive with
            | none => simp [hpa, hpb] at h
            | some pb =>
              simp only [hpa, hpb] at h
              by_cases hH : l.direction = HorizontalLayout
              · rw [if_pos hH] at h
                cases h; exact ⟨rfl, rfl, Or.inl rfl⟩
              · by_cases hV : l.direction = VerticalLayout
                · rw [if_neg hH, if_pos hV] at h
                  cases h; exact ⟨rfl, rfl, Or.inl rfl⟩
                · rw [if_neg hH, if_neg hV] at h
                  cases h
      | MouseLeftDown =>
        cases hf : findSplitter event.x event.y l.splitters 0 with
        | none =>
          simp only [hf] at h
          cases h; exact ⟨rfl, rfl, Or.inl rfl⟩
        | some ns =>
          simp only [hf] at h
          cases h; exact ⟨rfl, rfl, Or.inl rfl⟩
      | MouseLeftUp =>
        simp only at h
        cases h
        exact ⟨rebuildSplitters_direction _ _, rebuildSplitters_items _ _, Or.inr rfl⟩
      | MouseLeftClick =>
        simp only at h
        cases h; exact ⟨rfl, rfl, Or.inl rfl⟩
      | other code =>
        simp only at h
        cases h; exact ⟨rfl, rfl, Or.inl rfl⟩
  · simp only [hin, Bool.not_false, if_true] at h
    cases h; exact ⟨rfl, rfl, Or.inl rfl⟩

/-- Every reachable layout has one of the two directions and one splitter per
pair of neighbours. -/
theorem Reachable_inv (l : Layout) (hr : l.Reachable) :
    (l.direction = HorizontalLayout ∨ l.direction = VerticalLayout) ∧ SplitterCount l := by
  induction hr with
  | new => exact ⟨Or.inr rfl, by unfold SplitterCount; decide⟩
  | setDirection d _ hd ih => exact ⟨hd, ih.2⟩
  | setSplitter flag _ ih => exact ih
  | setBackgroundColor color _ ih => exact ih
  | setMouseCapture capture _ ih => exact ih
  | @addItem l hp p size _ ih =>
    refine ⟨?_, rebuildSplitters_count _ _ ih.1⟩
    show (Layout.rebuildSplitters _ _).direction = _ ∨ (Layout.rebuildSplitters _ _).direction = _
    rw [rebuildSplitters_direction]
    exact ih.1
  | @removeItem l hp i _ ih =>
    unfold Layout.RemoveItem
    split
    · exact ih
    · refine ⟨?_, rebuildSplitters_count _ _ ih.1⟩
      rw [rebuildSplitters_direction]
      exact ih.1
  | clearItems _ ih => exact ⟨ih.1, by simp [SplitterCount, Layout.ClearItems, Layout.CountItems]⟩
  | @setRect l hp x y w h _ ih =>
    refine ⟨?_, rebuildSplitters_count _ _ ih.1⟩
    show (Layout.rebuildSplitters _ _).direction = _ ∨ (Layout.rebuildSplitters _ _).direction = _
    rw [rebuildSplitters_direction]
    exact ih.1
  | blur _ ih => exact ih
  | @mouse l env hp action event r _ hm ih =>
    unfold Layout.MouseHandler at hm
    split at hm
    · obtain ⟨h1, h2, h3⟩ := mouseHandler_inv _ _ _ _ _ _ hm
      refine ⟨by rw [h1]; exact ih.1, ?_⟩
      rcases h3 with h3 | h3
      · unfold SplitterCount Layout.CountItems
        rw [h2, h3]
        exact ih.2
      · have := rebuildSplitters_count hp { l with draggedSplitter := none } ih.1
        unfold SplitterCount Layout.CountItems at this ⊢
        rw [h2, h3]
        rw [rebuildSplitters_items] at this
        exact this
    · cases hm; exact ih

/-- C2.  For every Layout whose direction is HorizontalLayout or
VerticalLayout, on any heap: right after AddItem, after SetRect and after
RemoveItem with a valid index the layout holds exactly
`max(0, CountItems() - 1)` splitters.  RemoveItem with an invalid index
changes nothing, and the count is `max(0, CountItems() - 1)` there too in
every reachable layout. -/
theorem splitter_count_after (l : Layout) (hp : Heap)
    (hd : l.direction = HorizontalLayout ∨ l.direction = VerticalLayout) :
    (∀ (p : Option Primitive) (size : Int),
      ((Layout.AddItem hp l p size).2.splitters.length : Int)
        = max 0 ((Layout.AddItem hp l p size).2.CountItems - 1)) ∧
    (∀ x y width height : Int,
      ((Layout.SetRect hp l x y width height).splitters.length : Int)
        = max 0 ((Layout.SetRect hp l x y width height).CountItems - 1)) ∧
    (∀ i : Int, (0 ≤ i ∧ i < l.CountItems) ∨ l.Reachable →
      ((Layout.RemoveItem hp l i).splitters.length : Int)
        = max 0 ((Layout.RemoveItem hp l i).CountItems - 1)) ∧
    (∀ i : Int, i < 0 ∨ l.CountItems ≤ i → Layout.RemoveItem hp l i = l) := by
  refine ⟨?_, ?_, ?_, ?_⟩
  · intro p size
    exact rebuildSplitters_count _ _ hd
  · intro x y width height
    exact rebuildSplitters_count _ _ hd
  · intro i hi
    rcases hi with ⟨h0, h1⟩ | hr
    · have hv : ¬ (i < 0 ∨ i ≥ (l.items.length : Int)) := by
        unfold Layout.CountItems at h1
        omega
      unfold Layout.RemoveItem
      rw [if_neg hv]
      exact rebuildSplitters_count _ _ hd
    · exact (Reachable_inv _ (Layout.Reachable.removeItem hp i hr)).2
  · intro i hi
    have hv : i < 0 ∨ i ≥ (l.items.length : Int) := by
      unfold Layout.CountItems at hi
      omega
    unfold Layout.RemoveItem
    rw [if_pos hv]

/-- C2, witness: the theorem at the two-item layout `exNarrow`, reached from
NewLayout by SetDirection, two AddItem and SetRect; RemoveItem(-1) and
RemoveItem(0) both leave the right count. -/
theorem splitter_count_after_witness :
    ((Layout.RemoveItem exNarrow.1 exNarrow.2 (-1)).splitters.length : Int)
        = max 0 ((Layout.RemoveItem exNarrow.1 exNarrow.2 (-1)).CountItems - 1) ∧
    ((Layout.RemoveItem exNarrow.1 exNarrow.2 0).splitters.length : Int)
        = max 0 ((Layout.RemoveItem exNarrow.1 exNarrow.2 0).CountItems - 1) ∧
    ((Layout.AddItem exNarrow.1 exNarrow.2 none 7).2.splitters.length : Int)
        = max 0 ((Layout.AddItem exNarrow.1 exNarrow.2 none 7).2.CountItems - 1) ∧
    ((Layout.SetRect exNarrow.1 exNarrow.2 1 2 30 4).splitters.length : Int)
        = max 0 ((Layout.SetRect exNarrow.1 exNarrow.2 1 2 30 4).CountItems - 1) :=
  ⟨(splitter_count_after exNarrow.2 exNarrow.1 (by decide)).2.2.1 (-1)
      (Or.inr (Layout.Reachable.setRect _ 0 0 0 4
        (Layout.Reachable.addItem _ (some (Primitive.region 1)) 0
          (Layout.Reachable.addItem _ (some (Primitive.region 0)) 0
            (Layout.Reachable.setDirection HorizontalLayout Layout.Reachable.new
              (Or.inl rfl)))))),
   (splitter_count_after exNarrow.2 exNarrow.1 (by decide)).2.2.1 0 (Or.inl (by decide)),
   (splitter_count_after exNarrow.2 exNarrow.1 (by decide)).1 none 7,
   (splitter_count_after exNarrow.2 exNarrow.1 (by decide)).2.1 1 2 30 4⟩

/-! ## C3 -/

theorem rebuildH_mem (hp : Heap) (q y height : Int) (items : List Nat) :
    ∀ (x seps : Int) (s : splitter), s ∈ rebuildH hp q y height items x seps →
      s.x.1 = s.x.2 ∧ s.y = (y, y + height - 1) := by
  induction items with
  | nil => intro x seps s hs; simp [rebuildH] at hs
  | cons a rest ih =>
    intro x seps s hs
    cases rest with
    | nil => simp [rebuildH] at hs
    | cons b rest2 =>
      rw [rebuildH] at hs
      by_cases hpos : seps > 0
      · simp only [hpos, if_true, List.mem_cons] at hs
        rcases hs with hs | hs
        · subst hs; exact ⟨rfl, rfl⟩
        · exact ih _ _ s hs
      · simp only [hpos, if_false] at hs
        exact ih _ _ s hs

theorem rebuildV_mem (hp : Heap) (q x width : Int) (items : List Nat) :
    ∀ (y seps : Int) (s : splitter), s ∈ rebuildV hp q x width items y seps →
      s.y.1 = s.y.2 ∧ s.x = (x, x + width - 1) := by
  induction items with
  | nil => intro y seps s hs; simp [rebuildV] at hs
  | cons a rest ih =>
    intro y seps s hs
    cases rest with
    | nil => simp [rebuildV] at hs
    | cons b rest2 =>
      rw [rebuildV] at hs
      by_cases hpos : seps > 0
      · simp only [hpos, if_true, List.mem_cons] at hs
        rcases hs with hs | hs
        · subst hs; exact ⟨rfl, rfl⟩
        · exact ih _ _ s hs
      · simp only [hpos, if_false] at hs
        exact ih _ _ s hs

/-- C3.  For every splitter `s` that rebuildSplitters leaves in the layout and
every coordinate `(px, py)`: in a HorizontalLayout the splitter has one fixed
`x` and spans the rows of the layout, and `contain` holds exactly when `px` is
that `x` and `begin <= py <= end`; in a VerticalLayout, of any width (width 1
included, where the line is a single cell), it has one fixed `y` and spans the
columns of the layout, and `contain` holds exactly when `py` is that `y` and
`begin <= px <= end`. -/
theorem contain_iff_on_line (hp : Heap) (l : Layout) (s : splitter) (px py : Int)
    (hs : s ∈ (Layout.rebuildSplitters hp l).splitters) :
    (l.direction = HorizontalLayout →
      s.x.1 = s.x.2 ∧ s.y = (l.y, l.y + l.height - 1) ∧
      (s.contain px py = true ↔ px = s.x.1 ∧ s.y.1 ≤ py ∧ py ≤ s.y.2)) ∧
    (l.direction = VerticalLayout →
      s.y.1 = s.y.2 ∧ s.x = (l.x, l.x + l.width - 1) ∧
      (s.contain px py = true ↔ py = s.y.1 ∧ s.x.1 ≤ px ∧ px ≤ s.x.2)) := by
  constructor
  · intro hd
    unfold Layout.rebuildSplitters at hs
    simp only [hd, if_true] at hs
    obtain ⟨h1, h2⟩ := rebuildH_mem _ _ _ _ _ _ _ s hs
    refine ⟨h1, h2, ?_⟩
    unfold splitter.contain
    simp only [h1, if_true, Bool.and_eq_true, decide_eq_true_eq]
    constructor
    · rintro ⟨ha, hb, hc⟩; exact ⟨ha.symm, hb, hc⟩
    · rintro ⟨ha, hb, hc⟩; exact ⟨ha.symm, hb, hc⟩
  · intro hd
    have hne : ¬ l.direction = HorizontalLayout := by rw [hd]; decide
    unfold Layout.rebuildSplitters at hs
    rw [if_neg hne, if_pos hd] at hs
    obtain ⟨h1, h2⟩ := rebuildV_mem _ _ _ _ _ _ _ s hs
    refine ⟨h1, h2, ?_⟩
    unfold splitter.contain
    by_cases hx : s.x.1 = s.x.2
    · simp only [hx, if_true, Bool.and_eq_true, decide_eq_true_eq]
      constructor
      · rintro ⟨ha, hb, hc⟩; omega
      · rintro ⟨ha, hb, hc⟩; omega
    · simp only [hx, if_false, Bool.and_eq_true, decide_eq_true_eq]
      constructor
      · rintro ⟨ha, hb, hc⟩; exact ⟨ha.symm, hb, hc⟩
      · rintro ⟨ha, hb, hc⟩; exact ⟨ha.symm, hb, hc⟩

/-- C3, witness: the splitter of the vertical layout of width 1, `exThin`, a
single cell at `(0, 4)`, tested at that cell. -/
theorem contain_iff_on_line_witness :
    (exThin.2.direction = HorizontalLayout →
      (0 : Int) = 0 ∧ ((4 : Int), (4 : Int)) = (exThin.2.y, exThin.2.y + exThin.2.height - 1) ∧
      (splitter.contain ⟨(0, 0), (4, 4), 0, 1⟩ 0 4 = true ↔ (0 : Int) = 0 ∧ (4 : Int) ≤ 4 ∧ (4 : Int) ≤ 4)) ∧
    (exThin.2.direction = VerticalLayout →
      (4 : Int) = 4 ∧ ((0 : Int), (0 : Int)) = (exThin.2.x, exThin.2.x + exThin.2.width - 1) ∧
      (splitter.contain ⟨(0, 0), (4, 4), 0, 1⟩ 0 4 = true ↔ (4 : Int) = 4 ∧ (0 : Int) ≤ 0 ∧ (0 : Int) ≤ 0)) :=
  contain_iff_on_line exThin.1 exThin.2 ⟨(0, 0), (4, 4), 0, 1⟩ 0 4 (by decide)

/-! ## Mouse handler lemmas -/

theorem offerChildren_none (env : Env) (hp : Heap) (action : MouseAction) (event : EventMouse)
    (items : List Nat) :
    ∀ (cap : Option Primitive),
      (∀ p ∈ blurAll hp items, (env.mouse p action event).1 = false) →
      (offerChildren env hp action event items false cap).1 = false ∧
      (offerChildren env hp action event items false cap).2.2 = blurAll hp items := by
  induction items with
  | nil => intro cap _; exact ⟨rfl, rfl⟩
  | cons i rest ih =>
    intro cap h
    cases hpi : (hp.item i).Primitive with
    | none =>
      have hb : blurAll hp (i :: rest) = blurAll hp rest := by simp [blurAll, hpi]
      rw [hb] at h ⊢
      rw [offerChildren]
      simp only [hpi]
      exact ih cap h
    | some p =>
      have hb : blurAll hp (i :: rest) = p :: blurAll hp rest := by simp [blurAll, hpi]
      rw [hb] at h ⊢
      have hp0 : (env.mouse p action event).1 = false := h p (List.mem_cons_self _ _)
      have hr := ih (env.mouse p action event).2 (fun q hq => h q (List.mem_cons_of_mem _ hq))
      rw [offerChildren]
      simp only [hpi, hp0, Bool.false_eq_true, if_false]
      exact ⟨hr.1, by rw [hr.2]⟩

/-- The handler on a mouse move while a splitter is dragged, inside the
layout, when no child consumes the event. -/
theorem mouseHandler_move (env : Env) (hp : Heap) (l : Layout) (ev : EventMouse) (s : splitter)
    (pa pb : Primitive) (hin : l.InRect ev.x ev.y = true)
    (hnc : NoChildConsumes env hp l MouseAction.MouseMove ev)
    (hdrag : l.draggedSplitter = some s)
    (hpa : (hp.item s.a).Primitive = some pa) (hpb : (hp.item s.b).Primitive = some pb) :
    l.mouseHandler env hp MouseAction.MouseMove ev =
      if l.direction = HorizontalLayout then
        some { heap := (((hp.setRect pa ⟨(hp.rect pa).x, (hp.rect pa).y,
                            (hp.rect pa).width + (ev.x - l.dragX), (hp.rect pa).height⟩).setRect pb
                          ⟨(hp.rect pb).x + (ev.x - l.dragX), (hp.rect pb).y,
                            (hp.rect pb).width - (ev.x - l.dragX), (hp.rect pb).height⟩).setSize s.a
                          ((hp.rect pa).width + (ev.x - l.dragX))).setSize s.b
                          ((hp.rect pb).width - (ev.x - l.dragX)),
               l := { l with dragX := ev.x, dragY := ev.y }, consumed := true, capture := none,
               offered := blurAll hp l.items, blurred := [] }
      else if l.direction = VerticalLayout then
        some { heap := (((hp.setRect pa ⟨(hp.rect pa).x, (hp.rect pa).y,
                            (hp.rect pa).width, (hp.rect pa).height + (ev.y - l.dragY)⟩).setRect pb
                          ⟨(hp.rect pb).x, (hp.rect pb).y + (ev.y - l.dragY),
                            (hp.rect pb).width, (hp.rect pb).height - (ev.y - l.dragY)⟩).setSize s.a
                          ((hp.rect pa).height + (ev.y - l.dragY))).setSize s.b
                          ((hp.rect pb).height - (ev.y - l.dragY)),
               l := { l with dragX := ev.x, dragY := ev.y }, consumed := true, capture := none,
               offered := blurAll hp l.items, blurred := [] }
      else none := by
  obtain ⟨h1, h2⟩ := offerChildren_none env hp MouseAction.MouseMove ev l.items none hnc
  unfold Layout.mouseHandler
  simp only [hin, h1, h2, hdrag, hpa, hpb, Bool.not_true, Bool.false_eq_true, if_false]

theorem setSize_item_self (hp : Heap) (i : Nat) (v : Int) :
    ((hp.setSize i v).item i).Size = v := by
  simp [Heap.setSize]

theorem setSize_item_ne (hp : Heap) (i j : Nat) (v : Int) (h : j ≠ i) :
    (hp.setSize i v).item j = hp.item j := by
  simp [Heap.setSize, Function.update_noteq h]

theorem setSize_rect (hp : Heap) (i : Nat) (v : Int) : (hp.setSize i v).rect = hp.rect := rfl

theorem setRect_item (hp : Heap) (p : Primitive) (r : Rect) : (hp.setRect p r).item = hp.item := rfl

theorem setRect_rect_self (hp : Heap) (p : Primitive) (r : Rect) : (hp.setRect p r).rect p = r := by
  simp [Heap.setRect]

theorem setRect_rect_ne (hp : Heap) (p q : Primitive) (r : Rect) (h : q ≠ p) :
    (hp.setRect p r).rect q = hp.rect q := by
  simp [Heap.setRect, Function.update_noteq h]

/-! ## C4 -/

/-- The effect of a drag move on the rectangles, the Sizes and the anchor
(shared by the statements on the drag). -/
theorem move_effect_of_drag (env : Env) (hp : Heap) (l : Layout) (action : MouseAction)
    (event : EventMouse) (x y : Int) (s : splitter) (pa pb : Primitive)
    (hd : l.direction = HorizontalLayout ∨ l.direction = VerticalLayout)
    (hcap : l.captured action event = (MouseAction.MouseMove, some ⟨x, y⟩))
    (hin : l.InRect x y = true)
    (hnc : NoChildConsumes env hp l MouseAction.MouseMove ⟨x, y⟩)
    (hdrag : l.draggedSplitter = some s)
    (hpa : (hp.item s.a).Primitive = some pa) (hpb : (hp.item s.b).Primitive = some pb)
    (hne : pa ≠ pb) :
    ∃ r, l.MouseHandler env hp action event = some r ∧ r.consumed = true ∧
      r.l.dragX = x ∧ r.l.dragY = y ∧
      (∀ i, i ≠ s.a → i ≠ s.b → r.heap.item i = hp.item i) ∧
      (l.direction = HorizontalLayout →
        r.heap.rect pa = ⟨(hp.rect pa).x, (hp.rect pa).y, (hp.rect pa).width + (x - l.dragX),
                          (hp.rect pa).height⟩ ∧
        r.heap.rect pb = ⟨(hp.rect pb).x + (x - l.dragX), (hp.rect pb).y,
                          (hp.rect pb).width - (x - l.dragX), (hp.rect pb).height⟩ ∧
        (r.heap.item s.a).Size = (hp.rect pa).width + (x - l.dragX) ∧
        (r.heap.item s.b).Size = (hp.rect pb).width - (x - l.dragX)) ∧
      (l.direction = VerticalLayout →
        r.heap.rect pa = ⟨(hp.rect pa).x, (hp.rect pa).y, (hp.rect pa).width,
                          (hp.rect pa).height + (y - l.dragY)⟩ ∧
        r.heap.rect pb = ⟨(hp.rect pb).x, (hp.rect pb).y + (y - l.dragY), (hp.rect pb).width,
                          (hp.rect pb).height - (y - l.dragY)⟩ ∧
        (r.heap.item s.a).Size = (hp.rect pa).height + (y - l.dragY) ∧
        (r.heap.item s.b).Size = (hp.rect pb).height - (y - l.dragY)) := by
  have hab : s.a ≠ s.b := by
    intro h
    rw [h, hpb] at hpa
    exact hne (Option.some.inj hpa).symm
  have hVH : VerticalLayout ≠ HorizontalLayout := by decide
  have hm := mouseHandler_move env hp l ⟨x, y⟩ s pa pb hin hnc hdrag hpa hpb
  unfold Layout.MouseHandler
  simp only [hcap]
  rw [hm]
  rcases hd with hH | hV
  · rw [if_pos hH]
    refine ⟨_, rfl, rfl, rfl, rfl, ?_, ?_, ?_⟩
    · intro i hia hib
      simp only [setSize_item_ne _ _ _ _ hib, setSize_item_ne _ _ _ _ hia, setRect_item]
    · intro _
      refine ⟨?_, ?_, ?_, ?_⟩
      · simp only [setSize_rect, setRect_rect_ne _ _ _ _ hne, setRect_rect_self]
      · simp only [setSize_rect, setRect_rect_self]
      · simp only [setSize_item_ne _ _ _ _ hab, setSize_item_self]
      · simp only [setSize_item_self]
    · intro h; rw [hH] at h; exact absurd h.symm hVH
  · have hnH : ¬ l.direction = HorizontalLayout := by rw [hV]; exact hVH
    rw [if_neg hnH, if_pos hV]
    refine ⟨_, rfl, rfl, rfl, rfl, ?_, ?_, ?_⟩
    · intro i hia hib
      simp only [setSize_item_ne _ _ _ _ hib, setSize_item_ne _ _ _ _ hia, setRect_item]
    · intro h; exact absurd h hnH
    · intro _
      refine ⟨?_, ?_, ?_, ?_⟩
      · simp only [setSize_rect, setRect_rect_ne _ _ _ _ hne, setRect_rect_self]
      · simp only [setSize_rect, setRect_rect_self]
      · simp only [setSize_item_ne _ _ _ _ hab, setSize_item_self]
      · simp only [setSize_item_self]

/-- C4.  A layout is dragging the splitter `s` between the items `a` and `b`,
which hold two different regions `pa` and `pb`.  A mouse move that reaches the
handler at `(x, y)`, inside the layout and consumed by no child, returns
consumed, moves the anchor to `(x, y)` and leaves every other Item as it was.
In a HorizontalLayout, with `dx = x - dragX`, the rectangle of `a` keeps its
position and height and gets width `+ dx`, the rectangle of `b` gets `x + dx`
and width `- dx`, and the Sizes of `a` and `b` are those new widths; in a
VerticalLayout the same holds with `dy = y - dragY`, `y` and the heights. -/
theorem drag_move_effect (env : Env) (hp : Heap) (l : Layout) (action : MouseAction)
    (event : EventMouse) (x y : Int) (s : splitter) (pa pb : Primitive)
    (hd : l.direction = HorizontalLayout ∨ l.direction = VerticalLayout)
    (hcap : l.captured action event = (MouseAction.MouseMove, some ⟨x, y⟩))
    (hin : l.InRect x y = true)
    (hnc : NoChildConsumes env hp l MouseAction.MouseMove ⟨x, y⟩)
    (hdrag : l.draggedSplitter = some s)
    (hpa : (hp.item s.a).Primitive = some pa) (hpb : (hp.item s.b).Primitive = some pb)
    (hne : pa ≠ pb) :
    ∃ r, l.MouseHandler env hp action event = some r ∧ r.consumed = true ∧
      r.l.dragX = x ∧ r.l.dragY = y ∧
      (∀ i, i ≠ s.a → i ≠ s.b → r.heap.item i = hp.item i) ∧
      (l.direction = HorizontalLayout →
        r.heap.rect pa = ⟨(hp.rect pa).x, (hp.rect pa).y, (hp.rect pa).width + (x - l.dragX),
                          (hp.rect pa).height⟩ ∧
        r.heap.rect pb = ⟨(hp.rect pb).x + (x - l.dragX), (hp.rect pb).y,
                          (hp.rect pb).width - (x - l.dragX), (hp.rect pb).height⟩ ∧
        (r.heap.item s.a).Size = (hp.rect pa).width + (x - l.dragX) ∧
        (r.heap.item s.b).Size = (hp.rect pb).width - (x - l.dragX)) ∧
      (l.direction = VerticalLayout →
        r.heap.rect pa = ⟨(hp.rect pa).x, (hp.rect pa).y, (hp.rect pa).width,
                          (hp.rect pa).height + (y - l.dragY)⟩ ∧
        r.heap.rect pb = ⟨(hp.rect pb).x, (hp.rect pb).y + (y - l.dragY), (hp.rect pb).width,
                          (hp.rect pb).height - (y - l.dragY)⟩ ∧
        (r.heap.item s.a).Size = (hp.rect pa).height + (y - l.dragY) ∧
        (r.heap.item s.b).Size = (hp.rect pb).height - (y - l.dragY)) :=
  move_effect_of_drag env hp l action event x y s pa pb hd hcap hin hnc hdrag hpa hpb hne

/-- C4, witness: `exPressed` (three items 12 wide, the first splitter pressed at
`(12, 0)`) and a move to `(13, 0)`. -/
theorem drag_move_effect_witness :
    ∃ r, exPressed.2.MouseHandler envIdle exPressed.1 MouseAction.MouseMove ⟨13, 0⟩ = some r ∧
      r.consumed = true ∧ r.l.dragX = 13 ∧ r.l.dragY = 0 ∧
      (∀ i, i ≠ 0 → i ≠ 1 → r.heap.item i = exPressed.1.item i) ∧
      (exPressed.2.direction = HorizontalLayout →
        r.heap.rect (Primitive.region 0) =
          ⟨(exPressed.1.rect (Primitive.region 0)).x, (exPressed.1.rect (Primitive.region 0)).y,
           (exPressed.1.rect (Primitive.region 0)).width + (13 - exPressed.2.dragX),
           (exPressed.1.rect (Primitive.region 0)).height⟩ ∧
        r.heap.rect (Primitive.region 1) =
          ⟨(exPressed.1.rect (Primitive.region 1)).x + (13 - exPressed.2.dragX),
           (exPressed.1.rect (Primitive.region 1)).y,
           (exPressed.1.rect (Primitive.region 1)).width - (13 - exPressed.2.dragX),
           (exPressed.1.rect (Primitive.region 1)).height⟩ ∧
        (r.heap.item 0).Size = (exPressed.1.rect (Primitive.region 0)).width + (13 - exPressed.2.dragX) ∧
        (r.heap.item 1).Size = (exPressed.1.rect (Primitive.region 1)).width - (13 - exPressed.2.dragX)) ∧
      (exPressed.2.direction = VerticalLayout →
        r.heap.rect (Primitive.region 0) =
          ⟨(exPressed.1.rect (Primitive.region 0)).x, (exPressed.1.rect (Primitive.region 0)).y,
           (exPressed.1.rect (Primitive.region 0)).width,
           (exPressed.1.rect (Primitive.region 0)).height + (0 - exPressed.2.dragY)⟩ ∧
        r.heap.rect (Primitive.region 1) =
          ⟨(exPressed.1.rect (Primitive.region 1)).x,
           (exPressed.1.rect (Primitive.region 1)).y + (0 - exPressed.2.dragY),
           (exPressed.1.rect (Primitive.region 1)).width,
           (exPressed.1.rect (Primitive.region 1)).height - (0 - exPressed.2.dragY)⟩ ∧
        (r.heap.item 0).Size = (exPressed.1.rect (Primitive.region 0)).height + (0 - exPressed.2.dragY) ∧
        (r.heap.item 1).Size = (exPressed.1.rect (Primitive.region 1)).height - (0 - exPressed.2.dragY)) :=
  drag_move_effect envIdle exPressed.1 exPressed.2 MouseAction.MouseMove ⟨13, 0⟩ 13 0
    ⟨(12, 12), (0, 9), 0, 1⟩ (Primitive.region 0) (Primitive.region 1)
    (by decide) (by decide) (by decide) (by decide) (by decide) (by decide) (by decide) (by decide)

/-! ## C6 -/

theorem applyCalls_item (calls : List (Primitive × Rect)) :
    ∀ hp : Heap, (applyCalls hp calls).item = hp.item := by
  induction calls with
  | nil => intro hp; rfl
  | cons c rest ih => intro hp; rw [applyCalls, ih]; rfl

/-- Draw writes rectangles only: every Item, and so every Size, is kept. -/
theorem Draw_item (hp : Heap) (l : Layout) (out : DrawResult) (h : l.Draw hp = some out) :
    out.heap.item = hp.item := by
  unfold Layout.Draw at h
  by_cases hH : l.direction = HorizontalLayout
  · simp only [if_pos hH] at h
    cases hdr : drawH hp l (l.autoSize hp) l.y l.height l.items 0 l.x l.splittersAmount
        Glyph.Vertical with
    | none => simp [hdr] at h
    | some cs =>
      simp only [hdr, Option.some.injEq] at h
      rw [← h]
      exact applyCalls_item _ _
  · by_cases hV : l.direction = VerticalLayout
    · simp only [if_neg hH, if_pos hV] at h
      cases hdr : drawV hp l (l.autoSize hp) l.x l.width l.items 0 l.y l.splittersAmount
          Glyph.Horizontal with
      | none => simp [hdr] at h
      | some cs =>
        simp only [hdr, Option.some.injEq] at h
        rw [← h]
        exact applyCalls_item _ _
    · simp only [if_neg hH, if_neg hV, Option.some.injEq] at h
      rw [← h]

/-- C6, amended.  Under the conditions of the drag move (a dragged splitter
between two different regions, a move inside the layout that no child
consumes), the stored Size of each of the two items is the new axis length of
its rectangle, the old length `+ delta` for `a` and `- delta` for `b`.  So an
item is fixed-size afterwards exactly when its new length is not 0, whether it
was auto-sized before or not; and no later Draw changes a Size (in the
embedding rebuildSplitters only reads the heap). -/
theorem drag_move_sizes (env : Env) (hp : Heap) (l : Layout) (action : MouseAction)
    (event : EventMouse) (x y : Int) (s : splitter) (pa pb : Primitive)
    (hd : l.direction = HorizontalLayout ∨ l.direction = VerticalLayout)
    (hcap : l.captured action event = (MouseAction.MouseMove, some ⟨x, y⟩))
    (hin : l.InRect x y = true)
    (hnc : NoChildConsumes env hp l MouseAction.MouseMove ⟨x, y⟩)
    (hdrag : l.draggedSplitter = some s)
    (hpa : (hp.item s.a).Primitive = some pa) (hpb : (hp.item s.b).Primitive = some pb)
    (hne : pa ≠ pb) :
    ∃ r, l.MouseHandler env hp action event = some r ∧
      (r.heap.item s.a).Size = axisLen l.direction (r.heap.rect pa) ∧
      (r.heap.item s.b).Size = axisLen l.direction (r.heap.rect pb) ∧
      axisLen l.direction (r.heap.rect pa)
        = axisLen l.direction (hp.rect pa)
          + (if l.direction = HorizontalLayout then x - l.dragX else y - l.dragY) ∧
      axisLen l.direction (r.heap.rect pb)
        = axisLen l.direction (hp.rect pb)
          - (if l.direction = HorizontalLayout then x - l.dragX else y - l.dragY) ∧
      ((r.heap.item s.a).Size ≠ AutoSize ↔ axisLen l.direction (r.heap.rect pa) ≠ 0) ∧
      ((r.heap.item s.b).Size ≠ AutoSize ↔ axisLen l.direction (r.heap.rect pb) ≠ 0) ∧
      (∀ (l2 : Layout) (out : DrawResult), l2.Draw r.heap = some out →
        ∀ i, (out.heap.item i).Size = (r.heap.item i).Size) := by
  obtain ⟨r, hr, _, _, _, _, hH, hV⟩ :=
    move_effect_of_drag env hp l action event x y s pa pb hd hcap hin hnc hdrag hpa hpb hne
  have hVH : VerticalLayout ≠ HorizontalLayout := by decide
  refine ⟨r, hr, ?_⟩
  have hdraw : ∀ (l2 : Layout) (out : DrawResult), l2.Draw r.heap = some out →
      ∀ i, (out.heap.item i).Size = (r.heap.item i).Size := by
    intro l2 out ho i
    rw [Draw_item r.heap l2 out ho]
  rcases hd with h | h
  · obtain ⟨h1, h2, h3, h4⟩ := hH h
    have ea : axisLen l.direction (r.heap.rect pa) = (hp.rect pa).width + (x - l.dragX) := by
      rw [h1]; simp [axisLen, h]
    have eb : axisLen l.direction (r.heap.rect pb) = (hp.rect pb).width - (x - l.dragX) := by
      rw [h2]; simp [axisLen, h]
    refine ⟨by rw [h3, ea], by rw [h4, eb], ?_, ?_, ?_, ?_, hdraw⟩
    · rw [ea]; simp [axisLen, h]
    · rw [eb]; simp [axisLen, h]
    · rw [h3, ea]; simp [AutoSize]
    · rw [h4, eb]; simp [AutoSize]
  · have hnH : ¬ l.direction = HorizontalLayout := by rw [h]; exact hVH
    obtain ⟨h1, h2, h3, h4⟩ := hV h
    have ea : axisLen l.direction (r.heap.rect pa) = (hp.rect pa).height + (y - l.dragY) := by
      rw [h1]; simp [axisLen, hnH]
    have eb : axisLen l.direction (r.heap.rect pb) = (hp.rect pb).height - (y - l.dragY) := by
      rw [h2]; simp [axisLen, hnH]
    refine ⟨by rw [h3, ea], by rw [h4, eb], ?_, ?_, ?_, ?_, hdraw⟩
    · rw [ea]; simp [axisLen, hnH]
    · rw [eb]; simp [axisLen, hnH]
    · rw [h3, ea]; simp [AutoSize]
    · rw [h4, eb]; simp [AutoSize]

/-- C6, witness: `exPressed` and a move to `(13, 0)`. -/
theorem drag_move_sizes_witness :
    ∃ r, exPressed.2.MouseHandler envIdle exPressed.1 MouseAction.MouseMove ⟨13, 0⟩ = some r ∧
      (r.heap.item 0).Size = axisLen exPressed.2.direction (r.heap.rect (Primitive.region 0)) ∧
      (r.heap.item 1).Size = axisLen exPressed.2.direction (r.heap.rect (Primitive.region 1)) ∧
      axisLen exPressed.2.direction (r.heap.rect (Primitive.region 0))
        = axisLen exPressed.2.direction (exPressed.1.rect (Primitive.region 0))
          + (if exPressed.2.direction = HorizontalLayout then 13 - exPressed.2.dragX
             else 0 - exPressed.2.dragY) ∧
      axisLen exPressed.2.direction (r.heap.rect (Primitive.region 1))
        = axisLen exPressed.2.direction (exPressed.1.rect (Primitive.region 1))
          - (if exPressed.2.direction = HorizontalLayout then 13 - exPressed.2.dragX
             else 0 - exPressed.2.dragY) ∧
      ((r.heap.item 0).Size ≠ AutoSize
        ↔ axisLen exPressed.2.direction (r.heap.rect (Primitive.region 0)) ≠ 0) ∧
      ((r.heap.item 1).Size ≠ AutoSize
        ↔ axisLen exPressed.2.direction (r.heap.rect (Primitive.region 1)) ≠ 0) ∧
      (∀ (l2 : Layout) (out : DrawResult), l2.Draw r.heap = some out →
        ∀ i, (out.heap.item i).Size = (r.heap.item i).Size) :=
  drag_move_sizes envIdle exPressed.1 exPressed.2 MouseAction.MouseMove ⟨13, 0⟩ 13 0
    ⟨(12, 12), (0, 9), 0, 1⟩ (Primitive.region 0) (Primitive.region 1)
    (by decide) (by decide) (by decide) (by decide) (by decide) (by decide) (by decide) (by decide)

/-- C6, counterexample.  In `exPressed` the first splitter, at column 12, is
dragged to `(0, 0)`: the move is handled (consumed), the first item gets width
0 and its stored Size is 0, which is AutoSize; the second item gets Size 24. -/
theorem drag_to_zero_makes_auto :
    (exPressed.2.MouseHandler envIdle exPressed.1 MouseAction.MouseMove ⟨0, 0⟩).map
        (fun r => (r.consumed, (r.heap.item 0).Size, (r.heap.item 1).Size))
      = some (true, AutoSize, 24) := by
  decide

/-! ## C7 -/

/-- C7.  Maximize(w) makes `w` the visible root and captures the rectangle `w`
has then.  Restore() at any later time, whatever has been written to the
rectangles in between (`hp2` is the heap Restore finds), returns, writes the
captured rectangle back to `w`, the root that was visible between the two
calls, leaves every other rectangle as it finds it, and makes the logical root
the visible root again. -/
theorem maximize_then_restore (hp hp2 : Heap) (m : Manager) (w : Nat) :
    (Manager.Maximize hp m w).visibleRoot = some (Primitive.window w) ∧
    ∃ r, Manager.Restore hp2 (Manager.Maximize hp m w) = some r ∧
      r.1.rect (Primitive.window w) = (Manager.Maximize hp m w).restoreRect ∧
      r.1.rect (Primitive.window w) = hp.rect (Primitive.window w) ∧
      (∀ q, q ≠ Primitive.window w → r.1.rect q = hp2.rect q) ∧
      r.1.item = hp2.item ∧
      r.2.visibleRoot = m.logicalRoot ∧ r.2.logicalRoot = m.logicalRoot := by
  refine ⟨rfl, _, rfl, ?_, ?_, ?_, rfl, rfl, rfl⟩
  · simp [Manager.Maximize, Manager.restoreRect, Heap.setRect]
  · simp [Manager.Maximize, Heap.setRect]
  · intro q hq
    simp [Manager.Maximize, Heap.setRect, Function.update_noteq hq]

/-! ## C8 -/

/-- C8, amended.  Maximize(w) makes `w` the visible root and stores as the
restore rectangle the rectangle of `w` itself at the time of the call; the
logical root is kept. -/
theorem maximize_saves_window_rect (hp : Heap) (m : Manager) (w : Nat) :
    (Manager.Maximize hp m w).restoreRect = hp.rect (Primitive.window w) ∧
    (Manager.Maximize hp m w).visibleRoot = some (Primitive.window w) ∧
    (Manager.Maximize hp m w).logicalRoot = m.logicalRoot :=
  ⟨rfl, rfl, rfl⟩

/-- C8, counterexample.  The root layout fills the screen `(0, 0, 80, 24)` and
is visible; the window has `(40, 0, 40, 24)`.  Maximize stores the rectangle
of the window, not the one of the root that was visible. -/
theorem maximize_saves_visible_fails :
    ¬ SavesVisibleRect exScreen exManager 1 ∧
    exManager.visibleRoot = some (Primitive.layout 0) ∧
    (Manager.Maximize exScreen exManager 1).restoreRect = ⟨40, 0, 40, 24⟩ ∧
    exScreen.rect (Primitive.layout 0) = ⟨0, 0, 80, 24⟩ := by
  refine ⟨?_, rfl, by decide, by decide⟩
  intro h
  have h1 := h (Primitive.layout 0) rfl
  revert h1
  decide

/-! ## C9 -/

/-- The logical root of a reachable manager is nil or a layout. -/
theorem Manager.Reachable_logicalRoot (m : Manager) (hr : m.Reachable) :
    ∀ w, m.logicalRoot ≠ some (Primitive.window w) := by
  induction hr with
  | new => intro w h; cases h
  | setRoot root _ _ => intro w h; cases h
  | maximize hp w _ ih => exact ih
  | @restore m hp r _ hres ih =>
    intro w
    unfold Manager.Restore at hres
    cases hv : m.visibleRoot with
    | none => simp [hv] at hres
    | some p =>
      simp only [hv, Option.some.injEq] at hres
      rw [← hres]
      exact ih w

theorem IsMaximazed_iff (m : Manager) (w : Nat) :
    m.IsMaximazed w = true ↔ m.visibleRoot = some (Primitive.window w) := by
  unfold Manager.IsMaximazed
  cases hv : m.visibleRoot with
  | none => simp
  | some p =>
    cases p with
    | layout a => simp
    | window a => simp
    | region a => simp

/-- C9.  For every reachable Manager and every window `w2`: IsMaximazed(w2)
holds exactly when `w2` is the visible root; it is false after SetRoot, holds
after Maximize(w) exactly for `w2 = w`, and is false after Restore(), which
returns whenever there is a visible root. -/
theorem isMaximazed_spec (m : Manager) (hr : m.Reachable) (hp : Heap) (root w w2 : Nat) :
    (m.IsMaximazed w2 = true ↔ m.visibleRoot = some (Primitive.window w2)) ∧
    (m.SetRoot root).IsMaximazed w2 = false ∧
    ((Manager.Maximize hp m w).IsMaximazed w2 = true ↔ w2 = w) ∧
    (m.visibleRoot ≠ none →
      ∃ r, Manager.Restore hp m = some r ∧ r.2.IsMaximazed w2 = false) ∧
    (∀ r, Manager.Restore hp m = some r → r.2.IsMaximazed w2 = false) := by
  have hlog := Manager.Reachable_logicalRoot m hr
  have hafter : ∀ r, Manager.Restore hp m = some r → r.2.IsMaximazed w2 = false := by
    intro r hres
    unfold Manager.Restore at hres
    cases hv : m.visibleRoot with
    | none => simp [hv] at hres
    | some p =>
      simp only [hv, Option.some.injEq] at hres
      rw [← hres]
      cases hb : Manager.IsMaximazed { m with visibleRoot := m.logicalRoot } w2 with
      | false => rfl
      | true => exact absurd ((IsMaximazed_iff _ _).mp hb) (hlog w2)
  refine ⟨IsMaximazed_iff m w2, rfl, ?_, ?_, hafter⟩
  · rw [IsMaximazed_iff]
    simp [Manager.Maximize]
    exact eq_comm
  · intro hv
    cases hvr : m.visibleRoot with
    | none => exact absurd hvr hv
    | some p =>
      have hres : Manager.Restore hp m
          = some (hp.setRect p ⟨m.restoreX, m.restoreY, m.restoreWidth, m.restoreHeight⟩,
                  { m with visibleRoot := m.logicalRoot }) := by
        unfold Manager.Restore
        simp only [hvr]
      exact ⟨_, hres, hafter _ hres⟩

/-- C9, witness: the manager with root layout 0 after Maximize of window 1. -/
theorem isMaximazed_spec_witness :
    ((Manager.Maximize exScreen exManager 1).IsMaximazed 1 = true
      ↔ (Manager.Maximize exScreen exManager 1).visibleRoot = some (Primitive.window 1)) ∧
    ((Manager.Maximize exScreen exManager 1).SetRoot 0).IsMaximazed 1 = false ∧
    ((Manager.Maximize exScreen (Manager.Maximize exScreen exManager 1) 2).IsMaximazed 1 = true
      ↔ 1 = 2) ∧
    ((Manager.Maximize exScreen exManager 1).visibleRoot ≠ none →
      ∃ r, Manager.Restore exScreen (Manager.Maximize exScreen exManager 1) = some r ∧
        r.2.IsMaximazed 1 = false) ∧
    (∀ r, Manager.Restore exScreen (Manager.Maximize exScreen exManager 1) = some r →
      r.2.IsMaximazed 1 = false) :=
  isMaximazed_spec (Manager.Maximize exScreen exManager 1)
    (Manager.Reachable.maximize exScreen 1 (Manager.Reachable.setRoot 0 Manager.Reachable.new))
    exScreen 0 2 1

/-! ## C10 -/

theorem renumber_append_renumber (xs ys : List Button) :
    ∀ a b c d : Int, renumber (renumber xs a b ++ ys) c d = renumber (xs ++ ys) c d := by
  induction xs with
  | nil => intro a b c d; rfl
  | cons x rest ih =>
    intro a b c d
    by_cases h : x.Alignment = ButtonAlignRight
    · simp only [renumber, h, if_true, List.cons_append]
      rw [ih]
      rfl
    · simp only [renumber, h, if_false, List.cons_append]
      rw [ih]
      rfl

theorem renumber_alignment (xs : List Button) :
    ∀ a b : Int, (renumber xs a b).map (fun x => x.Alignment) = xs.map (fun x => x.Alignment) := by
  induction xs with
  | nil => intro a b; rfl
  | cons x rest ih =>
    intro a b
    by_cases h : x.Alignment = ButtonAlignRight
    · simp only [renumber, h, if_true, List.map_cons, ih]
    · simp only [renumber, h, if_false, List.map_cons, ih]

theorem renumber_right (xs : List Button) :
    ∀ (a b : Int) (j : Nat) (v : Int),
      (((renumber xs a b).filter (fun x => decide (x.Alignment = ButtonAlignRight))).map
        (fun x => x.offsetX))[j]? = some v → v = b - 3 * (j : Int) := by
  induction xs with
  | nil => intro a b j v h; simp [renumber] at h
  | cons x rest ih =>
    intro a b j v h
    by_cases hx : x.Alignment = ButtonAlignRight
    · simp only [renumber, hx, if_true, List.filter_cons, decide_True, List.map_cons] at h
      cases j with
      | zero => simp at h; omega
      | succ k =>
        simp only [List.getElem?_cons_succ] at h
        have := ih _ _ k v h
        push_cast
        omega
    · simp only [renumber, hx, if_false, List.filter_cons, decide_False] at h
      exact ih _ _ j v h

theorem renumber_not_right (xs : List Button) :
    ∀ (a b : Int) (j : Nat) (v : Int),
      (((renumber xs a b).filter (fun x => !decide (x.Alignment = ButtonAlignRight))).map
        (fun x => x.offsetX))[j]? = some v → v = a + 3 * (j : Int) := by
  induction xs with
  | nil => intro a b j v h; simp [renumber] at h
  | cons x rest ih =>
    intro a b j v h
    by_cases hx : x.Alignment = ButtonAlignRight
    · simp only [renumber, hx, if_true, List.filter_cons, decide_True, Bool.not_true,
        Bool.false_eq_true, if_false] at h
      exact ih _ _ j v h
    · simp only [renumber, hx, if_false, List.filter_cons, decide_False, Bool.not_false,
        if_true, List.map_cons] at h
      cases j with
      | zero => simp at h; omega
      | succ k =>
        simp only [List.getElem?_cons_succ] at h
        have := ih _ _ k v h
        push_cast
        omega

/-- The buttons after a run of AddButton calls: one renumbering of the old
buttons followed by the new ones. -/
theorem addButtons_buttons (calls : List (Nat × ButtonAlignment × Option Nat)) :
    ∀ w : Window, calls ≠ [] →
      (addButtons w calls).buttons
        = renumber (w.buttons ++ calls.map (fun c =>
            { Symbol := c.1, Alignment := c.2.1, OnClick := c.2.2, offsetX := 0, offsetY := 0 }))
            2 (-3) := by
  induction calls with
  | nil => intro w h; exact absurd rfl h
  | cons c rest ih =>
    intro w _
    cases rest with
    | nil => rfl
    | cons c2 rest2 =>
      rw [addButtons, ih _ (List.cons_ne_nil _ _)]
      simp only [Window.AddButton]
      rw [renumber_append_renumber]
      simp

theorem addButtons_new (calls : List (Nat × ButtonAlignment × Option Nat)) :
    (addButtons Window.New calls).buttons
      = renumber (calls.map (fun c =>
          { Symbol := c.1, Alignment := c.2.1, OnClick := c.2.2, offsetX := 0, offsetY := 0 }))
          2 (-3) := by
  cases calls with
  | nil => rfl
  | cons c rest =>
    rw [addButtons_buttons _ _ (List.cons_ne_nil _ _)]
    rfl

/-- C10.  After any run of AddButton calls on a new Window, each with
alignment ButtonAlignLeft or ButtonAlignRight, the buttons are the calls in
order, the `j`-th left-aligned button has offsetX `2 + 3j` and the `j`-th
right-aligned button has offsetX `-3 - 3j`.  For B1 (left), B2 (right),
B3 (left) the offsets are 2, -3 and 5. -/
theorem button_offsets (calls : List (Nat × ButtonAlignment × Option Nat))
    (hal : ∀ c ∈ calls, c.2.1 = ButtonAlignLeft ∨ c.2.1 = ButtonAlignRight) :
    (addButtons Window.New calls).buttons.map (fun b => (b.Symbol, b.Alignment))
      = calls.map (fun c => (c.1, c.2.1)) ∧
    (∀ (j : Nat) (v : Int),
      (offsetsOf (addButtons Window.New calls) ButtonAlignLeft)[j]? = some v →
        v = 2 + 3 * (j : Int)) ∧
    (∀ (j : Nat) (v : Int),
      (offsetsOf (addButtons Window.New calls) ButtonAlignRight)[j]? = some v →
        v = -3 - 3 * (j : Int)) ∧
    (addButtons Window.New exCalls).buttons.map (fun b => (b.Symbol, b.offsetX))
      = [(1, 2), (2, -3), (3, 5)] := by
  refine ⟨?_, ?_, ?_, by decide⟩
  · rw [addButtons_new]
    generalize (2 : Int) = a
    generalize (-3 : Int) = b
    induction calls generalizing a b with
    | nil => rfl
    | cons c rest ih =>
      have hr := ih (fun c hc => hal c (List.mem_cons_of_mem _ hc))
      by_cases hx : c.2.1 = ButtonAlignRight
      · simp only [List.map_cons, renumber, hx, if_true]
        rw [hr]
      · simp only [List.map_cons, renumber, hx, if_false]
        rw [hr]
  · intro j v h
    unfold offsetsOf at h
    have hfilter : (addButtons Window.New calls).buttons.filter
          (fun b => decide (b.Alignment = ButtonAlignLeft))
        = (addButtons Window.New calls).buttons.filter
          (fun b => !decide (b.Alignment = ButtonAlignRight)) := by
      apply List.filter_congr
      intro b hb
      have hmem : b.Alignment ∈ (addButtons Window.New calls).buttons.map (fun x => x.Alignment) :=
        List.mem_map_of_mem _ hb
      rw [addButtons_new, renumber_alignment, List.map_map] at hmem
      obtain ⟨c, hc, hce⟩ := List.mem_map.mp hmem
      have hcal := hal c hc
      simp only [Function.comp] at hce
      rw [hce] at hcal
      rcases hcal with h1 | h1
      · rw [h1]; decide
      · rw [h1]; decide
    rw [hfilter, addButtons_new] at h
    exact renumber_not_right _ _ _ j v h
  · intro j v h
    unfold offsetsOf at h
    rw [addButtons_new] at h
    exact renumber_right _ _ _ j v h

/-- C10, witness: the theorem at B1 (left), B2 (right), B3 (left). -/
theorem button_offsets_witness :
    (addButtons Window.New exCalls).buttons.map (fun b => (b.Symbol, b.Alignment))
      = exCalls.map (fun c => (c.1, c.2.1)) ∧
    (∀ (j : Nat) (v : Int),
      (offsetsOf (addButtons Window.New exCalls) ButtonAlignLeft)[j]? = some v →
        v = 2 + 3 * (j : Int)) ∧
    (∀ (j : Nat) (v : Int),
      (offsetsOf (addButtons Window.New exCalls) ButtonAlignRight)[j]? = some v →
        v = -3 - 3 * (j : Int)) ∧
    (addButtons Window.New exCalls).buttons.map (fun b => (b.Symbol, b.offsetX))
      = [(1, 2), (2, -3), (3, 5)] :=
  button_offsets exCalls (by decide)

/-! ## Placement by index -/

theorem prefixSum_zero (f : Nat → Int) (items : List Nat) : prefixSum f items 0 = 0 := by
  simp [prefixSum]

theorem prefixSum_cons_succ (f : Nat → Int) (i : Nat) (rest : List Nat) (k : Nat) :
    prefixSum f (i :: rest) (k + 1) = f i + prefixSum f rest k := by
  simp [prefixSum]

theorem prefixSum_succ (f : Nat → Int) (items : List Nat) (k : Nat) (j : Nat)
    (hj : items[k]? = some j) :
    prefixSum f items (k + 1) = prefixSum f items k + f j := by
  induction items generalizing k with
  | nil => simp at hj
  | cons i rest ih =>
    cases k with
    | zero =>
      simp at hj
      simp [prefixSum, hj]
    | succ k =>
      simp only [List.getElem?_cons_succ] at hj
      rw [prefixSum_cons_succ, prefixSum_cons_succ, ih k hj]
      ring

theorem placeH_getElem? (hp : Heap) (q y height : Int) (items : List Nat) :
    ∀ (x : Int) (k : Nat),
      (placeH hp q y height items x)[k]?
        = (items[k]?).map (fun j =>
            ⟨x + prefixSum (fun i => itemLen hp q i + 1) items k, y, itemLen hp q j, height⟩) := by
  induction items with
  | nil => intro x k; simp [placeH]
  | cons i rest ih =>
    intro x k
    cases k with
    | zero => simp [placeH, prefixSum_zero]
    | succ k =>
      simp only [placeH, List.getElem?_cons_succ, ih, prefixSum_cons_succ]
      cases rest[k]? with
      | none => rfl
      | some j =>
        simp only [Option.map_some', Option.some.injEq, Rect.mk.injEq, and_true, true_and]
        ring

theorem placeV_getElem? (hp : Heap) (q x width : Int) (items : List Nat) :
    ∀ (y : Int) (k : Nat),
      (placeV hp q x width items y)[k]?
        = (items[k]?).map (fun j =>
            ⟨x, y + prefixSum (fun i => itemLen hp q i + 1) items k, width, itemLen hp q j⟩) := by
  induction items with
  | nil => intro y k; simp [placeV]
  | cons i rest ih =>
    intro y k
    cases k with
    | zero => simp [placeV, prefixSum_zero]
    | succ k =>
      simp only [placeV, List.getElem?_cons_succ, ih, prefixSum_cons_succ]
      cases rest[k]? with
      | none => rfl
      | some j =>
        simp only [Option.map_some', Option.some.injEq, Rect.mk.injEq, and_true, true_and]
        ring

theorem rebuildH_getElem? (hp : Heap) (q y height : Int) (items : List Nat) :
    ∀ (x seps : Int) (k : Nat) (a b : Nat),
      (items ≠ [] → seps = (items.length : Int) - 1) →
      items[k]? = some a → items[k + 1]? = some b →
      (rebuildH hp q y height items x seps)[k]?
        = some { x := (x + prefixSum (fun i => itemLen hp q i + 1) items k + itemLen hp q a,
                       x + prefixSum (fun i => itemLen hp q i + 1) items k + itemLen hp q a),
                 y := (y, y + height - 1), a := a, b := b } := by
  induction items with
  | nil => intro x seps k a b _ ha; simp at ha
  | cons i rest ih =>
    intro x seps k a b hseps ha hb
    have hseps := hseps (List.cons_ne_nil _ _)
    cases rest with
    | nil => simp at hb
    | cons i2 rest2 =>
      have hs : seps > 0 := by simp at hseps; omega
      rw [rebuildH]
      simp only [hs, if_true]
      have hx : (if (hp.item i).Size = AutoSize then x + q else x + (hp.item i).Size)
          = x + itemLen hp q i := by
        unfold itemLen; split <;> rfl
      rw [hx]
      cases k with
      | zero =>
        simp at ha
        simp at hb
        simp [prefixSum_zero, ha, hb]
      | succ k =>
        rw [List.getElem?_cons_succ] at ha hb
        rw [List.getElem?_cons_succ]
        rw [ih (x + itemLen hp q i + 1) (seps - 1) k a b
          (fun _ => by simp at hseps ⊢; omega) ha hb, prefixSum_cons_succ]
        simp only [Option.some.injEq, splitter.mk.injEq, Prod.mk.injEq, and_true, true_and]
        constructor <;> ring

theorem rebuildV_getElem? (hp : Heap) (q x width : Int) (items : List Nat) :
    ∀ (y seps : Int) (k : Nat) (a b : Nat),
      (items ≠ [] → seps = (items.length : Int) - 1) →
      items[k]? = some a → items[k + 1]? = some b →
      (rebuildV hp q x width items y seps)[k]?
        = some { x := (x, x + width - 1),
                 y := (y + prefixSum (fun i => itemLen hp q i + 1) items k + itemLen hp q a,
                       y + prefixSum (fun i => itemLen hp q i + 1) items k + itemLen hp q a),
                 a := a, b := b } := by
  induction items with
  | nil => intro y seps k a b _ ha; simp at ha
  | cons i rest ih =>
    intro y seps k a b hseps ha hb
    have hseps := hseps (List.cons_ne_nil _ _)
    cases rest with
    | nil => simp at hb
    | cons i2 rest2 =>
      have hs : seps > 0 := by simp at hseps; omega
      rw [rebuildV]
      simp only [hs, if_true]
      have hy : (if (hp.item i).Size = AutoSize then y + q else y + (hp.item i).Size)
          = y + itemLen hp q i := by
        unfold itemLen; split <;> rfl
      rw [hy]
      cases k with
      | zero =>
        simp at ha
        simp at hb
        simp [prefixSum_zero, ha, hb]
      | succ k =>
        rw [List.getElem?_cons_succ] at ha hb
        rw [List.getElem?_cons_succ]
        rw [ih (y + itemLen hp q i + 1) (seps - 1) k a b
          (fun _ => by simp at hseps ⊢; omega) ha hb, prefixSum_cons_succ]
        simp only [Option.some.injEq, splitter.mk.injEq, Prod.mk.injEq, and_true, true_and]
        constructor <;> ring

/-- The splitter at index `k` after rebuildSplitters. -/
theorem rebuildSplitters_getElem? (hp : Heap) (l : Layout)
    (hd : l.direction = HorizontalLayout ∨ l.direction = VerticalLayout) (k a b : Nat)
    (ha : l.items[k]? = some a) (hb : l.items[k + 1]? = some b) :
    (Layout.rebuildSplitters hp l).splitters[k]? = some (builtSplitter hp l k a b) := by
  rcases hd with h | h
  · unfold Layout.rebuildSplitters builtSplitter
    simp only [if_pos h]
    exact rebuildH_getElem? hp _ _ _ l.items _ _ k a b (splittersAmount_of_ne_nil l) ha hb
  · have hne : ¬ l.direction = HorizontalLayout := by rw [h]; decide
    unfold Layout.rebuildSplitters builtSplitter
    simp only [if_neg hne, if_pos h]
    exact rebuildV_getElem? hp _ _ _ l.items _ _ k a b (splittersAmount_of_ne_nil l) ha hb

/-! ## The rectangles after Draw -/

theorem applyCalls_rect_not_mem (calls : List (Primitive × Rect)) :
    ∀ (hp : Heap) (p : Primitive), p ∉ calls.map Prod.fst →
      (applyCalls hp calls).rect p = hp.rect p := by
  induction calls with
  | nil => intro hp p _; rfl
  | cons c rest ih =>
    intro hp p hmem
    simp only [List.map_cons, List.mem_cons, not_or] at hmem
    rw [applyCalls, ih _ p hmem.2, setRect_rect_ne _ _ _ _ hmem.1]

theorem applyCalls_rect_mem (calls : List (Primitive × Rect)) :
    ∀ (hp : Heap) (p : Primitive) (r : Rect), (calls.map Prod.fst).Nodup → (p, r) ∈ calls →
      (applyCalls hp calls).rect p = r := by
  induction calls with
  | nil => intro hp p r _ h; simp at h
  | cons c rest ih =>
    intro hp p r hnd hmem
    simp only [List.map_cons, List.nodup_cons] at hnd
    rw [applyCalls]
    rcases List.mem_cons.mp hmem with h | h
    · subst h
      rw [applyCalls_rect_not_mem rest _ _ hnd.1, setRect_rect_self]
    · exact ih _ p r hnd.2 h

theorem blurAll_eq_of_map (hp : Heap) (items : List Nat) (calls : List (Primitive × Rect))
    (h : calls.map (fun c => some c.1) = items.map (fun i => (hp.item i).Primitive)) :
    calls.map Prod.fst = blurAll hp items := by
  have h1 : blurAll hp items = (items.map (fun i => (hp.item i).Primitive)).filterMap id := by
    unfold blurAll
    rw [List.filterMap_map]
    rfl
  rw [h1, ← h, List.filterMap_map]
  clear h h1
  induction calls with
  | nil => rfl
  | cons c rest ih =>
    simp only [List.map_cons, List.filterMap_cons, Function.comp, id]
    rw [ih]

/-- Draw returns on a layout whose items all hold a region; the rectangle
handed to the item at index `k` is drawnRect. -/
theorem Draw_calls (hp : Heap) (l : Layout)
    (hd : l.direction = HorizontalLayout ∨ l.direction = VerticalLayout)
    (hreg : AllRegions hp l) :
    ∃ out, l.Draw hp = some out ∧ out.heap = applyCalls hp out.calls ∧
      out.calls.map Prod.fst = blurAll hp l.items ∧
      ∀ (k j : Nat) (p : Primitive), l.items[k]? = some j → (hp.item j).Primitive = some p →
        out.calls[k]? = some (p, drawnRect hp l k j) := by
  have key : ∀ (calls : List (Primitive × Rect)) (rects : List Rect),
      calls.map (fun c => some c.1) = l.items.map (fun i => (hp.item i).Primitive) →
      calls.map Prod.snd = rects →
      (∀ (k j : Nat), l.items[k]? = some j → rects[k]? = some (drawnRect hp l k j)) →
      ∀ (k j : Nat) (p : Primitive), l.items[k]? = some j → (hp.item j).Primitive = some p →
        calls[k]? = some (p, drawnRect hp l k j) := by
    intro calls rects h1 h2 h3 k j p hk hp1
    have e1 := congrArg (fun (xs : List (Option Primitive)) => xs[k]?) h1
    have e2 := congrArg (fun (xs : List Rect) => xs[k]?) h2
    simp only [List.getElem?_map, hk, Option.map_some', hp1] at e1
    simp only [List.getElem?_map, h3 k j hk] at e2
    cases hc : calls[k]? with
    | none => simp [hc] at e1
    | some c =>
      simp only [hc, Option.map_some', Option.some.injEq] at e1 e2
      rw [← e1, ← e2]
  rcases hd with h | h
  · obtain ⟨out, h1, h2, h3, h4⟩ := Draw_horizontal hp l h hreg
    refine ⟨out, h1, h2, blurAll_eq_of_map hp l.items out.calls h3, ?_⟩
    apply key out.calls _ h3 h4
    intro k j hk
    rw [placeH_getElem?, hk]
    simp [drawnRect, h]
  · have hne : ¬ l.direction = HorizontalLayout := by rw [h]; decide
    obtain ⟨out, h1, h2, h3, h4⟩ := Draw_vertical hp l h hreg
    refine ⟨out, h1, h2, blurAll_eq_of_map hp l.items out.calls h3, ?_⟩
    apply key out.calls _ h3 h4
    intro k j hk
    rw [placeV_getElem?, hk]
    simp [drawnRect, hne]

/-- After Draw on a layout whose items hold pairwise different regions, the
region of the item at index `k` has the rectangle drawnRect. -/
theorem Draw_rect (hp : Heap) (l : Layout)
    (hd : l.direction = HorizontalLayout ∨ l.direction = VerticalLayout)
    (hreg : AllRegions hp l) (hnd : (blurAll hp l.items).Nodup) :
    ∃ out, l.Draw hp = some out ∧ out.heap.item = hp.item ∧
      ∀ (k j : Nat) (p : Primitive), l.items[k]? = some j → (hp.item j).Primitive = some p →
        out.heap.rect p = drawnRect hp l k j := by
  obtain ⟨out, h1, h2, h3, h4⟩ := Draw_calls hp l hd hreg
  refine ⟨out, h1, Draw_item hp l out h1, ?_⟩
  intro k j p hk hp1
  rw [h2]
  apply applyCalls_rect_mem
  · rw [h3]; exact hnd
  · exact List.mem_iff_getElem?.mpr ⟨k, h4 k j p hk hp1⟩

/-! ## Lemmas on the drag scenario -/

theorem findSplitter_at (px py : Int) (splitters : List splitter) :
    ∀ (i n : Nat) (s : splitter), splitters[i]? = some s → s.contain px py = true →
      (∀ t ∈ splitters.take i, t.contain px py = false) →
      findSplitter px py splitters n = some (n + i, s) := by
  induction splitters with
  | nil => intro i n s h; simp at h
  | cons t rest ih =>
    intro i n s hs hhit hfirst
    cases i with
    | zero =>
      simp at hs
      subst hs
      simp [findSplitter, hhit]
    | succ i =>
      rw [List.getElem?_cons_succ] at hs
      have ht : t.contain px py = false := hfirst t (by simp)
      have hrest : ∀ u ∈ rest.take i, u.contain px py = false :=
        fun u hu => hfirst u (by simp [hu])
      rw [findSplitter]
      simp only [ht, Bool.false_eq_true, if_false]
      rw [ih i (n + 1) s hs hhit hrest]
      congr 2
      omega

theorem blurAll_congr (hp hp2 : Heap) (items : List Nat)
    (h : ∀ j ∈ items, (hp2.item j).Primitive = (hp.item j).Primitive) :
    blurAll hp2 items = blurAll hp items := by
  unfold blurAll
  apply List.filterMap_congr
  intro j hj
  exact h j hj

theorem MouseHandler_of_captured (env : Env) (hp : Heap) (l : Layout) (action a : MouseAction)
    (event ev : EventMouse) (h : l.captured action event = (a, some ev)) :
    l.MouseHandler env hp action event = l.mouseHandler env hp a ev := by
  unfold Layout.MouseHandler
  simp only [h]

/-- The handler on a left press that hits a splitter, inside the layout, when
no child consumes the event. -/
theorem mouseHandler_press (env : Env) (hp : Heap) (l : Layout) (ev : EventMouse) (i : Nat)
    (s : splitter) (hin : l.InRect ev.x ev.y = true)
    (hnc : NoChildConsumes env hp l MouseAction.MouseLeftDown ev)
    (hfind : findSplitter ev.x ev.y l.splitters 0 = some (i, s)) :
    l.mouseHandler env hp MouseAction.MouseLeftDown ev =
      some { heap := hp,
             l := { l with focusedSplitterNumber := (i : Int), draggedSplitter := some s,
                           dragX := ev.x, dragY := ev.y },
             consumed := true, capture := none, offered := blurAll hp l.items,
             blurred := blurAll hp l.items } := by
  obtain ⟨h1, h2⟩ := offerChildren_none env hp MouseAction.MouseLeftDown ev l.items none hnc
  unfold Layout.mouseHandler
  simp only [hin, h1, h2, hfind, Bool.not_true, Bool.false_eq_true, if_false]

/-- The handler on a left release, inside the layout, when no child consumes
the event. -/
theorem mouseHandler_release (env : Env) (hp : Heap) (l : Layout) (ev : EventMouse)
    (hin : l.InRect ev.x ev.y = true)
    (hnc : NoChildConsumes env hp l MouseAction.MouseLeftUp ev) :
    l.mouseHandler env hp MouseAction.MouseLeftUp ev =
      some { heap := hp, l := Layout.rebuildSplitters hp { l with draggedSplitter := none },
             consumed := true, capture := none, offered := blurAll hp l.items,
             blurred := [] } := by
  obtain ⟨h1, h2⟩ := offerChildren_none env hp MouseAction.MouseLeftUp ev l.items none hnc
  unfold Layout.mouseHandler
  simp only [hin, h1, h2, Bool.not_true, Bool.false_eq_true, if_false]

/-- Two length functions that differ by `+ delta` on the item at index `i`, by
`- delta` on its successor and nowhere else have the same prefix sums, except
right after index `i`. -/
theorem prefixSum_shift (f g : Nat → Int) (items : List Nat) (i a b : Nat) (delta : Int)
    (hnd : items.Nodup) (ha : items[i]? = some a) (hb : items[i + 1]? = some b)
    (hga : g a = f a + delta) (hgb : g b = f b - delta)
    (hother : ∀ j ∈ items, j ≠ a → j ≠ b → g j = f j) :
    ∀ k, k ≤ items.length →
      prefixSum g items k = prefixSum f items k + (if k = i + 1 then delta else 0) := by
  have hi : i < items.length := by
    by_contra hc
    rw [List.getElem?_eq_none (by omega)] at ha
    cases ha
  have hi1 : i + 1 < items.length := by
    by_contra hc
    rw [List.getElem?_eq_none (by omega)] at hb
    cases hb
  intro k
  induction k with
  | zero =>
    intro _
    simp [prefixSum_zero]
  | succ k ih =>
    intro hk
    have hk1 : k < items.length := by omega
    have hj : items[k]? = some items[k] := List.getElem?_eq_getElem hk1
    rw [prefixSum_succ g items k _ hj, prefixSum_succ f items k _ hj, ih (by omega)]
    by_cases e1 : k = i
    · subst e1
      rw [hj] at ha
      have : items[k] = a := Option.some.inj ha
      rw [this, hga]
      simp
      ring
    · by_cases e2 : k = i + 1
      · subst e2
        rw [hj] at hb
        have : items[i + 1] = b := Option.some.inj hb
        rw [this, hgb]
        simp
      · have hne1 : items[k] ≠ a := by
          intro h
          apply e1
          exact List.getElem?_inj hk1 hnd (by rw [hj, ha, h])
        have hne2 : items[k] ≠ b := by
          intro h
          apply e2
          exact List.getElem?_inj hk1 hnd (by rw [hj, hb, h])
        rw [hother _ (List.getElem_mem _) hne1 hne2]
        have e3 : ¬ k + 1 = i + 1 := by omega
        simp [e1, e2, e3]

theorem autoSize_congr (hp : Heap) (l l2 : Layout) (h1 : l2.items = l.items)
    (h2 : l2.direction = l.direction) (h3 : l2.width = l.width) (h4 : l2.height = l.height) :
    l2.autoSize hp = l.autoSize hp := by
  unfold Layout.autoSize Layout.itemsAmount Layout.itemsSize Layout.availableSpace
    Layout.splittersAmount
  rw [h1, h2, h3, h4]

theorem drawnRect_congr (hp : Heap) (l l2 : Layout) (k j : Nat) (h1 : l2.items = l.items)
    (h2 : l2.direction = l.direction) (h3 : l2.width = l.width) (h4 : l2.height = l.height)
    (h5 : l2.x = l.x) (h6 : l2.y = l.y) :
    drawnRect hp l2 k j = drawnRect hp l k j := by
  unfold drawnRect
  rw [autoSize_congr hp l l2 h1 h2 h3 h4, h1, h2, h3, h4, h5, h6]

theorem builtSplitter_congr (hp : Heap) (l l2 : Layout) (k a b : Nat) (h1 : l2.items = l.items)
    (h2 : l2.direction = l.direction) (h3 : l2.width = l.width) (h4 : l2.height = l.height)
    (h5 : l2.x = l.x) (h6 : l2.y = l.y) :
    builtSplitter hp l2 k a b = builtSplitter hp l k a b := by
  unfold builtSplitter
  rw [autoSize_congr hp l l2 h1 h2 h3 h4, h1, h2, h3, h4, h5, h6]

theorem prefixSum_length (f : Nat → Int) (items : List Nat) :
    prefixSum f items items.length = (items.map f).sum := by
  simp [prefixSum]

/-- A drag between two fixed-size items that stay fixed-size keeps the auto
share: the sum of the Sizes and the number of auto-sized items are the same. -/
theorem autoSize_after_drag (hp hp2 : Heap) (l : Layout) (i a b : Nat) (delta : Int)
    (hnd : l.items.Nodup) (ha : l.items[i]? = some a) (hb : l.items[i + 1]? = some b)
    (hother : ∀ j, j ≠ a → j ≠ b → hp2.item j = hp.item j)
    (hsa : (hp2.item a).Size = (hp.item a).Size + delta)
    (hsb : (hp2.item b).Size = (hp.item b).Size - delta)
    (hfa : (hp.item a).Size ≠ AutoSize) (hfb : (hp.item b).Size ≠ AutoSize)
    (hza : (hp2.item a).Size ≠ AutoSize) (hzb : (hp2.item b).Size ≠ AutoSize) :
    l.autoSize hp2 = l.autoSize hp := by
  have hcount : autoCount hp2 l = autoCount hp l := by
    unfold autoCount
    congr 2
    apply List.filter_congr
    intro j _
    by_cases e1 : j = a
    · subst e1; simp [hfa, hza]
    · by_cases e2 : j = b
      · subst e2; simp [hfb, hzb]
      · rw [hother j e1 e2]
  have hsum : fixedSum hp2 l = fixedSum hp l := by
    unfold fixedSum
    rw [← prefixSum_length, ← prefixSum_length]
    have hlen : i + 1 < l.items.length := by
      by_contra hc
      rw [List.getElem?_eq_none (by omega)] at hb
      cases hb
    rw [prefixSum_shift (fun j => (hp.item j).Size) (fun j => (hp2.item j).Size) l.items i a b
      delta hnd ha hb hsa hsb (fun j _ e1 e2 => by simp only [hother j e1 e2]) _ (le_refl _)]
    have : ¬ l.items.length = i + 1 := by omega
    simp [this]
  unfold Layout.autoSize
  simp only [itemsAmount_snd, itemsSize_eq, hcount, hsum]

/-- The item lengths after a drag by `delta` of the splitter between `a`, at
index `i`, and `b`: both new lengths are not 0, and either both items were
fixed-size or no other item is auto-sized. -/
theorem itemLen_after_drag (hp hp2 : Heap) (l : Layout) (i a b : Nat) (delta : Int)
    (hnd : l.items.Nodup) (ha : l.items[i]? = some a) (hb : l.items[i + 1]? = some b)
    (hother : ∀ j, j ≠ a → j ≠ b → hp2.item j = hp.item j)
    (hsa : (hp2.item a).Size = itemLen hp (l.autoSize hp) a + delta)
    (hsb : (hp2.item b).Size = itemLen hp (l.autoSize hp) b - delta)
    (hza : itemLen hp (l.autoSize hp) a + delta ≠ 0)
    (hzb : itemLen hp (l.autoSize hp) b - delta ≠ 0)
    (hshare : ((hp.item a).Size ≠ AutoSize ∧ (hp.item b).Size ≠ AutoSize) ∨
      (∀ j ∈ l.items, j ≠ a → j ≠ b → (hp.item j).Size ≠ AutoSize)) :
    itemLen hp2 (l.autoSize hp2) a = itemLen hp (l.autoSize hp) a + delta ∧
    itemLen hp2 (l.autoSize hp2) b = itemLen hp (l.autoSize hp) b - delta ∧
    ∀ j ∈ l.items, j ≠ a → j ≠ b →
      itemLen hp2 (l.autoSize hp2) j = itemLen hp (l.autoSize hp) j := by
  have hza2 : (hp2.item a).Size ≠ AutoSize := by rw [hsa]; exact hza
  have hzb2 : (hp2.item b).Size ≠ AutoSize := by rw [hsb]; exact hzb
  refine ⟨?_, ?_, ?_⟩
  · rw [← hsa]; simp [itemLen, hza2]
  · rw [← hsb]; simp [itemLen, hzb2]
  · intro j hj e1 e2
    by_cases hauto : (hp.item j).Size = AutoSize
    · rcases hshare with ⟨hfa, hfb⟩ | hno
      · have hq : l.autoSize hp2 = l.autoSize hp := by
          apply autoSize_after_drag hp hp2 l i a b delta hnd ha hb hother _ _ hfa hfb hza2 hzb2
          · rw [hsa]; simp [itemLen, hfa]
          · rw [hsb]; simp [itemLen, hfb]
        unfold itemLen
        rw [hother j e1 e2, hq]
      · exact absurd hauto (hno j hj e1 e2)
    · unfold itemLen
      rw [hother j e1 e2]
      simp [hauto]

theorem map_prim_eq (hp : Heap) (items : List Nat)
    (hreg : ∀ i ∈ items, (hp.item i).Primitive ≠ none) :
    items.map (fun i => (hp.item i).Primitive) = (blurAll hp items).map some := by
  induction items with
  | nil => rfl
  | cons i rest ih =>
    obtain ⟨p, hpi⟩ := Option.ne_none_iff_exists'.mp (hreg i (List.mem_cons_self _ _))
    have hr := ih (fun j hj => hreg j (List.mem_cons_of_mem _ hj))
    have hb : blurAll hp (i :: rest) = p :: blurAll hp rest := by simp [blurAll, hpi]
    rw [hb, List.map_cons, List.map_cons, hr, hpi]

theorem items_nodup (hp : Heap) (l : Layout) (hreg : AllRegions hp l)
    (hnd : (blurAll hp l.items).Nodup) : l.items.Nodup := by
  apply List.Nodup.of_map (fun i => (hp.item i).Primitive)
  rw [map_prim_eq hp l.items hreg]
  exact hnd.map (Option.some_injective _)

theorem blurAll_getElem? (hp : Heap) (l : Layout) (hreg : AllRegions hp l) (k j : Nat)
    (p : Primitive) (hk : l.items[k]? = some j) (hp1 : (hp.item j).Primitive = some p) :
    (blurAll hp l.items)[k]? = some p := by
  have e := congrArg (fun (xs : List (Option Primitive)) => xs[k]?) (map_prim_eq hp l.items hreg)
  simp only [List.getElem?_map, hk, Option.map_some', hp1] at e
  cases hc : (blurAll hp l.items)[k]? with
  | none => simp [hc] at e
  | some c =>
    simp only [hc, Option.map_some', Option.some.injEq] at e
    rw [e]

theorem prims_ne (hp : Heap) (l : Layout) (hreg : AllRegions hp l)
    (hnd : (blurAll hp l.items).Nodup) (i k a b : Nat) (pa pb : Primitive)
    (ha : l.items[i]? = some a) (hb : l.items[k]? = some b) (hik : i ≠ k)
    (hpa : (hp.item a).Primitive = some pa) (hpb : (hp.item b).Primitive = some pb) :
    pa ≠ pb := by
  intro h
  have e1 := blurAll_getElem? hp l hreg i a pa ha hpa
  have e2 := blurAll_getElem? hp l hreg k b pb hb hpb
  have hi : i < (blurAll hp l.items).length := by
    by_contra hc
    rw [List.getElem?_eq_none (by omega)] at e1
    cases e1
  exact hik (List.getElem?_inj hi hnd (by rw [e1, e2, h]))

theorem captured_congr (l l2 : Layout) (h : l2.mouseCapture = l.mouseCapture)
    (action : MouseAction) (event : EventMouse) :
    l2.captured action event = l.captured action event := by
  unfold Layout.captured
  rw [h]

theorem rebuildSplitters_eq (hp : Heap) (l : Layout) :
    Layout.rebuildSplitters hp l
      = { l with splitters := (Layout.rebuildSplitters hp l).splitters } := by
  unfold Layout.rebuildSplitters
  split
  · rfl
  · split <;> rfl

/-- The splitter at index `i` of a layout whose splitters are current sits
between the items at `i` and `i + 1`. -/
theorem current_splitter (hp : Heap) (l : Layout)
    (hd : l.direction = HorizontalLayout ∨ l.direction = VerticalLayout)
    (hcur : l.splitters = (Layout.rebuildSplitters hp l).splitters) (i : Nat) (s : splitter)
    (hs : l.splitters[i]? = some s) :
    l.items[i]? = some s.a ∧ l.items[i + 1]? = some s.b ∧ s = builtSplitter hp l i s.a s.b := by
  have hcount := rebuildSplitters_count hp l hd
  unfold SplitterCount Layout.CountItems at hcount
  rw [rebuildSplitters_items, ← hcur] at hcount
  have hi : i < l.splitters.length := by
    by_contra hc
    rw [List.getElem?_eq_none (by omega)] at hs
    cases hs
  have hi1 : i + 1 < l.items.length := by omega
  have ha : l.items[i]? = some (l.items[i]) := List.getElem?_eq_getElem (by omega)
  have hb : l.items[i + 1]? = some (l.items[i + 1]) := List.getElem?_eq_getElem hi1
  have hbuilt := rebuildSplitters_getElem? hp l hd i _ _ ha hb
  rw [← hcur, hs] at hbuilt
  have hse : s = builtSplitter hp l i l.items[i] l.items[i + 1] := Option.some.inj hbuilt
  have h1 : s.a = l.items[i] := by
    rw [hse]; unfold builtSplitter; split <;> rfl
  have h2 : s.b = l.items[i + 1] := by
    rw [hse]; unfold builtSplitter; split <;> rfl
  rw [h1, h2]
  exact ⟨ha, hb, hse⟩

theorem setSize_prim (hp : Heap) (i j : Nat) (v : Int) :
    ((hp.setSize i v).item j).Primitive = (hp.item j).Primitive := by
  by_cases h : j = i
  · subst h; simp [Heap.setSize]
  · rw [setSize_item_ne _ _ _ _ h]

/-- The drag scenario in a HorizontalLayout: press on splitter `i`, move by
`delta` columns, release, Draw. -/
theorem scenario_horizontal (env : Env) (hp0 : Heap) (l : Layout) (out0 : DrawResult)
    (i : Nat) (s : splitter) (pa pb : Primitive) (px py delta rx ry : Int)
    (a1 a2 a3 : MouseAction) (e1 e2 e3 : EventMouse)
    (hH : l.direction = HorizontalLayout)
    (hc1 : l.captured a1 e1 = (MouseAction.MouseLeftDown, some ⟨px, py⟩))
    (hc2 : l.captured a2 e2 = (MouseAction.MouseMove, some ⟨px + delta, py⟩))
    (hc3 : l.captured a3 e3 = (MouseAction.MouseLeftUp, some ⟨rx, ry⟩))
    (hreg : AllRegions hp0 l) (hnodup : (blurAll hp0 l.items).Nodup)
    (hdraw : l.Draw hp0 = some out0)
    (hcur : l.splitters = (Layout.rebuildSplitters hp0 l).splitters)
    (hs : l.splitters[i]? = some s)
    (hpa : (hp0.item s.a).Primitive = some pa) (hpb : (hp0.item s.b).Primitive = some pb)
    (hhit : s.contain px py = true)
    (hfirst : ∀ t ∈ l.splitters.take i, t.contain px py = false)
    (hin1 : l.InRect px py = true) (hin2 : l.InRect (px + delta) py = true)
    (hin3 : l.InRect rx ry = true)
    (hnc1 : NoChildConsumes env hp0 l MouseAction.MouseLeftDown ⟨px, py⟩)
    (hnc2 : NoChildConsumes env hp0 l MouseAction.MouseMove ⟨px + delta, py⟩)
    (hnc3 : NoChildConsumes env hp0 l MouseAction.MouseLeftUp ⟨rx, ry⟩)
    (hza : itemLen hp0 (l.autoSize hp0) s.a + delta ≠ 0)
    (hzb : itemLen hp0 (l.autoSize hp0) s.b - delta ≠ 0)
    (hshare : ((hp0.item s.a).Size ≠ AutoSize ∧ (hp0.item s.b).Size ≠ AutoSize) ∨
      (∀ j ∈ l.items, j ≠ s.a → j ≠ s.b → (hp0.item j).Size ≠ AutoSize)) :
    ∃ r1 r2 r3 out,
      l.MouseHandler env out0.heap a1 e1 = some r1 ∧
      r1.l.MouseHandler env r1.heap a2 e2 = some r2 ∧
      r2.l.MouseHandler env r2.heap a3 e3 = some r3 ∧
      r3.l.Draw r3.heap = some out ∧
      r1.l.draggedSplitter = some s ∧
      r3.l.draggedSplitter = none ∧
      r3.l.splitters[i]? = some (s.shift l.direction delta) ∧
      out.heap.rect pa = r2.heap.rect pa ∧ out.heap.rect pb = r2.heap.rect pb ∧
      (∀ p ∈ blurAll hp0 l.items, p ≠ pa → p ≠ pb → out.heap.rect p = out0.heap.rect p) := by
  have hd : l.direction = HorizontalLayout ∨ l.direction = VerticalLayout := Or.inl hH
  obtain ⟨o, ho, hitem0, hrect0⟩ := Draw_rect hp0 l hd hreg hnodup
  rw [hdraw] at ho
  cases ho
  have hnd := items_nodup hp0 l hreg hnodup
  obtain ⟨ha, hb, hse⟩ := current_splitter hp0 l hd hcur i s hs
  have hne : pa ≠ pb :=
    prims_ne hp0 l hreg hnodup i (i + 1) s.a s.b pa pb ha hb (by omega) hpa hpb
  have hab : s.a ≠ s.b := by
    intro h
    rw [h, hpb] at hpa
    exact hne (Option.some.inj hpa).symm
  have hra : out0.heap.rect pa = drawnRect hp0 l i s.a := hrect0 i s.a pa ha hpa
  have hrb : out0.heap.rect pb = drawnRect hp0 l (i + 1) s.b := hrect0 (i + 1) s.b pb hb hpb
  -- the press
  obtain ⟨l1, hl1⟩ : ∃ l1 : Layout, l1 =
      { l with focusedSplitterNumber := (i : Int), draggedSplitter := some s,
               dragX := px, dragY := py } := ⟨_, rfl⟩
  have hfind : findSplitter px py l.splitters 0 = some (i, s) := by
    have := findSplitter_at px py l.splitters i 0 s hs hhit hfirst
    simpa using this
  have hblur0 : blurAll out0.heap l.items = blurAll hp0 l.items :=
    blurAll_congr _ _ _ (fun j _ => by rw [hitem0])
  have hstep1 : l.MouseHandler env out0.heap a1 e1
      = some { heap := out0.heap, l := l1, consumed := true, capture := none,
               offered := blurAll out0.heap l.items, blurred := blurAll out0.heap l.items } := by
    rw [MouseHandler_of_captured _ _ _ _ _ _ _ hc1, hl1]
    apply mouseHandler_press env out0.heap l ⟨px, py⟩ i s hin1 _ hfind
    unfold NoChildConsumes at hnc1 ⊢
    rw [hblur0]
    exact hnc1
  -- the move
  have h1items : l1.items = l.items := by rw [hl1]
  have h1dir : l1.direction = HorizontalLayout := by rw [hl1]; exact hH
  have h1drag : l1.draggedSplitter = some s := by rw [hl1]
  have h1cap : l1.mouseCapture = l.mouseCapture := by rw [hl1]
  have h1in : ∀ x y, l1.InRect x y = l.InRect x y := by intro x y; rw [hl1]; rfl
  have h1dx : l1.dragX = px := by rw [hl1]
  obtain ⟨hp2, hhp2⟩ : ∃ hp2 : Heap, hp2 =
      (((out0.heap.setRect pa ⟨(out0.heap.rect pa).x, (out0.heap.rect pa).y,
            (out0.heap.rect pa).width + delta, (out0.heap.rect pa).height⟩).setRect pb
          ⟨(out0.heap.rect pb).x + delta, (out0.heap.rect pb).y,
            (out0.heap.rect pb).width - delta, (out0.heap.rect pb).height⟩).setSize s.a
          ((out0.heap.rect pa).width + delta)).setSize s.b
          ((out0.heap.rect pb).width - delta) := ⟨_, rfl⟩
  obtain ⟨l2, hl2⟩ : ∃ l2 : Layout, l2 = { l1 with dragX := px + delta, dragY := py } :=
    ⟨_, rfl⟩
  have hstep2 : l1.MouseHandler env out0.heap a2 e2
      = some { heap := hp2, l := l2, consumed := true, capture := none,
               offered := blurAll out0.heap l1.items, blurred := [] } := by
    rw [MouseHandler_of_captured _ _ _ _ _ _ _
      ((captured_congr l l1 h1cap a2 e2).trans hc2)]
    rw [mouseHandler_move env out0.heap l1 ⟨px + delta, py⟩ s pa pb
      (by rw [h1in]; exact hin2)
      (by
        unfold NoChildConsumes at hnc2 ⊢
        rw [h1items, hblur0]
        exact hnc2)
      h1drag (by rw [hitem0]; exact hpa) (by rw [hitem0]; exact hpb)]
    rw [if_pos h1dir, hhp2, hl2, h1dx]
    simp only [add_sub_cancel_left]
  -- the heap after the move
  have h2other : ∀ j, j ≠ s.a → j ≠ s.b → hp2.item j = hp0.item j := by
    intro j e1 e2
    rw [hhp2, setSize_item_ne _ _ _ _ e2, setSize_item_ne _ _ _ _ e1, setRect_item,
      setRect_item, hitem0]
  have h2sa : (hp2.item s.a).Size = itemLen hp0 (l.autoSize hp0) s.a + delta := by
    rw [hhp2, setSize_item_ne _ _ _ _ hab, setSize_item_self, hra]
    simp [drawnRect, hH]
  have h2sb : (hp2.item s.b).Size = itemLen hp0 (l.autoSize hp0) s.b - delta := by
    rw [hhp2, setSize_item_self, hrb]
    simp [drawnRect, hH]
  have h2prim : ∀ j, (hp2.item j).Primitive = (hp0.item j).Primitive := by
    intro j
    rw [hhp2, setSize_prim, setSize_prim, setRect_item, setRect_item, hitem0]
  have h2ra : hp2.rect pa = ⟨(out0.heap.rect pa).x, (out0.heap.rect pa).y,
      (out0.heap.rect pa).width + delta, (out0.heap.rect pa).height⟩ := by
    rw [hhp2, setSize_rect, setSize_rect, setRect_rect_ne _ _ _ _ hne, setRect_rect_self]
  have h2rb : hp2.rect pb = ⟨(out0.heap.rect pb).x + delta, (out0.heap.rect pb).y,
      (out0.heap.rect pb).width - delta, (out0.heap.rect pb).height⟩ := by
    rw [hhp2, setSize_rect, setSize_rect, setRect_rect_self]
  have hblur2 : blurAll hp2 l.items = blurAll hp0 l.items :=
    blurAll_congr _ _ _ (fun j _ => h2prim j)
  -- the release
  have h2items : l2.items = l.items := by rw [hl2, hl1]
  have h2cap : l2.mouseCapture = l.mouseCapture := by rw [hl2, hl1]
  have h2in : ∀ x y, l2.InRect x y = l.InRect x y := by intro x y; rw [hl2, hl1]; rfl
  obtain ⟨l3, hl3⟩ : ∃ l3 : Layout, l3 =
      Layout.rebuildSplitters hp2 { l2 with draggedSplitter := none } := ⟨_, rfl⟩
  have hstep3 : l2.MouseHandler env hp2 a3 e3
      = some { heap := hp2, l := l3, consumed := true, capture := none,
               offered := blurAll hp2 l2.items, blurred := [] } := by
    rw [MouseHandler_of_captured _ _ _ _ _ _ _
      ((captured_congr l l2 h2cap a3 e3).trans hc3), hl3]
    apply mouseHandler_release env hp2 l2 ⟨rx, ry⟩ (by rw [h2in]; exact hin3)
    unfold NoChildConsumes at hnc3 ⊢
    rw [h2items, hblur2]
    exact hnc3
  have h3eq : l3 = { l with focusedSplitterNumber := (i : Int), draggedSplitter := none,
                            dragX := px + delta, dragY := py, splitters := l3.splitters } := by
    rw [hl3, rebuildSplitters_eq, hl2, hl1]
  have h3items : l3.items = l.items := by rw [h3eq]
  have h3dir : l3.direction = l.direction := by rw [h3eq]
  have h3w : l3.width = l.width := by rw [h3eq]
  have h3h : l3.height = l.height := by rw [h3eq]
  have h3x : l3.x = l.x := by rw [h3eq]
  have h3y : l3.y = l.y := by rw [h3eq]
  have h3drag : l3.draggedSplitter = none := by rw [h3eq]
  -- the item lengths and the offsets after the drag
  obtain ⟨hlena, hlenb, hleno⟩ :=
    itemLen_after_drag hp0 hp2 l i s.a s.b delta hnd ha hb h2other h2sa h2sb hza hzb hshare
  have hpre := prefixSum_shift (fun j => itemLen hp0 (l.autoSize hp0) j + 1)
    (fun j => itemLen hp2 (l.autoSize hp2) j + 1) l.items i s.a s.b delta hnd ha hb
    (by simp only [hlena]; ring) (by simp only [hlenb]; ring)
    (fun j hj e1 e2 => by simp only [hleno j hj e1 e2])
  have hlt : ∀ (k j : Nat), l.items[k]? = some j → k ≤ l.items.length := by
    intro k j hk
    by_contra hc
    rw [List.getElem?_eq_none (by omega)] at hk
    cases hk
  -- the rebuilt splitter
  have hspl : l3.splitters[i]? = some (s.shift l.direction delta) := by
    have hb3 := rebuildSplitters_getElem? hp2 { l2 with draggedSplitter := none }
      (by rw [hl2, hl1]; exact hd) i s.a s.b (by rw [hl2, hl1]; exact ha)
      (by rw [hl2, hl1]; exact hb)
    rw [← hl3] at hb3
    rw [hb3, builtSplitter_congr hp2 l _ i s.a s.b (by rw [hl2, hl1]) (by rw [hl2, hl1])
      (by rw [hl2, hl1]) (by rw [hl2, hl1]) (by rw [hl2, hl1]) (by rw [hl2, hl1])]
    congr 1
    rw [hse]
    simp only [builtSplitter, splitter.shift, if_pos hH, hlena,
      hpre i (hlt i s.a ha)]
    simp
    ring
  -- the second Draw
  obtain ⟨out, hout, _, hrect⟩ := Draw_rect hp2 l3 (by rw [h3dir]; exact hd)
    (by
      intro j hj
      rw [h3items] at hj
      rw [h2prim]
      exact hreg j hj)
    (by rw [h3items, hblur2]; exact hnodup)
  have hrect2 : ∀ (k j : Nat) (p : Primitive), l.items[k]? = some j →
      (hp0.item j).Primitive = some p → out.heap.rect p = drawnRect hp2 l k j := by
    intro k j p hk hp1
    rw [hrect k j p (by rw [h3items]; exact hk) (by rw [h2prim]; exact hp1)]
    exact drawnRect_congr hp2 l l3 k j h3items h3dir h3w h3h h3x h3y
  refine ⟨_, _, _, out, hstep1, hstep2, hstep3, hout, h1drag, h3drag, hspl, ?_, ?_, ?_⟩
  · show out.heap.rect pa = hp2.rect pa
    rw [hrect2 i s.a pa ha hpa, h2ra, hra]
    simp only [drawnRect, if_pos hH, hlena, hpre i (hlt i s.a ha)]
    simp
  · show out.heap.rect pb = hp2.rect pb
    rw [hrect2 (i + 1) s.b pb hb hpb, h2rb, hrb]
    simp only [drawnRect, if_pos hH, hlenb, hpre (i + 1) (hlt (i + 1) s.b hb)]
    simp
    ring
  · intro p hp1 e1 e2
    obtain ⟨j, hj, hjp⟩ := List.mem_filterMap.mp hp1
    obtain ⟨k, hk⟩ := List.mem_iff_getElem?.mp hj
    have hja : j ≠ s.a := by
      intro h
      rw [h, hpa] at hjp
      exact e1 (Option.some.inj hjp).symm
    have hjb : j ≠ s.b := by
      intro h
      rw [h, hpb] at hjp
      exact e2 (Option.some.inj hjp).symm
    have hki : k ≠ i + 1 := by
      intro h
      rw [h, hb] at hk
      exact hjb (Option.some.inj hk).symm
    rw [hrect2 k j p hk hjp, hrect0 k j p hk hjp]
    simp only [drawnRect, if_pos hH, hleno j hj hja hjb, hpre k (hlt k j hk), if_neg hki]
    simp

/-- The drag scenario in a VerticalLayout: press on splitter `i`, move by
`delta` rows, release, Draw. -/
theorem scenario_vertical (env : Env) (hp0 : Heap) (l : Layout) (out0 : DrawResult)
    (i : Nat) (s : splitter) (pa pb : Primitive) (px py delta rx ry : Int)
    (a1 a2 a3 : MouseAction) (e1 e2 e3 : EventMouse)
    (hV : l.direction = VerticalLayout)
    (hc1 : l.captured a1 e1 = (MouseAction.MouseLeftDown, some ⟨px, py⟩))
    (hc2 : l.captured a2 e2 = (MouseAction.MouseMove, some ⟨px, py + delta⟩))
    (hc3 : l.captured a3 e3 = (MouseAction.MouseLeftUp, some ⟨rx, ry⟩))
    (hreg : AllRegions hp0 l) (hnodup : (blurAll hp0 l.items).Nodup)
    (hdraw : l.Draw hp0 = some out0)
    (hcur : l.splitters = (Layout.rebuildSplitters hp0 l).splitters)
    (hs : l.splitters[i]? = some s)
    (hpa : (hp0.item s.a).Primitive = some pa) (hpb : (hp0.item s.b).Primitive = some pb)
    (hhit : s.contain px py = true)
    (hfirst : ∀ t ∈ l.splitters.take i, t.contain px py = false)
    (hin1 : l.InRect px py = true) (hin2 : l.InRect px (py + delta) = true)
    (hin3 : l.InRect rx ry = true)
    (hnc1 : NoChildConsumes env hp0 l MouseAction.MouseLeftDown ⟨px, py⟩)
    (hnc2 : NoChildConsumes env hp0 l MouseAction.MouseMove ⟨px, py + delta⟩)
    (hnc3 : NoChildConsumes env hp0 l MouseAction.MouseLeftUp ⟨rx, ry⟩)
    (hza : itemLen hp0 (l.autoSize hp0) s.a + delta ≠ 0)
    (hzb : itemLen hp0 (l.autoSize hp0) s.b - delta ≠ 0)
    (hshare : ((hp0.item s.a).Size ≠ AutoSize ∧ (hp0.item s.b).Size ≠ AutoSize) ∨
      (∀ j ∈ l.items, j ≠ s.a → j ≠ s.b → (hp0.item j).Size ≠ AutoSize)) :
    ∃ r1 r2 r3 out,
      l.MouseHandler env out0.heap a1 e1 = some r1 ∧
      r1.l.MouseHandler env r1.heap a2 e2 = some r2 ∧
      r2.l.MouseHandler env r2.heap a3 e3 = some r3 ∧
      r3.l.Draw r3.heap = some out ∧
      r1.l.draggedSplitter = some s ∧
      r3.l.draggedSplitter = none ∧
      r3.l.splitters[i]? = some (s.shift l.direction delta) ∧
      out.heap.rect pa = r2.heap.rect pa ∧ out.heap.rect pb = r2.heap.rect pb ∧
      (∀ p ∈ blurAll hp0 l.items, p ≠ pa → p ≠ pb → out.heap.rect p = out0.heap.rect p) := by
  have hd : l.direction = HorizontalLayout ∨ l.direction = VerticalLayout := Or.inr hV
  have hnH : ¬ l.direction = HorizontalLayout := by rw [hV]; decide
  obtain ⟨o, ho, hitem0, hrect0⟩ := Draw_rect hp0 l hd hreg hnodup
  rw [hdraw] at ho
  cases ho
  have hnd := items_nodup hp0 l hreg hnodup
  obtain ⟨ha, hb, hse⟩ := current_splitter hp0 l hd hcur i s hs
  have hne : pa ≠ pb :=
    prims_ne hp0 l hreg hnodup i (i + 1) s.a s.b pa pb ha hb (by omega) hpa hpb
  have hab : s.a ≠ s.b := by
    intro h
    rw [h, hpb] at hpa
    exact hne (Option.some.inj hpa).symm
  have hra : out0.heap.rect pa = drawnRect hp0 l i s.a := hrect0 i s.a pa ha hpa
  have hrb : out0.heap.rect pb = drawnRect hp0 l (i + 1) s.b := hrect0 (i + 1) s.b pb hb hpb
  -- the press
  obtain ⟨l1, hl1⟩ : ∃ l1 : Layout, l1 =
      { l with focusedSplitterNumber := (i : Int), draggedSplitter := some s,
               dragX := px, dragY := py } := ⟨_, rfl⟩
  have hfind : findSplitter px py l.splitters 0 = some (i, s) := by
    have := findSplitter_at px py l.splitters i 0 s hs hhit hfirst
    simpa using this
  have hblur0 : blurAll out0.heap l.items = blurAll hp0 l.items :=
    blurAll_congr _ _ _ (fun j _ => by rw [hitem0])
  have hstep1 : l.MouseHandler env out0.heap a1 e1
      = some { heap := out0.heap, l := l1, consumed := true, capture := none,
               offered := blurAll out0.heap l.items, blurred := blurAll out0.heap l.items } := by
    rw [MouseHandler_of_captured _ _ _ _ _ _ _ hc1, hl1]
    apply mouseHandler_press env out0.heap l ⟨px, py⟩ i s hin1 _ hfind
    unfold NoChildConsumes at hnc1 ⊢
    rw [hblur0]
    exact hnc1
  -- the move
  have h1items : l1.items = l.items := by rw [hl1]
  have h1dir : l1.direction = VerticalLayout := by rw [hl1]; exact hV
  have h1nH : ¬ l1.direction = HorizontalLayout := by rw [hl1]; exact hnH
  have h1drag : l1.draggedSplitter = some s := by rw [hl1]
  have h1cap : l1.mouseCapture = l.mouseCapture := by rw [hl1]
  have h1in : ∀ x y, l1.InRect x y = l.InRect x y := by intro x y; rw [hl1]; rfl
  have h1dy : l1.dragY = py := by rw [hl1]
  obtain ⟨hp2, hhp2⟩ : ∃ hp2 : Heap, hp2 =
      (((out0.heap.setRect pa ⟨(out0.heap.rect pa).x, (out0.heap.rect pa).y,
            (out0.heap.rect pa).width, (out0.heap.rect pa).height + delta⟩).setRect pb
          ⟨(out0.heap.rect pb).x, (out0.heap.rect pb).y + delta,
            (out0.heap.rect pb).width, (out0.heap.rect pb).height - delta⟩).setSize s.a
          ((out0.heap.rect pa).height + delta)).setSize s.b
          ((out0.heap.rect pb).height - delta) := ⟨_, rfl⟩
  obtain ⟨l2, hl2⟩ : ∃ l2 : Layout, l2 = { l1 with dragX := px, dragY := py + delta } :=
    ⟨_, rfl⟩
  have hstep2 : l1.MouseHandler env out0.heap a2 e2
      = some { heap := hp2, l := l2, consumed := true, capture := none,
               offered := blurAll out0.heap l1.items, blurred := [] } := by
    rw [MouseHandler_of_captured _ _ _ _ _ _ _
      ((captured_congr l l1 h1cap a2 e2).trans hc2)]
    rw [mouseHandler_move env out0.heap l1 ⟨px, py + delta⟩ s pa pb
      (by rw [h1in]; exact hin2)
      (by
        unfold NoChildConsumes at hnc2 ⊢
        rw [h1items, hblur0]
        exact hnc2)
      h1drag (by rw [hitem0]; exact hpa) (by rw [hitem0]; exact hpb)]
    rw [if_neg h1nH, if_pos h1dir, hhp2, hl2, h1dy]
    simp only [add_sub_cancel_left]
  -- the heap after the move
  have h2other : ∀ j, j ≠ s.a → j ≠ s.b → hp2.item j = hp0.item j := by
    intro j e1 e2
    rw [hhp2, setSize_item_ne _ _ _ _ e2, setSize_item_ne _ _ _ _ e1, setRect_item,
      setRect_item, hitem0]
  have h2sa : (hp2.item s.a).Size = itemLen hp0 (l.autoSize hp0) s.a + delta := by
    rw [hhp2, setSize_item_ne _ _ _ _ hab, setSize_item_self, hra]
    simp [drawnRect, hnH]
  have h2sb : (hp2.item s.b).Size = itemLen hp0 (l.autoSize hp0) s.b - delta := by
    rw [hhp2, setSize_item_self, hrb]
    simp [drawnRect, hnH]
  have h2prim : ∀ j, (hp2.item j).Primitive = (hp0.item j).Primitive := by
    intro j
    rw [hhp2, setSize_prim, setSize_prim, setRect_item, setRect_item, hitem0]
  have h2ra : hp2.rect pa = ⟨(out0.heap.rect pa).x, (out0.heap.rect pa).y,
      (out0.heap.rect pa).width, (out0.heap.rect pa).height + delta⟩ := by
    rw [hhp2, setSize_rect, setSize_rect, setRect_rect_ne _ _ _ _ hne, setRect_rect_self]
  have h2rb : hp2.rect pb = ⟨(out0.heap.rect pb).x, (out0.heap.rect pb).y + delta,
      (out0.heap.rect pb).width, (out0.heap.rect pb).height - delta⟩ := by
    rw [hhp2, setSize_rect, setSize_rect, setRect_rect_self]
  have hblur2 : blurAll hp2 l.items = blurAll hp0 l.items :=
    blurAll_congr _ _ _ (fun j _ => h2prim j)
  -- the release
  have h2items : l2.items = l.items := by rw [hl2, hl1]
  have h2cap : l2.mouseCapture = l.mouseCapture := by rw [hl2, hl1]
  have h2in : ∀ x y, l2.InRect x y = l.InRect x y := by intro x y; rw [hl2, hl1]; rfl
  obtain ⟨l3, hl3⟩ : ∃ l3 : Layout, l3 =
      Layout.rebuildSplitters hp2 { l2 with draggedSplitter := none } := ⟨_, rfl⟩
  have hstep3 : l2.MouseHandler env hp2 a3 e3
      = some { heap := hp2, l := l3, consumed := true, capture := none,
               offered := blurAll hp2 l2.items, blurred := [] } := by
    rw [MouseHandler_of_captured _ _ _ _ _ _ _
      ((captured_congr l l2 h2cap a3 e3).trans hc3), hl3]
    apply mouseHandler_release env hp2 l2 ⟨rx, ry⟩ (by rw [h2in]; exact hin3)
    unfold NoChildConsumes at hnc3 ⊢
    rw [h2items, hblur2]
    exact hnc3
  have h3eq : l3 = { l with focusedSplitterNumber := (i : Int), draggedSplitter := none,
                            dragX := px, dragY := py + delta, splitters := l3.splitters } := by
    rw [hl3, rebuildSplitters_eq, hl2, hl1]
  have h3items : l3.items = l.items := by rw [h3eq]
  have h3dir : l3.direction = l.direction := by rw [h3eq]
  have h3w : l3.width = l.width := by rw [h3eq]
  have h3h : l3.height = l.height := by rw [h3eq]
  have h3x : l3.x = l.x := by rw [h3eq]
  have h3y : l3.y = l.y := by rw [h3eq]
  have h3drag : l3.draggedSplitter = none := by rw [h3eq]
  -- the item lengths and the offsets after the drag
  obtain ⟨hlena, hlenb, hleno⟩ :=
    itemLen_after_drag hp0 hp2 l i s.a s.b delta hnd ha hb h2other h2sa h2sb hza hzb hshare
  have hpre := prefixSum_shift (fun j => itemLen hp0 (l.autoSize hp0) j + 1)
    (fun j => itemLen hp2 (l.autoSize hp2) j + 1) l.items i s.a s.b delta hnd ha hb
    (by simp only [hlena]; ring) (by simp only [hlenb]; ring)
    (fun j hj e1 e2 => by simp only [hleno j hj e1 e2])
  have hlt : ∀ (k j : Nat), l.items[k]? = some j → k ≤ l.items.length := by
    intro k j hk
    by_contra hc
    rw [List.getElem?_eq_none (by omega)] at hk
    cases hk
  -- the rebuilt splitter
  have hspl : l3.splitters[i]? = some (s.shift l.direction delta) := by
    have hb3 := rebuildSplitters_getElem? hp2 { l2 with draggedSplitter := none }
      (by rw [hl2, hl1]; exact hd) i s.a s.b (by rw [hl2, hl1]; exact ha)
      (by rw [hl2, hl1]; exact hb)
    rw [← hl3] at hb3
    rw [hb3, builtSplitter_congr hp2 l _ i s.a s.b (by rw [hl2, hl1]) (by rw [hl2, hl1])
      (by rw [hl2, hl1]) (by rw [hl2, hl1]) (by rw [hl2, hl1]) (by rw [hl2, hl1])]
    congr 1
    rw [hse]
    simp only [builtSplitter, splitter.shift, if_neg hnH, hlena,
      hpre i (hlt i s.a ha)]
    simp
    ring
  -- the second Draw
  obtain ⟨out, hout, _, hrect⟩ := Draw_rect hp2 l3 (by rw [h3dir]; exact hd)
    (by
      intro j hj
      rw [h3items] at hj
      rw [h2prim]
      exact hreg j hj)
    (by rw [h3items, hblur2]; exact hnodup)
  have hrect2 : ∀ (k j : Nat) (p : Primitive), l.items[k]? = some j →
      (hp0.item j).Primitive = some p → out.heap.rect p = drawnRect hp2 l k j := by
    intro k j p hk hp1
    rw [hrect k j p (by rw [h3items]; exact hk) (by rw [h2prim]; exact hp1)]
    exact drawnRect_congr hp2 l l3 k j h3items h3dir h3w h3h h3x h3y
  refine ⟨_, _, _, out, hstep1, hstep2, hstep3, hout, h1drag, h3drag, hspl, ?_, ?_, ?_⟩
  · show out.heap.rect pa = hp2.rect pa
    rw [hrect2 i s.a pa ha hpa, h2ra, hra]
    simp only [drawnRect, if_neg hnH, hlena, hpre i (hlt i s.a ha)]
    simp
  · show out.heap.rect pb = hp2.rect pb
    rw [hrect2 (i + 1) s.b pb hb hpb, h2rb, hrb]
    simp only [drawnRect, if_neg hnH, hlenb, hpre (i + 1) (hlt (i + 1) s.b hb)]
    simp
    ring
  · intro p hp1 e1 e2
    obtain ⟨j, hj, hjp⟩ := List.mem_filterMap.mp hp1
    obtain ⟨k, hk⟩ := List.mem_iff_getElem?.mp hj
    have hja : j ≠ s.a := by
      intro h
      rw [h, hpa] at hjp
      exact e1 (Option.some.inj hjp).symm
    have hjb : j ≠ s.b := by
      intro h
      rw [h, hpb] at hjp
      exact e2 (Option.some.inj hjp).symm
    have hki : k ≠ i + 1 := by
      intro h
      rw [h, hb] at hk
      exact hjb (Option.some.inj hk).symm
    rw [hrect2 k j p hk hjp, hrect0 k j p hk hjp]
    simp only [drawnRect, if_neg hnH, hleno j hj hja hjb, hpre k (hlt k j hk), if_neg hki]
    simp

/-! ## C5 -/

/-- C5, amended.  A HorizontalLayout or VerticalLayout whose items hold
pairwise different regions is drawn, with its splitters current (as
rebuildSplitters leaves them).  A left press hits the splitter `i` first, a
move goes `delta` cells along the axis and a release follows, all three inside
the layout and consumed by no child.  If the two new lengths are not 0 and
either both adjacent items were fixed-size or no other item is auto-sized,
then: all five steps return, the rebuilt splitter `i` is the old one moved by
`delta`, the next Draw gives the two adjacent regions exactly the rectangles
the drag gave them and every other region the rectangle of the first Draw. -/
theorem drag_release_redraw (env : Env) (hp0 : Heap) (l : Layout)
    (i : Nat) (s : splitter) (pa pb : Primitive) (px py delta rx ry : Int)
    (a1 a2 a3 : MouseAction) (e1 e2 e3 : EventMouse)
    (hd : l.direction = HorizontalLayout ∨ l.direction = VerticalLayout)
    (hc1 : l.captured a1 e1 = (MouseAction.MouseLeftDown, some ⟨px, py⟩))
    (hc2 : l.captured a2 e2 = (MouseAction.MouseMove, some (movedTo l.direction px py delta)))
    (hc3 : l.captured a3 e3 = (MouseAction.MouseLeftUp, some ⟨rx, ry⟩))
    (hreg : AllRegions hp0 l) (hnodup : (blurAll hp0 l.items).Nodup)
    (hcur : l.splitters = (Layout.rebuildSplitters hp0 l).splitters)
    (hs : l.splitters[i]? = some s)
    (hpa : (hp0.item s.a).Primitive = some pa) (hpb : (hp0.item s.b).Primitive = some pb)
    (hhit : s.contain px py = true)
    (hfirst : ∀ t ∈ l.splitters.take i, t.contain px py = false)
    (hin1 : l.InRect px py = true)
    (hin2 : l.InRect (movedTo l.direction px py delta).x (movedTo l.direction px py delta).y
      = true)
    (hin3 : l.InRect rx ry = true)
    (hnc1 : NoChildConsumes env hp0 l MouseAction.MouseLeftDown ⟨px, py⟩)
    (hnc2 : NoChildConsumes env hp0 l MouseAction.MouseMove (movedTo l.direction px py delta))
    (hnc3 : NoChildConsumes env hp0 l MouseAction.MouseLeftUp ⟨rx, ry⟩)
    (hza : itemLen hp0 (l.autoSize hp0) s.a + delta ≠ 0)
    (hzb : itemLen hp0 (l.autoSize hp0) s.b - delta ≠ 0)
    (hshare : ((hp0.item s.a).Size ≠ AutoSize ∧ (hp0.item s.b).Size ≠ AutoSize) ∨
      (∀ j ∈ l.items, j ≠ s.a → j ≠ s.b → (hp0.item j).Size ≠ AutoSize)) :
    ∃ out0 r1 r2 r3 out,
      l.Draw hp0 = some out0 ∧
      l.MouseHandler env out0.heap a1 e1 = some r1 ∧
      r1.l.MouseHandler env r1.heap a2 e2 = some r2 ∧
      r2.l.MouseHandler env r2.heap a3 e3 = some r3 ∧
      r3.l.Draw r3.heap = some out ∧
      r1.l.draggedSplitter = some s ∧
      r3.l.draggedSplitter = none ∧
      r3.l.splitters[i]? = some (s.shift l.direction delta) ∧
      out.heap.rect pa = r2.heap.rect pa ∧ out.heap.rect pb = r2.heap.rect pb ∧
      (∀ p ∈ blurAll hp0 l.items, p ≠ pa → p ≠ pb → out.heap.rect p = out0.heap.rect p) := by
  obtain ⟨out0, hdraw, _, _⟩ := Draw_rect hp0 l hd hreg hnodup
  refine ⟨out0, ?_⟩
  rcases hd with hH | hV
  · have hm : movedTo l.direction px py delta = ⟨px + delta, py⟩ := by simp [movedTo, hH]
    rw [hm] at hc2 hin2 hnc2
    obtain ⟨r1, r2, r3, out, h⟩ := scenario_horizontal env hp0 l out0 i s pa pb px py delta
      rx ry a1 a2 a3 e1 e2 e3 hH hc1 hc2 hc3 hreg hnodup hdraw hcur hs hpa hpb hhit hfirst
      hin1 hin2 hin3 hnc1 hnc2 hnc3 hza hzb hshare
    exact ⟨r1, r2, r3, out, hdraw, h⟩
  · have hnH : ¬ l.direction = HorizontalLayout := by rw [hV]; decide
    have hm : movedTo l.direction px py delta = ⟨px, py + delta⟩ := by simp [movedTo, hnH]
    rw [hm] at hc2 hin2 hnc2
    obtain ⟨r1, r2, r3, out, h⟩ := scenario_vertical env hp0 l out0 i s pa pb px py delta
      rx ry a1 a2 a3 e1 e2 e3 hV hc1 hc2 hc3 hreg hnodup hdraw hcur hs hpa hpb hhit hfirst
      hin1 hin2 hin3 hnc1 hnc2 hnc3 hza hzb hshare
    exact ⟨r1, r2, r3, out, hdraw, h⟩

/-- C5, witness: `exTwo` (two auto items of width 19, splitter at column 19),
pressed at `(19, 0)`, moved 3 cells to `(22, 0)` and released there. -/
theorem drag_release_redraw_witness :
    ∃ out0 r1 r2 r3 out,
      exTwo.2.Draw exTwo.1 = some out0 ∧
      exTwo.2.MouseHandler envIdle out0.heap MouseAction.MouseLeftDown ⟨19, 0⟩ = some r1 ∧
      r1.l.MouseHandler envIdle r1.heap MouseAction.MouseMove ⟨22, 0⟩ = some r2 ∧
      r2.l.MouseHandler envIdle r2.heap MouseAction.MouseLeftUp ⟨22, 0⟩ = some r3 ∧
      r3.l.Draw r3.heap = some out ∧
      r1.l.draggedSplitter = some ⟨(19, 19), (0, 9), 0, 1⟩ ∧
      r3.l.draggedSplitter = none ∧
      r3.l.splitters[0]?
        = some (splitter.shift ⟨(19, 19), (0, 9), 0, 1⟩ exTwo.2.direction 3) ∧
      out.heap.rect (Primitive.region 0) = r2.heap.rect (Primitive.region 0) ∧
      out.heap.rect (Primitive.region 1) = r2.heap.rect (Primitive.region 1) ∧
      (∀ p ∈ blurAll exTwo.1 exTwo.2.items, p ≠ Primitive.region 0 → p ≠ Primitive.region 1 →
        out.heap.rect p = out0.heap.rect p) :=
  drag_release_redraw envIdle exTwo.1 exTwo.2 0 ⟨(19, 19), (0, 9), 0, 1⟩ (Primitive.region 0)
    (Primitive.region 1) 19 0 3 22 0 MouseAction.MouseLeftDown MouseAction.MouseMove
    MouseAction.MouseLeftUp ⟨19, 0⟩ ⟨22, 0⟩ ⟨22, 0⟩
    (by decide) (by decide) (by decide) (by decide) (by decide) (by decide) (by decide)
    (by decide) (by decide) (by decide) (by decide) (by decide) (by decide) (by decide)
    (by decide) (by decide) (by decide) (by decide) (by decide) (by decide) (by decide)

/-- C5, counterexample.  `exThree` holds three auto-sized items, 12 wide at
columns 0, 13 and 26 in a width of 40 (2 cells are left over).  The first
splitter is pressed at `(12, 0)`, moved to `(13, 0)` and released.  The two
adjacent items become fixed-size, the third item is the only auto-sized one
left, and the next Draw gives it `(26, 0, 14, 10)`: not the rectangle
`(26, 0, 12, 10)` it had before the drag.  In `exTwo` the splitter at column
19 is dragged to `(0, 0)`: the drag gives the first item `(0, 0, 0, 10)` and
the second `(1, 0, 38, 10)`, the first item is auto-sized again, and the next
Draw gives them `(0, 0, 1, 10)` and `(2, 0, 38, 10)`. -/
theorem redraw_after_drag_differs :
    (dragScenario envIdle exThree.1 exThree.2 ⟨12, 0⟩ ⟨13, 0⟩ ⟨13, 0⟩).map
        (fun t => (t.1.heap.rect (Primitive.region 2), t.2.1.consumed,
                   t.2.2.heap.rect (Primitive.region 2)))
      = some (⟨26, 0, 12, 10⟩, true, ⟨26, 0, 14, 10⟩) ∧
    (dragScenario envIdle exTwo.1 exTwo.2 ⟨19, 0⟩ ⟨0, 0⟩ ⟨0, 0⟩).map
        (fun t => (t.2.1.heap.rect (Primitive.region 0), t.2.2.heap.rect (Primitive.region 0),
                   t.2.1.heap.rect (Primitive.region 1), t.2.2.heap.rect (Primitive.region 1)))
      = some (⟨0, 0, 0, 10⟩, ⟨0, 0, 1, 10⟩, ⟨1, 0, 38, 10⟩, ⟨2, 0, 38, 10⟩) := by
  constructor <;> decide

/-! ## C11 -/

theorem removeAt_getElem?_lt {α : Type} (xs : List α) (n k : Nat) (h : k < n) (hn : n < xs.length) :
    (xs.take n ++ xs.drop (n + 1))[k]? = xs[k]? := by
  rw [List.getElem?_append_left (by simp; omega), List.getElem?_take_of_lt h]

theorem removeAt_getElem?_ge {α : Type} (xs : List α) (n k : Nat) (h : n ≤ k) (hn : n < xs.length) :
    (xs.take n ++ xs.drop (n + 1))[k]? = xs[k + 1]? := by
  have hl : (xs.take n).length = n := by simp; omega
  rw [List.getElem?_append_right (by omega), hl, List.getElem?_drop]
  congr 1
  omega

theorem renumber_symbol (xs : List Button) :
    ∀ a b : Int, (renumber xs a b).map (fun x => (x.Symbol, x.Alignment))
      = xs.map (fun x => (x.Symbol, x.Alignment)) := by
  induction xs with
  | nil => intro a b; rfl
  | cons x rest ih =>
    intro a b
    by_cases h : x.Alignment = ButtonAlignRight
    · simp only [renumber, h, if_true, List.map_cons, ih]
    · simp only [renumber, h, if_false, List.map_cons, ih]

/-- C11.  For every Window whose buttons are left- or right-aligned and every
valid index `i`: RemoveButton(i) leaves one button less, the buttons before
`i` and the buttons after `i` as they were, offsetX included, in their order,
and nothing else of the window changes; the next AddButton appends its button
and numbers the left-aligned buttons `2, 5, 8, ...` and the right-aligned ones
`-3, -6, -9, ...` in list order. -/
theorem remove_button_keeps_offsets (w : Window) (i : Int) (symbol : Nat)
    (alignment : ButtonAlignment) (onclick : Option Nat)
    (hi : 0 ≤ i ∧ i < w.CountButtons)
    (hal : ∀ b ∈ w.buttons, b.Alignment = ButtonAlignLeft ∨ b.Alignment = ButtonAlignRight)
    (hnew : alignment = ButtonAlignLeft ∨ alignment = ButtonAlignRight) :
    (w.RemoveButton i).CountButtons = w.CountButtons - 1 ∧
    (∀ k : Nat, (k : Int) < i → (w.RemoveButton i).buttons[k]? = w.buttons[k]?) ∧
    (∀ k : Nat, i ≤ (k : Int) → (w.RemoveButton i).buttons[k]? = w.buttons[k + 1]?) ∧
    w.RemoveButton i = { w with buttons := (w.RemoveButton i).buttons } ∧
    (((w.RemoveButton i).AddButton symbol alignment onclick).buttons.map
        (fun b => (b.Symbol, b.Alignment))
      = (w.RemoveButton i).buttons.map (fun b => (b.Symbol, b.Alignment))
          ++ [(symbol, alignment)]) ∧
    (∀ (j : Nat) (v : Int),
      (offsetsOf ((w.RemoveButton i).AddButton symbol alignment onclick) ButtonAlignLeft)[j]?
        = some v → v = 2 + 3 * (j : Int)) ∧
    (∀ (j : Nat) (v : Int),
      (offsetsOf ((w.RemoveButton i).AddButton symbol alignment onclick) ButtonAlignRight)[j]?
        = some v → v = -3 - 3 * (j : Int)) := by
  obtain ⟨h0, h1⟩ := hi
  unfold Window.CountButtons at h1
  have hv : ¬ (i < 0 ∨ i ≥ (w.buttons.length : Int)) := by omega
  have hrem : (w.RemoveButton i).buttons
      = w.buttons.take i.toNat ++ w.buttons.drop (i.toNat + 1) := by
    unfold Window.RemoveButton
    rw [if_neg hv]
  have hn : i.toNat < w.buttons.length := by omega
  have hsub : ∀ b ∈ (w.RemoveButton i).buttons,
      b.Alignment = ButtonAlignLeft ∨ b.Alignment = ButtonAlignRight := by
    intro b hb
    rw [hrem] at hb
    rcases List.mem_append.mp hb with h | h
    · exact hal b (List.mem_of_mem_take h)
    · exact hal b (List.mem_of_mem_drop h)
  refine ⟨?_, ?_, ?_, ?_, ?_, ?_, ?_⟩
  · unfold Window.CountButtons
    rw [hrem]
    simp
    omega
  · intro k hk
    rw [hrem]
    exact removeAt_getElem?_lt _ _ _ (by omega) hn
  · intro k hk
    rw [hrem]
    exact removeAt_getElem?_ge _ _ _ (by omega) hn
  · unfold Window.RemoveButton
    rw [if_neg hv]
  · simp only [Window.AddButton]
    rw [renumber_symbol]
    simp
  · intro j v h
    unfold offsetsOf at h
    have hfilter : ((w.RemoveButton i).AddButton symbol alignment onclick).buttons.filter
          (fun b => decide (b.Alignment = ButtonAlignLeft))
        = ((w.RemoveButton i).AddButton symbol alignment onclick).buttons.filter
          (fun b => !decide (b.Alignment = ButtonAlignRight)) := by
      apply List.filter_congr
      intro b hb
      have hmem : b.Alignment ∈ ((w.RemoveButton i).AddButton symbol alignment onclick).buttons.map
          (fun x => x.Alignment) := List.mem_map_of_mem _ hb
      simp only [Window.AddButton] at hmem
      rw [renumber_alignment, List.map_append, List.mem_append] at hmem
      have hb2 : b.Alignment = ButtonAlignLeft ∨ b.Alignment = ButtonAlignRight := by
        rcases hmem with h | h
        · obtain ⟨c, hc, hce⟩ := List.mem_map.mp h
          rw [← hce]
          exact hsub c hc
        · simp at h
          rw [h]
          exact hnew
      rcases hb2 with h1 | h1
      · rw [h1]; decide
      · rw [h1]; decide
    rw [hfilter] at h
    simp only [Window.AddButton] at h
    exact renumber_not_right _ _ _ j v h
  · intro j v h
    unfold offsetsOf at h
    simp only [Window.AddButton] at h
    exact renumber_right _ _ _ j v h

/-- C11, witness: the window with B1 (left), B2 (right), B3 (left); B2 is
removed and a right-aligned button is added. -/
theorem remove_button_keeps_offsets_witness :
    ((addButtons Window.New exCalls).RemoveButton 1).CountButtons
      = (addButtons Window.New exCalls).CountButtons - 1 ∧
    (∀ k : Nat, (k : Int) < 1 →
      ((addButtons Window.New exCalls).RemoveButton 1).buttons[k]?
        = (addButtons Window.New exCalls).buttons[k]?) ∧
    (∀ k : Nat, 1 ≤ (k : Int) →
      ((addButtons Window.New exCalls).RemoveButton 1).buttons[k]?
        = (addButtons Window.New exCalls).buttons[k + 1]?) ∧
    (addButtons Window.New exCalls).RemoveButton 1
      = { addButtons Window.New exCalls with
          buttons := ((addButtons Window.New exCalls).RemoveButton 1).buttons } ∧
    ((((addButtons Window.New exCalls).RemoveButton 1).AddButton 4 ButtonAlignRight none).buttons.map
        (fun b => (b.Symbol, b.Alignment))
      = ((addButtons Window.New exCalls).RemoveButton 1).buttons.map
          (fun b => (b.Symbol, b.Alignment)) ++ [(4, ButtonAlignRight)]) ∧
    (∀ (j : Nat) (v : Int),
      (offsetsOf (((addButtons Window.New exCalls).RemoveButton 1).AddButton 4 ButtonAlignRight
        none) ButtonAlignLeft)[j]? = some v → v = 2 + 3 * (j : Int)) ∧
    (∀ (j : Nat) (v : Int),
      (offsetsOf (((addButtons Window.New exCalls).RemoveButton 1).AddButton 4 ButtonAlignRight
        none) ButtonAlignRight)[j]? = some v → v = -3 - 3 * (j : Int)) :=
  remove_button_keeps_offsets (addButtons Window.New exCalls) 1 4 ButtonAlignRight none
    (by decide) (by decide) (by decide)

/-! ## C13 -/

/-- C13.  For every index `i` with `i < 0` or `i >= CountItems()` and every
index `j` with `j < 0` or `j >= CountButtons()`: GetItem(i) and GetButton(j)
return the absent result, RemoveItem(i) returns the layout as it was (items,
splitters, dragged splitter and every other field) and RemoveButton(j) returns
the window as it was (buttons and their offsets included).  All four are
total functions: there is no fault to return. -/
theorem invalid_index_is_noop (hp : Heap) (l : Layout) (w : Window) (i j : Int)
    (hi : i < 0 ∨ i ≥ l.CountItems) (hj : j < 0 ∨ j ≥ w.CountButtons) :
    l.GetItem i = none ∧ Layout.RemoveItem hp l i = l ∧
    w.GetButton j = none ∧ w.RemoveButton j = w := by
  unfold Layout.CountItems at hi
  unfold Window.CountButtons at hj
  refine ⟨?_, ?_, ?_, ?_⟩
  · unfold Layout.GetItem; rw [if_pos hi]
  · unfold Layout.RemoveItem; rw [if_pos hi]
  · unfold Window.GetButton; rw [if_pos hj]
  · unfold Window.RemoveButton; rw [if_pos hj]

/-- C13, witness: index 2 on the two-item layout `exTwo` and index -1 on the
window with three buttons. -/
theorem invalid_index_is_noop_witness :
    exTwo.2.GetItem 2 = none ∧ Layout.RemoveItem exTwo.1 exTwo.2 2 = exTwo.2 ∧
    (addButtons Window.New exCalls).GetButton (-1) = none ∧
    (addButtons Window.New exCalls).RemoveButton (-1) = addButtons Window.New exCalls :=
  invalid_index_is_noop exTwo.1 exTwo.2 (addButtons Window.New exCalls) 2 (-1)
    (by decide) (by decide)

/-! ## C12 -/

theorem findButton_none (wx width x : Int) (bs : List Button) :
    ∀ n, (∀ b ∈ bs, b.hit wx width x = false) → findButton wx width x bs n = none := by
  induction bs with
  | nil => intro n _; rfl
  | cons b rest ih =>
    intro n h
    rw [findButton]
    simp only [h b (List.mem_cons_self _ _), Bool.false_eq_true, if_false]
    exact ih _ (fun c hc => h c (List.mem_cons_of_mem _ hc))

theorem findButton_some (wx width x : Int) (bs : List Button) :
    ∀ n, (∃ b ∈ bs, b.hit wx width x = true) →
      ∃ (i : Nat) (b : Button), bs[i]? = some b ∧ b.hit wx width x = true ∧
        (∀ t ∈ bs.take i, t.hit wx width x = false) ∧
        findButton wx width x bs n = some (n + i, b) := by
  induction bs with
  | nil => intro n h; obtain ⟨b, hb, _⟩ := h; cases hb
  | cons c rest ih =>
    intro n h
    by_cases hc : c.hit wx width x = true
    · refine ⟨0, c, by simp, hc, ?_, ?_⟩
      · intro t ht; simp at ht
      · rw [findButton]; simp [hc]
    · have hcf : c.hit wx width x = false := by simpa using hc
      obtain ⟨b, hb, hbh⟩ := h
      have hb2 : b ∈ rest := by
        rcases List.mem_cons.mp hb with e | e
        · rw [e] at hbh; rw [hbh] at hcf; cases hcf
        · exact e
      obtain ⟨i, b2, h1, h2, h3, h4⟩ := ih (n + 1) ⟨b, hb2, hbh⟩
      refine ⟨i + 1, b2, by simpa using h1, h2, ?_, ?_⟩
      · intro t ht
        simp only [List.take_succ_cons, List.mem_cons] at ht
        rcases ht with e | e
        · rw [e]; exact hcf
        · exact h3 t e
      · rw [findButton]
        simp only [hcf, Bool.false_eq_true, if_false, h4]
        congr 2
        omega

/-- C12, amended.  For every Window and every left click at `(x, y)` inside
its rectangle.  If the window is bordered, `y` is the title row and some
button is hit (`offsetX >= 0` and `x = wx + offsetX`, or `offsetX < 0` and
`x = wx + width + offsetX`), then the first such button in list order is
clicked: its callback runs if it has one, and the event is consumed without
being passed on.  Otherwise no button is clicked, no callback runs, and the
event is passed to the mouse handler of the content region, or to the one of
the Box when the window has no content region; the handler returns what that
handler returns. -/
theorem click_dispatch (env : Env) (box : MouseAction → EventMouse → Bool × Option Primitive)
    (w : Window) (x y : Int) (hin : w.InRect x y = true) :
    (ButtonHit w x y →
      ∃ (n : Nat) (b : Button), w.buttons[n]? = some b ∧ b.hit w.x w.width x = true ∧
        (∀ t ∈ w.buttons.take n, t.hit w.x w.width x = false) ∧
        w.mouseHandler env box MouseAction.MouseLeftClick ⟨x, y⟩
          = { consumed := true, capture := none, clicked := some n, callback := b.OnClick,
              forwarded := none }) ∧
    (¬ ButtonHit w x y →
      (∀ p, w.root = some p →
        w.mouseHandler env box MouseAction.MouseLeftClick ⟨x, y⟩
          = { consumed := (env.mouse p MouseAction.MouseLeftClick ⟨x, y⟩).1,
              capture := (env.mouse p MouseAction.MouseLeftClick ⟨x, y⟩).2,
              clicked := none, callback := none, forwarded := some (Receiver.root p) }) ∧
      (w.root = none →
        w.mouseHandler env box MouseAction.MouseLeftClick ⟨x, y⟩
          = { consumed := (box MouseAction.MouseLeftClick ⟨x, y⟩).1,
              capture := (box MouseAction.MouseLeftClick ⟨x, y⟩).2,
              clicked := none, callback := none, forwarded := some Receiver.box })) := by
  constructor
  · rintro ⟨hb, hy, hex⟩
    subst hy
    obtain ⟨n, b, h1, h2, h3, h4⟩ := findButton_some w.x w.width x w.buttons 0 hex
    refine ⟨n, b, h1, h2, h3, ?_⟩
    unfold Window.mouseHandler
    simp only [hin, hb, h4, Bool.not_true, Bool.false_eq_true, if_false, if_true, and_self,
      Nat.zero_add]
  · intro hno
    have hfound : (if y = w.y ∧ w.border = true then findButton w.x w.width x w.buttons 0
        else none) = none := by
      by_cases hc : y = w.y ∧ w.border = true
      · rw [if_pos hc]
        apply findButton_none
        intro b hb
        by_contra hh
        exact hno ⟨hc.2, hc.1, b, hb, by simpa using hh⟩
      · rw [if_neg hc]
    constructor
    · intro p hp
      unfold Window.mouseHandler
      simp only [hin, Bool.not_true, Bool.false_eq_true, if_false, if_true]
      rw [hfound]
      simp only [hp]
    · intro hp
      unfold Window.mouseHandler
      simp only [hin, Bool.not_true, Bool.false_eq_true, if_false, if_true]
      rw [hfound]
      simp only [hp]

/-- C12, witness: a click on B3 of the window `exBare`, at `(5, 0)`. -/
theorem click_dispatch_witness :
    (ButtonHit exBare 5 0 →
      ∃ (n : Nat) (b : Button), exBare.buttons[n]? = some b ∧
        b.hit exBare.x exBare.width 5 = true ∧
        (∀ t ∈ exBare.buttons.take n, t.hit exBare.x exBare.width 5 = false) ∧
        exBare.mouseHandler envIdle boxIdle MouseAction.MouseLeftClick ⟨5, 0⟩
          = { consumed := true, capture := none, clicked := some n, callback := b.OnClick,
              forwarded := none }) ∧
    (¬ ButtonHit exBare 5 0 →
      (∀ p, exBare.root = some p →
        exBare.mouseHandler envIdle boxIdle MouseAction.MouseLeftClick ⟨5, 0⟩
          = { consumed := (envIdle.mouse p MouseAction.MouseLeftClick ⟨5, 0⟩).1,
              capture := (envIdle.mouse p MouseAction.MouseLeftClick ⟨5, 0⟩).2,
              clicked := none, callback := none, forwarded := some (Receiver.root p) }) ∧
      (exBare.root = none →
        exBare.mouseHandler envIdle boxIdle MouseAction.MouseLeftClick ⟨5, 0⟩
          = { consumed := (boxIdle MouseAction.MouseLeftClick ⟨5, 0⟩).1,
              capture := (boxIdle MouseAction.MouseLeftClick ⟨5, 0⟩).2,
              clicked := none, callback := none, forwarded := some Receiver.box })) :=
  click_dispatch envIdle boxIdle exBare 5 0 (by decide)

/-- C12, counterexample.  The bordered window `exSilent` has one button, at
offsetX 2, added without a callback.  A left click at `(2, 0)` hits it: the
event is consumed and no callback runs.  The window `exBare` has no content
region: a left click at `(9, 3)` hits no button and goes to the handler of the
Box. -/
theorem click_runs_callback_fails :
    ¬ ClickRunsCallback envIdle boxIdle exSilent 2 0 ∧
    exSilent.mouseHandler envIdle boxIdle MouseAction.MouseLeftClick ⟨2, 0⟩
      = { consumed := true, capture := none, clicked := some 0, callback := none,
          forwarded := none } ∧
    ¬ ClickRunsCallback envIdle boxIdle exBare 9 3 ∧
    exBare.mouseHandler envIdle boxIdle MouseAction.MouseLeftClick ⟨9, 3⟩
      = { consumed := false, capture := none, clicked := none, callback := none,
          forwarded := some Receiver.box } := by
  refine ⟨?_, by decide, ?_, by decide⟩
  · intro h
    have hhit : ButtonHit exSilent 2 0 := by decide
    have hcb := h.1.mpr hhit
    revert hcb
    decide
  · intro h
    have hno : ¬ ButtonHit exBare 9 3 := by decide
    obtain ⟨p, hp⟩ := h.2 hno
    have hf : (exBare.mouseHandler envIdle boxIdle MouseAction.MouseLeftClick ⟨9, 3⟩).forwarded
        = some Receiver.box := by decide
    rw [hf] at hp
    cases hp

/-! ## C14 -/

/-- C14.  For every HorizontalLayout or VerticalLayout whose items all hold a
region and every `i < CountItems() - 1`: Draw returns; the splitter at index
`i` after rebuildSplitters references the items `i` and `i + 1` and spans the
layout across the axis (`y .. y+height-1` when horizontal, `x .. x+width-1`
when vertical); its fixed coordinate is the start of the rectangle Draw hands
to item `i` plus the length of that rectangle, one cell before the start of
the rectangle of item `i + 1`. -/
theorem splitter_matches_draw (hp : Heap) (l : Layout) (i : Nat)
    (hd : l.direction = HorizontalLayout ∨ l.direction = VerticalLayout)
    (hreg : AllRegions hp l) (hi : (i : Int) < l.CountItems - 1) :
    ∃ (out : DrawResult) (a b : Nat) (pa pb : Primitive) (ra rb : Rect) (s : splitter),
      l.Draw hp = some out ∧ l.items[i]? = some a ∧ l.items[i + 1]? = some b ∧
      out.calls[i]? = some (pa, ra) ∧ out.calls[i + 1]? = some (pb, rb) ∧
      (Layout.rebuildSplitters hp l).splitters[i]? = some s ∧ s.a = a ∧ s.b = b ∧
      (l.direction = HorizontalLayout →
        s.x = (ra.x + ra.width, ra.x + ra.width) ∧ s.y = (l.y, l.y + l.height - 1) ∧
        ra.x + ra.width + 1 = rb.x) ∧
      (l.direction = VerticalLayout →
        s.y = (ra.y + ra.height, ra.y + ra.height) ∧ s.x = (l.x, l.x + l.width - 1) ∧
        ra.y + ra.height + 1 = rb.y) := by
  unfold Layout.CountItems at hi
  have hi1 : i + 1 < l.items.length := by omega
  have ha : l.items[i]? = some l.items[i] := List.getElem?_eq_getElem (by omega)
  have hb : l.items[i + 1]? = some l.items[i + 1] := List.getElem?_eq_getElem hi1
  obtain ⟨pa, hpa⟩ := Option.ne_none_iff_exists'.mp (hreg _ (List.getElem_mem (by omega : i < l.items.length)))
  obtain ⟨pb, hpb⟩ := Option.ne_none_iff_exists'.mp (hreg _ (List.getElem_mem hi1))
  obtain ⟨out, hout, _, _, hcalls⟩ := Draw_calls hp l hd hreg
  have hs := rebuildSplitters_getElem? hp l hd i _ _ ha hb
  have hsucc := prefixSum_succ (fun j => itemLen hp (l.autoSize hp) j + 1) l.items i _ ha
  have hVH : VerticalLayout ≠ HorizontalLayout := by decide
  refine ⟨out, _, _, pa, pb, _, _, _, hout, ha, hb, hcalls i _ pa ha hpa,
    hcalls (i + 1) _ pb hb hpb, hs, ?_, ?_, ?_, ?_⟩
  · unfold builtSplitter; split <;> rfl
  · unfold builtSplitter; split <;> rfl
  · intro hH
    simp only [builtSplitter, drawnRect, if_pos hH, hsucc]
    refine ⟨trivial, trivial, ?_⟩
    ring
  · intro hV
    have hnH : ¬ l.direction = HorizontalLayout := by rw [hV]; exact hVH
    simp only [builtSplitter, drawnRect, if_neg hnH, hsucc]
    refine ⟨trivial, trivial, ?_⟩
    ring

/-- C14, witness: the first splitter of `exThree` (items 12 wide at columns 0,
13 and 26). -/
theorem splitter_matches_draw_witness :
    ∃ (out : DrawResult) (a b : Nat) (pa pb : Primitive) (ra rb : Rect) (s : splitter),
      exThree.2.Draw exThree.1 = some out ∧ exThree.2.items[0]? = some a ∧
      exThree.2.items[0 + 1]? = some b ∧
      out.calls[0]? = some (pa, ra) ∧ out.calls[0 + 1]? = some (pb, rb) ∧
      (Layout.rebuildSplitters exThree.1 exThree.2).splitters[0]? = some s ∧ s.a = a ∧ s.b = b ∧
      (exThree.2.direction = HorizontalLayout →
        s.x = (ra.x + ra.width, ra.x + ra.width) ∧
        s.y = (exThree.2.y, exThree.2.y + exThree.2.height - 1) ∧
        ra.x + ra.width + 1 = rb.x) ∧
      (exThree.2.direction = VerticalLayout →
        s.y = (ra.y + ra.height, ra.y + ra.height) ∧
        s.x = (exThree.2.x, exThree.2.x + exThree.2.width - 1) ∧
        ra.y + ra.height + 1 = rb.y) :=
  splitter_matches_draw exThree.1 exThree.2 0 (by decide) (by decide) (by decide)

/-! ## C15 -/

/-- C15, the code at the failing input.  Focus, Draw, the mouse handler and
the input handler touch the visible root only between Lock and Unlock;
HasFocus reads it, and Maximize and Restore write it, without taking the
guard (as do IsMaximazed and SetRoot, which the sentence does not list). -/
theorem guard_not_held_by_writers :
    guardedFrom false Manager.FocusSteps = true ∧
    guardedFrom false Manager.DrawSteps = true ∧
    (∀ inside, guardedFrom false (Manager.MouseHandlerSteps inside) = true) ∧
    guardedFrom false Manager.InputHandlerSteps = true ∧
    guardedFrom false Manager.HasFocusSteps = false ∧
    guardedFrom false Manager.MaximizeSteps = false ∧
    guardedFrom false Manager.RestoreSteps = false ∧
    guardedFrom false Manager.IsMaximazedSteps = false ∧
    guardedFrom false Manager.SetRootSteps = false := by
  refine ⟨by decide, by decide, ?_, by decide, by decide, by decide, by decide, by decide,
    by decide⟩
  intro inside
  cases inside <;> decide

/-! ## C16 -/

theorem blurAll_length (hp : Heap) (items : List Nat)
    (hreg : ∀ i ∈ items, (hp.item i).Primitive ≠ none) :
    (blurAll hp items).length = items.length := by
  have := congrArg List.length (map_prim_eq hp items hreg)
  simpa using this.symm

/-- Draw returns on a layout whose items all hold a region; the list of the
rectangles it hands out is determined index by index. -/
theorem Draw_calls_all (hp : Heap) (l : Layout)
    (hd : l.direction = HorizontalLayout ∨ l.direction = VerticalLayout)
    (hreg : AllRegions hp l) :
    ∃ out, l.Draw hp = some out ∧ out.heap = applyCalls hp out.calls ∧
      out.calls.length = l.items.length ∧
      ∀ k, out.calls[k]? = (l.items[k]?).bind (fun j =>
        ((hp.item j).Primitive).map (fun p => (p, drawnRect hp l k j))) := by
  obtain ⟨out, h1, h2, h3, h4⟩ := Draw_calls hp l hd hreg
  have hlen : out.calls.length = l.items.length := by
    have := congrArg List.length h3
    rw [List.length_map, blurAll_length hp l.items hreg] at this
    exact this
  refine ⟨out, h1, h2, hlen, ?_⟩
  intro k
  cases hk : l.items[k]? with
  | none =>
    have : l.items.length ≤ k := by
      by_contra hc
      rw [List.getElem?_eq_getElem (by omega)] at hk
      cases hk
    rw [List.getElem?_eq_none (by omega)]
    rfl
  | some j =>
    obtain ⟨p, hp1⟩ := Option.ne_none_iff_exists'.mp (hreg j (List.getElem?_mem hk))
    rw [h4 k j p hk hp1]
    simp [hp1]

set_option maxRecDepth 100000 in
/-- C16.  For every HorizontalLayout or VerticalLayout whose items all hold a
region, Draw returns and hands out one rectangle per item: an auto-sized item
gets the axis length `(space - size - seps) / auto` (Go division; 0 when no
item is auto-sized), a fixed item its Size, with `seps = max(0, itemCount-1)`.
The rectangles are the same whatever the splitter flag is.  A horizontal
layout of width 40 with two auto items gets two rectangles of width 19, one
separator column between them at 19, 39 columns in all: Draw writes the 400
blanks of the background, which NewLayout takes from the theme, and then the
10 cells of the separator, one of them in row 0. -/
theorem draw_lengths_ignore_flag (hp : Heap) (l : Layout)
    (hd : l.direction = HorizontalLayout ∨ l.direction = VerticalLayout)
    (hreg : AllRegions hp l) :
    ∃ out, l.Draw hp = some out ∧ out.calls.length = l.items.length ∧
      (∀ (k j : Nat) (p : Primitive) (r : Rect),
        l.items[k]? = some j → out.calls[k]? = some (p, r) →
          ((hp.item j).Size = AutoSize →
            axisLen l.direction r
              = if autoCount hp l = 0 then 0
                else Int.tdiv (axisLen l.direction l.GetRect - fixedSum hp l
                  - max 0 (l.CountItems - 1)) (autoCount hp l)) ∧
          ((hp.item j).Size ≠ AutoSize → axisLen l.direction r = (hp.item j).Size)) ∧
      (∀ flag : Bool, ∃ out2, (l.SetSplitter flag).Draw hp = some out2 ∧
        out2.calls = out.calls ∧ out2.heap = out.heap) ∧
      ((exTwo.2.SetSplitter true).Draw exTwo.1).map
          (fun o => (o.calls, o.screen.filter (fun c => decide (c.y = 0)),
            o.screen.filter (fun c => decide (c.glyph ≠ Glyph.Blank)), o.screen.length,
            consumed exTwo.2 o))
        = some ([(Primitive.region 0, ⟨0, 0, 19, 10⟩), (Primitive.region 1, ⟨20, 0, 19, 10⟩)],
                (List.range 40).map (fun k => Cell.mk (k : Int) 0 Glyph.Blank)
                  ++ [⟨19, 0, Glyph.Vertical⟩],
                (List.range 10).map (fun k => Cell.mk 19 (k : Int) Glyph.Vertical), 410, 39) := by
  obtain ⟨out, h1, h2, h3, h4⟩ := Draw_calls_all hp l hd hreg
  refine ⟨out, h1, h3, ?_, ?_, by decide⟩
  · intro k j p r hk hc
    rw [h4 k, hk] at hc
    simp only [Option.some_bind] at hc
    cases hpj : (hp.item j).Primitive with
    | none => simp [hpj] at hc
    | some p2 =>
      simp only [hpj, Option.map_some', Option.some.injEq, Prod.mk.injEq] at hc
      have hr : axisLen l.direction r = itemLen hp (l.autoSize hp) j := by
        rw [← hc.2]
        unfold drawnRect axisLen
        split <;> rfl
      rw [hr]
      constructor
      · intro hauto
        unfold itemLen
        rw [if_pos hauto, autoSize_eq hp l hd]
        by_cases h0 : autoCount hp l = 0
        · simp [h0]
        · simp only [h0, ne_eq, not_false_eq_true, if_true, if_false]
          rfl
      · intro hfix
        unfold itemLen
        rw [if_neg hfix]
  · intro flag
    obtain ⟨out2, g1, g2, g3, g4⟩ := Draw_calls_all hp (l.SetSplitter flag) hd hreg
    have hcalls : out2.calls = out.calls := by
      apply List.ext_getElem?
      intro k
      rw [g4 k, h4 k]
      show (l.items[k]?).bind _ = (l.items[k]?).bind _
      congr 1
    exact ⟨out2, g1, hcalls, by rw [g2, h2, hcalls]⟩

/-- C16, witness: the theorem at `exTwo`, the layout of width 40 with two auto
items. -/
theorem draw_lengths_ignore_flag_witness :
    ∃ out, exTwo.2.Draw exTwo.1 = some out ∧ out.calls.length = exTwo.2.items.length ∧
      (∀ (k j : Nat) (p : Primitive) (r : Rect),
        exTwo.2.items[k]? = some j → out.calls[k]? = some (p, r) →
          ((exTwo.1.item j).Size = AutoSize →
            axisLen exTwo.2.direction r
              = if autoCount exTwo.1 exTwo.2 = 0 then 0
                else Int.tdiv (axisLen exTwo.2.direction exTwo.2.GetRect - fixedSum exTwo.1 exTwo.2
                  - max 0 (exTwo.2.CountItems - 1)) (autoCount exTwo.1 exTwo.2)) ∧
          ((exTwo.1.item j).Size ≠ AutoSize → axisLen exTwo.2.direction r = (exTwo.1.item j).Size)) ∧
      (∀ flag : Bool, ∃ out2, (exTwo.2.SetSplitter flag).Draw exTwo.1 = some out2 ∧
        out2.calls = out.calls ∧ out2.heap = out.heap) ∧
      ((exTwo.2.SetSplitter true).Draw exTwo.1).map
          (fun o => (o.calls, o.screen.filter (fun c => decide (c.y = 0)),
            o.screen.filter (fun c => decide (c.glyph ≠ Glyph.Blank)), o.screen.length,
            consumed exTwo.2 o))
        = some ([(Primitive.region 0, ⟨0, 0, 19, 10⟩), (Primitive.region 1, ⟨20, 0, 19, 10⟩)],
                (List.range 40).map (fun k => Cell.mk (k : Int) 0 Glyph.Blank)
                  ++ [⟨19, 0, Glyph.Vertical⟩],
                (List.range 10).map (fun k => Cell.mk 19 (k : Int) Glyph.Vertical), 410, 39) :=
  draw_lengths_ignore_flag exTwo.1 exTwo.2 (by decide) (by decide)

/-! ## C19 -/

theorem findSplitter_none (x y : Int) (ss : List splitter) :
    ∀ n, (∀ s ∈ ss, s.contain x y = false) → findSplitter x y ss n = none := by
  induction ss with
  | nil => intro n _; rfl
  | cons s rest ih =>
    intro n h
    rw [findSplitter]
    simp only [h s (List.mem_cons_self _ _), Bool.false_eq_true, if_false]
    exact ih _ (fun c hc => h c (List.mem_cons_of_mem _ hc))

theorem findSplitter_some (x y : Int) (ss : List splitter) :
    ∀ n, (∃ s ∈ ss, s.contain x y = true) →
      ∃ (i : Nat) (s : splitter), ss[i]? = some s ∧ s.contain x y = true ∧
        (∀ t ∈ ss.take i, t.contain x y = false) ∧
        findSplitter x y ss n = some (n + i, s) := by
  induction ss with
  | nil => intro n h; obtain ⟨b, hb, _⟩ := h; cases hb
  | cons c rest ih =>
    intro n h
    by_cases hc : c.contain x y = true
    · refine ⟨0, c, by simp, hc, ?_, ?_⟩
      · intro t ht; simp at ht
      · rw [findSplitter]; simp [hc]
    · have hcf : c.contain x y = false := by simpa using hc
      obtain ⟨b, hb, hbh⟩ := h
      have hb2 : b ∈ rest := by
        rcases List.mem_cons.mp hb with e | e
        · rw [e] at hbh; rw [hbh] at hcf; cases hcf
        · exact e
      obtain ⟨i, b2, h1, h2, h3, h4⟩ := ih (n + 1) ⟨b, hb2, hbh⟩
      refine ⟨i + 1, b2, by simpa using h1, h2, ?_, ?_⟩
      · intro t ht
        simp only [List.take_succ_cons, List.mem_cons] at ht
        rcases ht with e | e
        · rw [e]; exact hcf
        · exact h3 t e
      · rw [findSplitter]
        simp only [hcf, Bool.false_eq_true, if_false, h4]
        congr 2
        omega

/-- The handler on a left press that hits no splitter, inside the layout, when
no child consumes the event. -/
theorem mouseHandler_press_miss (env : Env) (hp : Heap) (l : Layout) (ev : EventMouse)
    (hin : l.InRect ev.x ev.y = true)
    (hnc : NoChildConsumes env hp l MouseAction.MouseLeftDown ev)
    (hfind : findSplitter ev.x ev.y l.splitters 0 = none) :
    l.mouseHandler env hp MouseAction.MouseLeftDown ev =
      some { heap := hp, l := l, consumed := false,
             capture := (offerChildren env hp MouseAction.MouseLeftDown ev l.items false none).2.1,
             offered := blurAll hp l.items, blurred := [] } := by
  obtain ⟨h1, h2⟩ := offerChildren_none env hp MouseAction.MouseLeftDown ev l.items none hnc
  unfold Layout.mouseHandler
  simp only [hin, h1, h2, hfind, Bool.not_true, Bool.false_eq_true, if_false]

/-- C19.  For every Layout and every left press that reaches the handler at
`(x, y)`, inside the layout and consumed by no child: the handler returns,
every child was offered the event and the heap is untouched.  If some splitter
contains `(x, y)`, the first such splitter in list order, at index `i`,
becomes the dragged splitter, the focused index becomes `i`, the anchor
becomes `(x, y)`, every child region is blurred and the event is consumed.  If
no splitter contains `(x, y)`, the layout is unchanged, no child is blurred
and the event is not consumed. -/
theorem press_effect (env : Env) (hp : Heap) (l : Layout) (action : MouseAction)
    (event : EventMouse) (x y : Int)
    (hcap : l.captured action event = (MouseAction.MouseLeftDown, some ⟨x, y⟩))
    (hin : l.InRect x y = true)
    (hnc : NoChildConsumes env hp l MouseAction.MouseLeftDown ⟨x, y⟩) :
    ∃ r, l.MouseHandler env hp action event = some r ∧ r.heap = hp ∧
      r.offered = blurAll hp l.items ∧
      ((∃ s ∈ l.splitters, s.contain x y = true) →
        ∃ (i : Nat) (s : splitter), l.splitters[i]? = some s ∧ s.contain x y = true ∧
          (∀ t ∈ l.splitters.take i, t.contain x y = false) ∧
          r.l = { l with focusedSplitterNumber := (i : Int), draggedSplitter := some s,
                         dragX := x, dragY := y } ∧
          r.blurred = blurAll hp l.items ∧ r.consumed = true) ∧
      ((∀ s ∈ l.splitters, s.contain x y = false) →
        r.l = l ∧ r.blurred = [] ∧ r.consumed = false) := by
  rw [MouseHandler_of_captured _ _ _ _ _ _ _ hcap]
  by_cases hex : ∃ s ∈ l.splitters, s.contain x y = true
  · obtain ⟨i, s, h1, h2, h3, h4⟩ := findSplitter_some x y l.splitters 0 hex
    rw [Nat.zero_add] at h4
    rw [mouseHandler_press env hp l ⟨x, y⟩ i s hin hnc h4]
    refine ⟨_, rfl, rfl, rfl, ?_, ?_⟩
    · intro _
      exact ⟨i, s, h1, h2, h3, rfl, rfl, rfl⟩
    · intro hno
      obtain ⟨s2, hs2, hc2⟩ := hex
      rw [hno s2 hs2] at hc2
      cases hc2
  · have hno : ∀ s ∈ l.splitters, s.contain x y = false := by
      intro s hs
      by_contra hh
      exact hex ⟨s, hs, by simpa using hh⟩
    rw [mouseHandler_press_miss env hp l ⟨x, y⟩ hin hnc (findSplitter_none x y l.splitters 0 hno)]
    refine ⟨_, rfl, rfl, rfl, ?_, ?_⟩
    · intro h; exact absurd h hex
    · intro _; exact ⟨rfl, rfl, rfl⟩

/-- C19, witness: a left press at `(19, 0)`, on the splitter of `exTwo`. -/
theorem press_effect_witness :
    ∃ r, exTwo.2.MouseHandler envIdle exTwo.1 MouseAction.MouseLeftDown ⟨19, 0⟩ = some r ∧
      r.heap = exTwo.1 ∧ r.offered = blurAll exTwo.1 exTwo.2.items ∧
      ((∃ s ∈ exTwo.2.splitters, s.contain 19 0 = true) →
        ∃ (i : Nat) (s : splitter), exTwo.2.splitters[i]? = some s ∧ s.contain 19 0 = true ∧
          (∀ t ∈ exTwo.2.splitters.take i, t.contain 19 0 = false) ∧
          r.l = { exTwo.2 with focusedSplitterNumber := (i : Int), draggedSplitter := some s,
                               dragX := 19, dragY := 0 } ∧
          r.blurred = blurAll exTwo.1 exTwo.2.items ∧ r.consumed = true) ∧
      ((∀ s ∈ exTwo.2.splitters, s.contain 19 0 = false) →
        r.l = exTwo.2 ∧ r.blurred = [] ∧ r.consumed = false) :=
  press_effect envIdle exTwo.1 exTwo.2 MouseAction.MouseLeftDown ⟨19, 0⟩ 19 0
    (by decide) (by decide) (by decide)

/-! ## C20 -/

theorem rebuildSplitters_idem (hp : Heap) (l : Layout) :
    (Layout.rebuildSplitters hp (Layout.rebuildSplitters hp l)).splitters
      = (Layout.rebuildSplitters hp l).splitters := by
  rw [rebuildSplitters_eq hp l]
  rfl

/-- A mouse move while no splitter is dragged returns and leaves the heap as
it is. -/
theorem mouseHandler_move_idle (env : Env) (hp : Heap) (l : Layout) (ev : EventMouse)
    (hdrag : l.draggedSplitter = none) :
    ∃ r, l.mouseHandler env hp MouseAction.MouseMove ev = some r ∧ r.heap = hp := by
  unfold Layout.mouseHandler
  by_cases hin : l.InRect ev.x ev.y = true
  · by_cases hc : (offerChildren env hp MouseAction.MouseMove ev l.items false none).1 = true
    · simp only [hin, hc, Bool.not_true, Bool.false_eq_true, if_false, if_true]
      exact ⟨_, rfl, rfl⟩
    · simp only [hin, hc, hdrag, Bool.not_true, Bool.false_eq_true, if_false]
      exact ⟨_, rfl, rfl⟩
  · simp only [hin, Bool.not_false, if_true]
    exact ⟨_, rfl, rfl⟩

/-- C20, amended.  After a left release that reaches the handler inside the
layout and is consumed by no child: the event is consumed, no splitter is
dragged, the splitters are those of a fresh rebuild from the current sizes,
the heap is untouched, and every following mouse move returns and changes no
Size and no rectangle.  The focused splitter index, the anchor and every
other field of the layout are left as they were. -/
theorem release_effect (env : Env) (hp : Heap) (l : Layout) (action : MouseAction)
    (event : EventMouse) (x y : Int)
    (hcap : l.captured action event = (MouseAction.MouseLeftUp, some ⟨x, y⟩))
    (hin : l.InRect x y = true)
    (hnc : NoChildConsumes env hp l MouseAction.MouseLeftUp ⟨x, y⟩) :
    ∃ r, l.MouseHandler env hp action event = some r ∧ r.consumed = true ∧ r.heap = hp ∧
      r.l.draggedSplitter = none ∧
      r.l.focusedSplitterNumber = l.focusedSplitterNumber ∧
      r.l = { l with draggedSplitter := none, splitters := r.l.splitters } ∧
      r.l.splitters = (Layout.rebuildSplitters r.heap r.l).splitters ∧
      (∀ (env2 : Env) (a2 : MouseAction) (e2 ev2 : EventMouse),
        r.l.captured a2 e2 = (MouseAction.MouseMove, some ev2) →
        ∃ r2, r.l.MouseHandler env2 r.heap a2 e2 = some r2 ∧ r2.heap = r.heap) := by
  rw [MouseHandler_of_captured _ _ _ _ _ _ _ hcap,
    mouseHandler_release env hp l ⟨x, y⟩ hin hnc]
  have hdrag : (Layout.rebuildSplitters hp { l with draggedSplitter := none }).draggedSplitter
      = none := by
    rw [rebuildSplitters_eq]
  refine ⟨_, rfl, rfl, rfl, hdrag, ?_, ?_, ?_, ?_⟩
  · show (Layout.rebuildSplitters hp { l with draggedSplitter := none }).focusedSplitterNumber = _
    rw [rebuildSplitters_eq]
  · show Layout.rebuildSplitters hp { l with draggedSplitter := none } = _
    rw [rebuildSplitters_eq]
  · exact (rebuildSplitters_idem hp _).symm
  · intro env2 a2 e2 ev2 hc2
    rw [MouseHandler_of_captured _ _ _ _ _ _ _ hc2]
    exact mouseHandler_move_idle env2 hp _ ev2 hdrag

/-- C20, witness: a left release at `(13, 0)` in `exPressed`. -/
theorem release_effect_witness :
    ∃ r, exPressed.2.MouseHandler envIdle exPressed.1 MouseAction.MouseLeftUp ⟨13, 0⟩ = some r ∧
      r.consumed = true ∧ r.heap = exPressed.1 ∧
      r.l.draggedSplitter = none ∧
      r.l.focusedSplitterNumber = exPressed.2.focusedSplitterNumber ∧
      r.l = { exPressed.2 with draggedSplitter := none, splitters := r.l.splitters } ∧
      r.l.splitters = (Layout.rebuildSplitters r.heap r.l).splitters ∧
      (∀ (env2 : Env) (a2 : MouseAction) (e2 ev2 : EventMouse),
        r.l.captured a2 e2 = (MouseAction.MouseMove, some ev2) →
        ∃ r2, r.l.MouseHandler env2 r.heap a2 e2 = some r2 ∧ r2.heap = r.heap) :=
  release_effect envIdle exPressed.1 exPressed.2 MouseAction.MouseLeftUp ⟨13, 0⟩ 13 0
    (by decide) (by decide) (by decide)

/-- C20, counterexample.  In `exTwo` the splitter, index 0, is pressed at
`(19, 0)` and released at the same place: both events are consumed, no
splitter is dragged any more, and the focused splitter index is still 0, not
-1. -/
theorem release_keeps_focus :
    ((exTwo.2.MouseHandler envIdle exTwo.1 MouseAction.MouseLeftDown ⟨19, 0⟩).bind
        (fun m1 => (m1.l.MouseHandler envIdle m1.heap MouseAction.MouseLeftUp ⟨19, 0⟩).map
          (fun m2 => (m1.consumed, m2.consumed, m2.l.draggedSplitter,
                      m2.l.focusedSplitterNumber))))
      = some (true, true, none, 0) := by
  decide

/-! ## The separators of Draw -/

theorem drawH_screen (hp : Heap) (l : Layout) (q y height : Int) (items : List Nat) :
    ∀ (number : Nat) (c seps : Int) (g : Glyph),
      (∀ i ∈ items, (hp.item i).Primitive ≠ none) →
      (items ≠ [] → seps = (items.length : Int) - 1) →
      ∃ calls, drawH hp l q y height items number c seps g
        = some (calls, sepsH l hp q y height items number c g) := by
  induction items with
  | nil => intro number c seps g _ _; exact ⟨[], rfl⟩
  | cons i rest ih =>
    intro number c seps g hprim hseps
    have hseps := hseps (List.cons_ne_nil _ _)
    have hi : (hp.item i).Primitive ≠ none := hprim i (List.mem_cons_self _ _)
    have hrest : ∀ j ∈ rest, (hp.item j).Primitive ≠ none :=
      fun j hj => hprim j (List.mem_cons_of_mem _ hj)
    obtain ⟨p, hpi⟩ := Option.ne_none_iff_exists'.mp hi
    cases rest with
    | nil =>
      have hs : ¬ seps > 0 := by simp at hseps; omega
      refine ⟨[(p, ⟨c, y, itemLen hp q i, height⟩)], ?_⟩
      simp [drawH, hpi, hs, itemLen, sepsH]
    | cons j rest2 =>
      have hs : seps > 0 := by simp at hseps; omega
      obtain ⟨calls, hd⟩ :=
        ih (number + 1) (c + itemLen hp q i + 1) (seps - 1)
          (if l.splitterFlag && decide ((number : Int) = l.focusedSplitterNumber)
            then Glyph.VerticalFocus else g) hrest (fun _ => by simp at hseps ⊢; omega)
      refine ⟨(p, ⟨c, y, itemLen hp q i, height⟩) :: calls, ?_⟩
      rw [drawH]
      simp only [hpi, hs, if_true]
      simp only [itemLen] at hd
      rw [hd]
      simp [itemLen, sepsH]

theorem drawV_screen (hp : Heap) (l : Layout) (q x width : Int) (items : List Nat) :
    ∀ (number : Nat) (c seps : Int) (g : Glyph),
      (∀ i ∈ items, (hp.item i).Primitive ≠ none) →
      (items ≠ [] → seps = (items.length : Int) - 1) →
      ∃ calls, drawV hp l q x width items number c seps g
        = some (calls, sepsV l hp q x width items number c g) := by
  induction items with
  | nil => intro number c seps g _ _; exact ⟨[], rfl⟩
  | cons i rest ih =>
    intro number c seps g hprim hseps
    have hseps := hseps (List.cons_ne_nil _ _)
    have hi : (hp.item i).Primitive ≠ none := hprim i (List.mem_cons_self _ _)
    have hrest : ∀ j ∈ rest, (hp.item j).Primitive ≠ none :=
      fun j hj => hprim j (List.mem_cons_of_mem _ hj)
    obtain ⟨p, hpi⟩ := Option.ne_none_iff_exists'.mp hi
    cases rest with
    | nil =>
      have hs : ¬ seps > 0 := by simp at hseps; omega
      refine ⟨[(p, ⟨x, c, width, itemLen hp q i⟩)], ?_⟩
      simp [drawV, hpi, hs, itemLen, sepsV]
    | cons j rest2 =>
      have hs : seps > 0 := by simp at hseps; omega
      obtain ⟨calls, hd⟩ :=
        ih (number + 1) (c + itemLen hp q i + 1) (seps - 1)
          (if l.splitterFlag && decide ((number : Int) = l.focusedSplitterNumber)
            then Glyph.HorizontalFocus else g) hrest (fun _ => by simp at hseps ⊢; omega)
      refine ⟨(p, ⟨x, c, width, itemLen hp q i⟩) :: calls, ?_⟩
      rw [drawV]
      simp only [hpi, hs, if_true]
      simp only [itemLen] at hd
      rw [hd]
      simp [itemLen, sepsV]

/-- Every separator cell of the horizontal loop sits right after the
rectangle of an item that has a successor; its glyph is the focus glyph
exactly when the focused index is the number of that item or of an item
before it, and the starting glyph otherwise. -/
theorem sepsH_mem (l : Layout) (hp : Heap) (q y height : Int) (items : List Nat) :
    ∀ (number : Nat) (x : Int) (g : Glyph) (c : Cell),
      c ∈ sepsH l hp q y height items number x g →
      ∃ (k j : Nat), items[k]? = some j ∧ k + 1 < items.length ∧
        c.x = x + prefixSum (fun i => itemLen hp q i + 1) items k + itemLen hp q j ∧
        c.glyph = (if (number : Int) ≤ l.focusedSplitterNumber ∧
                      l.focusedSplitterNumber ≤ ((number + k : Nat) : Int)
                    then Glyph.VerticalFocus else g) := by
  induction items with
  | nil => intro number x g c hc; simp [sepsH] at hc
  | cons i rest ih =>
    intro number x g c hc
    cases rest with
    | nil => simp [sepsH] at hc
    | cons j rest2 =>
      rw [sepsH] at hc
      rcases List.mem_append.mp hc with h | h
      · by_cases hf : l.splitterFlag = true
        · simp only [hf, if_true, Bool.true_and, List.mem_map] at h
          obtain ⟨y_, _, hce⟩ := h
          refine ⟨0, i, by simp, by simp, ?_, ?_⟩
          · rw [← hce]; simp [prefixSum_zero]
          · rw [← hce]
            simp only [decide_eq_true_eq, Nat.add_zero]
            by_cases hn : (number : Int) = l.focusedSplitterNumber
            · rw [if_pos hn, if_pos (by omega)]
            · rw [if_neg hn, if_neg (by omega)]
        · simp [hf] at h
      · obtain ⟨k, j2, h1, h2, h3, h4⟩ := ih _ _ _ c h
        refine ⟨k + 1, j2, by simpa using h1, by simp at h2 ⊢; omega, ?_, ?_⟩
        · rw [h3, prefixSum_cons_succ]; ring
        · rw [h4]
          by_cases hf : l.splitterFlag = true
          · simp only [hf, Bool.true_and, decide_eq_true_eq]
            by_cases hn : (number : Int) = l.focusedSplitterNumber
            · rw [if_pos hn]
              push_cast
              split <;> split <;> first | rfl | omega
            · rw [if_neg hn]
              push_cast
              split <;> split <;> first | rfl | omega
          · have hff : l.splitterFlag = false := by simpa using hf
            exfalso
            clear h4 h3
            revert h
            generalize (number + 1) = n2
            generalize (x + itemLen hp q i + 1) = x2
            generalize (if (l.splitterFlag && decide ((number : Int) = l.focusedSplitterNumber)) = true
              then Glyph.VerticalFocus else g) = g2
            intro h
            have hempty : ∀ (its : List Nat) (n : Nat) (xx : Int) (gg : Glyph),
                sepsH l hp q y height its n xx gg = [] := by
              intro its
              induction its with
              | nil => intro n xx gg; simp [sepsH]
              | cons a r iha =>
                intro n xx gg
                cases r with
                | nil => simp [sepsH]
                | cons b r2 =>
                  rw [sepsH]
                  simp [hff, iha]
            rw [hempty] at h
            cases h

/-- Every separator cell of the vertical loop sits right after the
rectangle of an item that has a successor; its glyph is the focus glyph
exactly when the focused index is the number of that item or of an item
before it, and the starting glyph otherwise. -/
theorem sepsV_mem (l : Layout) (hp : Heap) (q x width : Int) (items : List Nat) :
    ∀ (number : Nat) (y : Int) (g : Glyph) (c : Cell),
      c ∈ sepsV l hp q x width items number y g →
      ∃ (k j : Nat), items[k]? = some j ∧ k + 1 < items.length ∧
        c.y = y + prefixSum (fun i => itemLen hp q i + 1) items k + itemLen hp q j ∧
        c.glyph = (if (number : Int) ≤ l.focusedSplitterNumber ∧
                      l.focusedSplitterNumber ≤ ((number + k : Nat) : Int)
                    then Glyph.HorizontalFocus else g) := by
  induction items with
  | nil => intro number y g c hc; simp [sepsV] at hc
  | cons i rest ih =>
    intro number y g c hc
    cases rest with
    | nil => simp [sepsV] at hc
    | cons j rest2 =>
      rw [sepsV] at hc
      rcases List.mem_append.mp hc with h | h
      · by_cases hf : l.splitterFlag = true
        · simp only [hf, if_true, Bool.true_and, List.mem_map] at h
          obtain ⟨x_, _, hce⟩ := h
          refine ⟨0, i, by simp, by simp, ?_, ?_⟩
          · rw [← hce]; simp [prefixSum_zero]
          · rw [← hce]
            simp only [decide_eq_true_eq, Nat.add_zero]
            by_cases hn : (number : Int) = l.focusedSplitterNumber
            · rw [if_pos hn, if_pos (by omega)]
            · rw [if_neg hn, if_neg (by omega)]
        · simp [hf] at h
      · obtain ⟨k, j2, h1, h2, h3, h4⟩ := ih _ _ _ c h
        refine ⟨k + 1, j2, by simpa using h1, by simp at h2 ⊢; omega, ?_, ?_⟩
        · rw [h3, prefixSum_cons_succ]; ring
        · rw [h4]
          by_cases hf : l.splitterFlag = true
          · simp only [hf, Bool.true_and, decide_eq_true_eq]
            by_cases hn : (number : Int) = l.focusedSplitterNumber
            · rw [if_pos hn]
              push_cast
              split <;> split <;> first | rfl | omega
            · rw [if_neg hn]
              push_cast
              split <;> split <;> first | rfl | omega
          · have hff : l.splitterFlag = false := by simpa using hf
            exfalso
            clear h4 h3
            revert h
            generalize (number + 1) = n2
            generalize (y + itemLen hp q i + 1) = x2
            generalize (if (l.splitterFlag && decide ((number : Int) = l.focusedSplitterNumber)) = true
              then Glyph.HorizontalFocus else g) = g2
            intro h
            have hempty : ∀ (its : List Nat) (n : Nat) (xx : Int) (gg : Glyph),
                sepsV l hp q x width its n xx gg = [] := by
              intro its
              induction its with
              | nil => intro n xx gg; simp [sepsV]
              | cons a r iha =>
                intro n xx gg
                cases r with
                | nil => simp [sepsV]
                | cons b r2 =>
                  rw [sepsV]
                  simp [hff, iha]
            rw [hempty] at h
            cases h

theorem fillCells_glyph (x y width height : Int) (c : Cell) (h : c ∈ fillCells x y width height) :
    c.glyph = Glyph.Blank := by
  unfold fillCells at h
  simp only [List.mem_flatMap, List.mem_map] at h
  obtain ⟨_, _, _, _, hc⟩ := h
  rw [← hc]

/-- The cells Draw writes: the background, then the separators. -/
theorem Draw_screen (hp : Heap) (l : Layout)
    (hd : l.direction = HorizontalLayout ∨ l.direction = VerticalLayout)
    (hreg : AllRegions hp l) :
    ∃ out, l.Draw hp = some out ∧
      (l.direction = HorizontalLayout →
        out.screen = (if l.backgroundColor ≠ ColorDefault
            then fillCells l.x l.y l.width l.height else [])
          ++ sepsH l hp (l.autoSize hp) l.y l.height l.items 0 l.x Glyph.Vertical) ∧
      (l.direction = VerticalLayout →
        out.screen = (if l.backgroundColor ≠ ColorDefault
            then fillCells l.x l.y l.width l.height else [])
          ++ sepsV l hp (l.autoSize hp) l.x l.width l.items 0 l.y Glyph.Horizontal) := by
  have hVH : VerticalLayout ≠ HorizontalLayout := by decide
  rcases hd with h | h
  · obtain ⟨calls, hc⟩ := drawH_screen hp l (l.autoSize hp) l.y l.height l.items 0 l.x
      l.splittersAmount Glyph.Vertical hreg (splittersAmount_of_ne_nil l)
    refine ⟨{ heap := applyCalls hp calls, calls := calls,
              screen := (if l.backgroundColor ≠ ColorDefault
                then fillCells l.x l.y l.width l.height else [])
                ++ sepsH l hp (l.autoSize hp) l.y l.height l.items 0 l.x Glyph.Vertical },
      ?_, fun _ => rfl, fun hv => ?_⟩
    · unfold Layout.Draw
      simp only [if_pos h, hc]
    · rw [h] at hv; exact absurd hv.symm hVH
  · have hne : ¬ l.direction = HorizontalLayout := by rw [h]; exact hVH
    obtain ⟨calls, hc⟩ := drawV_screen hp l (l.autoSize hp) l.x l.width l.items 0 l.y
      l.splittersAmount Glyph.Horizontal hreg (splittersAmount_of_ne_nil l)
    refine ⟨{ heap := applyCalls hp calls, calls := calls,
              screen := (if l.backgroundColor ≠ ColorDefault
                then fillCells l.x l.y l.width l.height else [])
                ++ sepsV l hp (l.autoSize hp) l.x l.width l.items 0 l.y Glyph.Horizontal },
      ?_, fun hh => absurd hh hne, fun _ => rfl⟩
    unfold Layout.Draw
    simp only [if_neg hne, if_pos h, hc]

/-- The item and the rectangle behind an entry of the list Draw hands out. -/
theorem calls_getElem?_inv (hp : Heap) (l : Layout) (out : DrawResult)
    (h4 : ∀ k, out.calls[k]? = (l.items[k]?).bind (fun j =>
      ((hp.item j).Primitive).map (fun p => (p, drawnRect hp l k j))))
    (k : Nat) (p : Primitive) (r : Rect) (hc : out.calls[k]? = some (p, r)) :
    ∃ j, l.items[k]? = some j ∧ (hp.item j).Primitive = some p ∧ r = drawnRect hp l k j := by
  rw [h4 k] at hc
  cases hk : l.items[k]? with
  | none => simp [hk] at hc
  | some j =>
    simp only [hk, Option.some_bind] at hc
    cases hpj : (hp.item j).Primitive with
    | none => simp [hpj] at hc
    | some p2 =>
      simp only [hpj, Option.map_some', Option.some.injEq, Prod.mk.injEq] at hc
      exact ⟨j, rfl, by rw [hpj, hc.1], hc.2.symm⟩

/-! ## C17 -/

theorem Draw_horizontal_or_vertical (hp : Heap) (l : Layout)
    (hd : l.direction = HorizontalLayout ∨ l.direction = VerticalLayout)
    (hreg : AllRegions hp l) :
    ∃ out, l.Draw hp = some out ∧ out.heap = applyCalls hp out.calls ∧
      out.calls.map (fun c => some c.1) = l.items.map (fun i => (hp.item i).Primitive) ∧
      out.calls.length = l.items.length := by
  rcases hd with h | h
  · obtain ⟨out, h1, h2, h3, _⟩ := Draw_horizontal hp l h hreg
    exact ⟨out, h1, h2, h3, by simpa using congrArg List.length h3⟩
  · obtain ⟨out, h1, h2, h3, _⟩ := Draw_vertical hp l h hreg
    exact ⟨out, h1, h2, h3, by simpa using congrArg List.length h3⟩


/-- C17.  For every HorizontalLayout or VerticalLayout with rectangle
`(x, y, width, height)` whose items all hold a region, Draw returns and hands
out one rectangle per item, in list order.  The first rectangle starts at the
origin of the layout; the rectangle of item `k + 1` starts one cell after the
end of the rectangle of item `k`; across the axis every rectangle has the
position and the extent of the layout.  Every separator cell Draw writes sits
right after the rectangle of an item that has a successor: no cell is
reserved after the last item. -/
theorem draw_placement (hp : Heap) (l : Layout)
    (hd : l.direction = HorizontalLayout ∨ l.direction = VerticalLayout)
    (hreg : AllRegions hp l) :
    ∃ out, l.Draw hp = some out ∧
      out.calls.map (fun c => some c.1) = l.items.map (fun i => (hp.item i).Primitive) ∧
      (∀ (p : Primitive) (r : Rect), out.calls[0]? = some (p, r) → r.x = l.x ∧ r.y = l.y) ∧
      (∀ (k : Nat) (p p2 : Primitive) (r r2 : Rect),
        out.calls[k]? = some (p, r) → out.calls[k + 1]? = some (p2, r2) →
          (l.direction = HorizontalLayout → r2.x = r.x + r.width + 1) ∧
          (l.direction = VerticalLayout → r2.y = r.y + r.height + 1)) ∧
      (∀ (k : Nat) (p : Primitive) (r : Rect), out.calls[k]? = some (p, r) →
          (l.direction = HorizontalLayout → r.y = l.y ∧ r.height = l.height) ∧
          (l.direction = VerticalLayout → r.x = l.x ∧ r.width = l.width)) ∧
      (∀ c ∈ out.screen, c.glyph ≠ Glyph.Blank →
        ∃ (k : Nat) (p : Primitive) (r : Rect), k + 1 < l.items.length ∧
          out.calls[k]? = some (p, r) ∧
          (l.direction = HorizontalLayout → c.x = r.x + r.width) ∧
          (l.direction = VerticalLayout → c.y = r.y + r.height)) := by
  have hVH : VerticalLayout ≠ HorizontalLayout := by decide
  obtain ⟨out, h1, _, _, h4⟩ := Draw_calls_all hp l hd hreg
  obtain ⟨out2, g1, gH, gV⟩ := Draw_screen hp l hd hreg
  rw [h1] at g1
  cases g1
  obtain ⟨out3, k1, _, k3, _⟩ := Draw_horizontal_or_vertical hp l hd hreg
  rw [h1] at k1
  cases k1
  refine ⟨out, h1, k3, ?_, ?_, ?_, ?_⟩
  · intro p r hc
    obtain ⟨j, _, _, hr⟩ := calls_getElem?_inv hp l out h4 0 p r hc
    rw [hr]
    unfold drawnRect
    split <;> simp [prefixSum_zero]
  · intro k p p2 r r2 hc hc2
    obtain ⟨j, hj, _, hr⟩ := calls_getElem?_inv hp l out h4 k p r hc
    obtain ⟨j2, _, _, hr2⟩ := calls_getElem?_inv hp l out h4 (k + 1) p2 r2 hc2
    have hsucc := prefixSum_succ (fun i => itemLen hp (l.autoSize hp) i + 1) l.items k j hj
    rw [hr, hr2]
    constructor
    · intro hH
      simp only [drawnRect, if_pos hH, hsucc]
      ring
    · intro hV
      have hnH : ¬ l.direction = HorizontalLayout := by rw [hV]; exact hVH
      simp only [drawnRect, if_neg hnH, hsucc]
      ring
  · intro k p r hc
    obtain ⟨j, _, _, hr⟩ := calls_getElem?_inv hp l out h4 k p r hc
    rw [hr]
    constructor
    · intro hH
      simp only [drawnRect, if_pos hH, and_self]
    · intro hV
      have hnH : ¬ l.direction = HorizontalLayout := by rw [hV]; exact hVH
      simp only [drawnRect, if_neg hnH, and_self]
  · intro c hc hg
    rcases hd with hH | hV
    · rw [gH hH] at hc
      rcases List.mem_append.mp hc with hb | hs
      · exfalso
        apply hg
        by_cases hbg : l.backgroundColor ≠ ColorDefault
        · rw [if_pos hbg] at hb; exact fillCells_glyph _ _ _ _ c hb
        · rw [if_neg hbg] at hb; cases hb
      · obtain ⟨k, j, hk, hk1, hx, _⟩ := sepsH_mem l hp _ _ _ l.items 0 l.x Glyph.Vertical c hs
        obtain ⟨p, hp1⟩ := Option.ne_none_iff_exists'.mp (hreg j (List.getElem?_mem hk))
        refine ⟨k, p, drawnRect hp l k j, hk1, ?_, ?_, ?_⟩
        · rw [h4 k, hk]; simp [hp1]
        · intro _
          rw [hx]
          simp only [drawnRect, if_pos hH]
        · intro hv; rw [hH] at hv; exact absurd hv.symm hVH
    · have hnH : ¬ l.direction = HorizontalLayout := by rw [hV]; exact hVH
      rw [gV hV] at hc
      rcases List.mem_append.mp hc with hb | hs
      · exfalso
        apply hg
        by_cases hbg : l.backgroundColor ≠ ColorDefault
        · rw [if_pos hbg] at hb; exact fillCells_glyph _ _ _ _ c hb
        · rw [if_neg hbg] at hb; cases hb
      · obtain ⟨k, j, hk, hk1, hy, _⟩ := sepsV_mem l hp _ _ _ l.items 0 l.y Glyph.Horizontal c hs
        obtain ⟨p, hp1⟩ := Option.ne_none_iff_exists'.mp (hreg j (List.getElem?_mem hk))
        refine ⟨k, p, drawnRect hp l k j, hk1, ?_, ?_, ?_⟩
        · rw [h4 k, hk]; simp [hp1]
        · intro hh; exact absurd hh hnH
        · intro _
          rw [hy]
          simp only [drawnRect, if_neg hnH]

/-- C17, witness: the theorem at `exThree` with the splitter flag on. -/
theorem draw_placement_witness :
    ∃ out, (exThree.2.SetSplitter true).Draw exThree.1 = some out ∧
      out.calls.map (fun c => some c.1)
        = (exThree.2.SetSplitter true).items.map (fun i => (exThree.1.item i).Primitive) ∧
      (∀ (p : Primitive) (r : Rect), out.calls[0]? = some (p, r) →
        r.x = (exThree.2.SetSplitter true).x ∧ r.y = (exThree.2.SetSplitter true).y) ∧
      (∀ (k : Nat) (p p2 : Primitive) (r r2 : Rect),
        out.calls[k]? = some (p, r) → out.calls[k + 1]? = some (p2, r2) →
          ((exThree.2.SetSplitter true).direction = HorizontalLayout → r2.x = r.x + r.width + 1) ∧
          ((exThree.2.SetSplitter true).direction = VerticalLayout → r2.y = r.y + r.height + 1)) ∧
      (∀ (k : Nat) (p : Primitive) (r : Rect), out.calls[k]? = some (p, r) →
          ((exThree.2.SetSplitter true).direction = HorizontalLayout →
            r.y = (exThree.2.SetSplitter true).y ∧ r.height = (exThree.2.SetSplitter true).height) ∧
          ((exThree.2.SetSplitter true).direction = VerticalLayout →
            r.x = (exThree.2.SetSplitter true).x ∧ r.width = (exThree.2.SetSplitter true).width)) ∧
      (∀ c ∈ out.screen, c.glyph ≠ Glyph.Blank →
        ∃ (k : Nat) (p : Primitive) (r : Rect), k + 1 < (exThree.2.SetSplitter true).items.length ∧
          out.calls[k]? = some (p, r) ∧
          ((exThree.2.SetSplitter true).direction = HorizontalLayout → c.x = r.x + r.width) ∧
          ((exThree.2.SetSplitter true).direction = VerticalLayout → c.y = r.y + r.height)) :=
  draw_placement exThree.1 (exThree.2.SetSplitter true) (by decide) (by decide)

/-! ## C18 -/

/-- The glyph of every separator cell of Draw: the cell sits after the
rectangle of some item `k` that has a successor, and it is drawn with the
focus glyph exactly when `0 <= focused index <= k`, that is for the focused
separator and for every separator after it. -/
theorem Draw_separator_glyph (hp : Heap) (l : Layout)
    (hd : l.direction = HorizontalLayout ∨ l.direction = VerticalLayout)
    (hreg : AllRegions hp l) :
    ∃ out, l.Draw hp = some out ∧
      ∀ c ∈ out.screen, c.glyph ≠ Glyph.Blank →
        ∃ (k j : Nat), l.items[k]? = some j ∧ k + 1 < l.items.length ∧
          (l.direction = HorizontalLayout →
            c.x = (drawnRect hp l k j).x + (drawnRect hp l k j).width ∧
            c.glyph = (if 0 ≤ l.focusedSplitterNumber ∧ l.focusedSplitterNumber ≤ (k : Int)
                        then Glyph.VerticalFocus else Glyph.Vertical)) ∧
          (l.direction = VerticalLayout →
            c.y = (drawnRect hp l k j).y + (drawnRect hp l k j).height ∧
            c.glyph = (if 0 ≤ l.focusedSplitterNumber ∧ l.focusedSplitterNumber ≤ (k : Int)
                        then Glyph.HorizontalFocus else Glyph.Horizontal)) := by
  have hVH : VerticalLayout ≠ HorizontalLayout := by decide
  obtain ⟨out, g1, gH, gV⟩ := Draw_screen hp l hd hreg
  refine ⟨out, g1, ?_⟩
  intro c hc hg
  have hbgc : ∀ c2 ∈ (if l.backgroundColor ≠ ColorDefault
      then fillCells l.x l.y l.width l.height else []), c2.glyph = Glyph.Blank := by
    intro c2 hb
    by_cases hbg : l.backgroundColor ≠ ColorDefault
    · rw [if_pos hbg] at hb; exact fillCells_glyph _ _ _ _ c2 hb
    · rw [if_neg hbg] at hb; cases hb
  rcases hd with hH | hV
  · rw [gH hH] at hc
    rcases List.mem_append.mp hc with hb | hs
    · exact absurd (hbgc c hb) hg
    · obtain ⟨k, j, hk, hk1, hx, hgl⟩ :=
        sepsH_mem l hp _ _ _ l.items 0 l.x Glyph.Vertical c hs
      refine ⟨k, j, hk, hk1, ?_, ?_⟩
      · intro _
        refine ⟨by rw [hx]; simp only [drawnRect, if_pos hH], ?_⟩
        rw [hgl]
        simp
      · intro hv; rw [hH] at hv; exact absurd hv.symm hVH
  · have hnH : ¬ l.direction = HorizontalLayout := by rw [hV]; exact hVH
    rw [gV hV] at hc
    rcases List.mem_append.mp hc with hb | hs
    · exact absurd (hbgc c hb) hg
    · obtain ⟨k, j, hk, hk1, hy, hgl⟩ :=
        sepsV_mem l hp _ _ _ l.items 0 l.y Glyph.Horizontal c hs
      refine ⟨k, j, hk, hk1, ?_, ?_⟩
      · intro hh; exact absurd hh hnH
      · intro _
        refine ⟨by rw [hy]; simp only [drawnRect, if_neg hnH], ?_⟩
        rw [hgl]
        simp

set_option maxRecDepth 100000 in
/-- C18, the code at the failing input.  `exFocused` is a horizontal layout
with the splitter flag on and three items; its first splitter was pressed, so
the focused splitter index is 0.  After the 40 blanks of the background, Draw
writes in row 0 the separator after item 0, at column 12, with the focus
glyph, and the separator after item 1, at column 25, with the focus glyph
too. -/
theorem focus_glyph_runs_on :
    exFocused.2.splitterFlag = true ∧ exFocused.2.items.length = 3 ∧
    exFocused.2.focusedSplitterNumber = 0 ∧
    (exFocused.2.Draw exFocused.1).map
        (fun o => o.screen.filter (fun c => decide (c.y = 0)))
      = some ((List.range 40).map (fun k => Cell.mk (k : Int) 0 Glyph.Blank)
          ++ [⟨12, 0, Glyph.VerticalFocus⟩, ⟨25, 0, Glyph.VerticalFocus⟩]) := by
  decide

/-! ## The first consumer among the children -/

theorem offerChildren_first (env : Env) (hp : Heap) (action : MouseAction) (event : EventMouse)
    (items : List Nat) :
    ∀ (k : Nat) (p : Primitive) (c0 : Bool) (cap : Option Primitive),
      (blurAll hp items)[k]? = some p → (env.mouse p action event).1 = true →
      (∀ q ∈ (blurAll hp items).take k, (env.mouse q action event).1 = false) →
      offerChildren env hp action event items c0 cap
        = (true, (env.mouse p action event).2, (blurAll hp items).take (k + 1)) := by
  induction items with
  | nil => intro k p c0 cap hk; simp [blurAll] at hk
  | cons item rest ih =>
    intro k p c0 cap hk hp1 hbefore
    cases hq : (hp.item item).Primitive with
    | none =>
      have hb : blurAll hp (item :: rest) = blurAll hp rest := by
        simp [blurAll, List.filterMap_cons, hq]
      rw [hb] at hk hbefore ⊢
      simp only [offerChildren, hq]
      exact ih k p c0 cap hk hp1 hbefore
    | some q =>
      have hb : blurAll hp (item :: rest) = q :: blurAll hp rest := by
        simp [blurAll, List.filterMap_cons, hq]
      rw [hb] at hk hbefore ⊢
      cases k with
      | zero =>
        have hpq : q = p := by simpa using hk
        subst hpq
        simp only [offerChildren, hq, hp1, if_true]
        simp
      | succ k =>
        have hq0 : (env.mouse q action event).1 = false :=
          hbefore q (by simp)
        have hk1 : (blurAll hp rest)[k]? = some p := by simpa using hk
        have hrest : ∀ t ∈ (blurAll hp rest).take k, (env.mouse t action event).1 = false := by
          intro t ht
          exact hbefore t (by simp [List.take_succ_cons, ht])
        have h := ih k p false (env.mouse q action event).2 hk1 hp1 hrest
        simp only [offerChildren, hq, hq0, h]
        simp

/-- C21: a mouse event that reaches the handler inside the rectangle of the
layout is offered to the children in list order up to and including the first
one that consumes it; the heap and the layout are then left as they were but
for the focused splitter index, which becomes -1, and the result is that
child's.  An event outside the rectangle is offered to no child, changes
nothing and is not consumed. -/
theorem first_consumer_wins (env : Env) (hp : Heap) (l : Layout) (action a : MouseAction)
    (event ev : EventMouse) (hcap : l.captured action event = (a, some ev)) :
    (l.InRect ev.x ev.y = true →
      ∀ (k : Nat) (p : Primitive), (blurAll hp l.items)[k]? = some p →
        (env.mouse p a ev).1 = true →
        (∀ q ∈ (blurAll hp l.items).take k, (env.mouse q a ev).1 = false) →
        l.MouseHandler env hp action event =
          some { heap := hp, l := { l with focusedSplitterNumber := -1 }, consumed := true,
                 capture := (env.mouse p a ev).2,
                 offered := (blurAll hp l.items).take (k + 1), blurred := [] }) ∧
    (l.InRect ev.x ev.y = false →
      l.MouseHandler env hp action event =
        some { heap := hp, l := l, consumed := false, capture := none, offered := [],
               blurred := [] }) := by
  rw [MouseHandler_of_captured env hp l action a event ev hcap]
  constructor
  · intro hin k p hk hp1 hbefore
    have h := offerChildren_first env hp a ev l.items k p false none hk hp1 hbefore
    simp only [Layout.mouseHandler, hin, h]
    simp
  · intro hout
    simp [Layout.mouseHandler, hout]

/-- C21, witness: in `exPressed` the child that holds region 1 consumes a move
at `(14, 0)`: regions 0 and 1 are offered it, region 2 is not, and the drag
state is left alone; a move at `(40, 0)` is outside the layout. -/
theorem first_consumer_wins_witness :
    exPressed.2.MouseHandler envSecond exPressed.1 MouseAction.MouseMove ⟨14, 0⟩ =
        some { heap := exPressed.1, l := { exPressed.2 with focusedSplitterNumber := -1 },
               consumed := true, capture := some (Primitive.region 1),
               offered := [Primitive.region 0, Primitive.region 1], blurred := [] } ∧
    exPressed.2.MouseHandler envSecond exPressed.1 MouseAction.MouseMove ⟨40, 0⟩ =
        some { heap := exPressed.1, l := exPressed.2, consumed := false, capture := none,
               offered := [], blurred := [] } :=
  ⟨(first_consumer_wins envSecond exPressed.1 exPressed.2 MouseAction.MouseMove
      MouseAction.MouseMove ⟨14, 0⟩ ⟨14, 0⟩ (by decide)).1 (by decide) 1 (Primitive.region 1)
      (by decide) (by decide) (by decide),
   (first_consumer_wins envSecond exPressed.1 exPressed.2 MouseAction.MouseMove
      MouseAction.MouseMove ⟨40, 0⟩ ⟨40, 0⟩ (by decide)).2 (by decide)⟩

/-! ## The interior rectangle of a window -/

/-- C22, counterexample.  The bordered window `exOffscreen` has the rectangle
`(-2, 0, 20, 5)`; drawBox is called with it and returns `(-2, 1, 20, 4)`, but
the Box takes a stored rectangle with a negative x as none and answers
`(-1, 1, 18, 3)`: that is the rectangle the content region gets.  Without the
border it gets the whole rectangle `(-2, 0, 20, 5)`. -/
theorem interior_off_screen_differs :
    (exOffscreen.drawBox ColorBlack false (-2) 0 20 5).2 = ⟨-2, 1, 20, 4⟩ ∧
    (exOffscreen.Draw Heap.empty BoxInner.new ColorBlack false).content
      = some (Primitive.region 7, ⟨-1, 1, 18, 3⟩) ∧
    ((exOffscreen.SetBorder false).Draw Heap.empty BoxInner.new ColorBlack false).content
      = some (Primitive.region 7, ⟨-2, 0, 20, 5⟩) := by
  decide

/-- C22 (amended): for every window, bordered or not, and every rectangle
`(x, y, width, height)` given to drawBox, the rectangle it returns is
`(x, y + 1, width, height - 1)`.  When the window has space, so that the Box
calls drawBox with the rectangle of the window, and its x is not negative,
that is the rectangle Draw hands to the content region. -/
theorem interior_below_top_row (w : Window) (box : BoxInner) (backgroundColor : Nat)
    (focus : Bool) (x y width height : Int) (hp : Heap) :
    (w.drawBox backgroundColor focus x y width height).2 = ⟨x, y + 1, width, height - 1⟩ ∧
    (0 < w.width → 0 < w.height → 0 ≤ w.x →
      (w.Draw hp box backgroundColor focus).content
        = w.root.map (fun p => (p, (⟨w.x, w.y + 1, w.width, w.height - 1⟩ : Rect))) ∧
      (w.Draw hp box backgroundColor focus).heap
        = (match w.root with
           | some p => hp.setRect p ⟨w.x, w.y + 1, w.width, w.height - 1⟩
           | none => hp)) := by
  refine ⟨rfl, ?_⟩
  intro hw hh hx
  have hspace : ¬ (w.width ≤ 0 ∨ w.height ≤ 0) := by omega
  have hinner : w.GetInnerRect (w.BoxDraw box backgroundColor focus)
      = ⟨w.x, w.y + 1, w.width, w.height - 1⟩ := by
    simp only [Window.BoxDraw, if_neg hspace, Window.GetInnerRect, Window.drawBox]
    rw [if_pos (by omega)]
  constructor
  · cases hr : w.root <;> simp [Window.Draw, hr, hinner]
  · cases hr : w.root <;> simp [Window.Draw, hr, hinner]

/-- C22, witness: the bordered window `exSilent` at `(0, 0, 20, 5)` hands its
content region 7 the rectangle `(0, 1, 20, 4)`. -/
theorem interior_below_top_row_witness :
    (exSilent.drawBox ColorBlack false 0 0 20 5).2 = ⟨0, 0 + 1, 20, 5 - 1⟩ ∧
    (exSilent.Draw Heap.empty BoxInner.new ColorBlack false).content
      = exSilent.root.map
          (fun p => (p, (⟨exSilent.x, exSilent.y + 1, exSilent.width, exSilent.height - 1⟩ : Rect))) ∧
    (exSilent.Draw Heap.empty BoxInner.new ColorBlack false).content
      = some (Primitive.region 7, ⟨0, 1, 20, 4⟩) :=
  ⟨(interior_below_top_row exSilent BoxInner.new ColorBlack false 0 0 20 5 Heap.empty).1,
   ((interior_below_top_row exSilent BoxInner.new ColorBlack false 0 0 20 5 Heap.empty).2
      (by decide) (by decide) (by decide)).1,
   by decide⟩

/-! ## What a drag move keeps -/

theorem sum_map_off_one (f g : Nat → Int) (a : Nat) (h : ∀ i, i ≠ a → g i = f i)
    (items : List Nat) :
    (items.map g).sum = (items.map f).sum + (items.count a : Int) * (g a - f a) := by
  induction items with
  | nil => simp
  | cons x xs ih =>
    by_cases hx : x = a
    · subst hx
      simp only [List.map_cons, List.sum_cons, List.count_cons_self, ih]
      push_cast
      ring
    · have hc : (x :: xs).count a = xs.count a := by
        simp [List.count_cons, hx]
      simp only [List.map_cons, List.sum_cons, hc, ih, h x hx]
      ring

theorem sum_map_off_two (f g : Nat → Int) (a b : Nat) (hab : a ≠ b)
    (h : ∀ i, i ≠ a → i ≠ b → g i = f i) (items : List Nat) (hnd : items.Nodup)
    (ha : a ∈ items) (hb : b ∈ items) :
    (items.map g).sum = (items.map f).sum + (g a - f a) + (g b - f b) := by
  have h1 := sum_map_off_one f (Function.update f a (g a)) a
    (fun i hi => Function.update_noteq hi _ _) items
  have h2 := sum_map_off_one (Function.update f a (g a)) g b (by
    intro i hi
    by_cases hia : i = a
    · subst hia; simp
    · rw [Function.update_noteq hia]; exact h i hia hi) items
  rw [h2, h1, List.count_eq_one_of_mem hnd ha, List.count_eq_one_of_mem hnd hb,
    Function.update_same, Function.update_noteq (Ne.symm hab)]
  push_cast
  ring

/-- C23, counterexample.  In `exUndrawn` both items have the fixed Size 5, so no
item is auto-sized and the Sizes add up to 10; the regions are 15 wide.  A
move by 2 stores the Sizes 17 and 13: the sum becomes 30. -/
theorem drag_rewrites_fixed_sizes :
    exUndrawn.2.draggedSplitter = some ⟨(5, 5), (0, 9), 0, 1⟩ ∧
    autoCount exUndrawn.1 exUndrawn.2 = 0 ∧ fixedSum exUndrawn.1 exUndrawn.2 = 10 ∧
    (exUndrawn.2.MouseHandler envIdle exUndrawn.1 MouseAction.MouseMove ⟨7, 0⟩).map
        (fun r => (r.consumed, (r.heap.item 0).Size, (r.heap.item 1).Size, fixedSum r.heap r.l))
      = some (true, 17, 13, 30) := by
  decide

/-- C23 (amended): a drag mouse-move keeps the combined axis length of the two
items next to the dragged splitter, the start of item a and the far edge of
item b.  When the two items are in the duplicate-free item list and each of
them that has a fixed Size has it equal to the axis length of its rectangle
(as after Draw), the sum of all stored Sizes grows by the old lengths of those
of the two that were auto-sized before the move. -/
theorem drag_keeps_combined_length (env : Env) (hp : Heap) (l : Layout) (action : MouseAction)
    (event : EventMouse) (x y : Int) (s : splitter) (pa pb : Primitive)
    (hd : l.direction = HorizontalLayout ∨ l.direction = VerticalLayout)
    (hcap : l.captured action event = (MouseAction.MouseMove, some ⟨x, y⟩))
    (hin : l.InRect x y = true)
    (hnc : NoChildConsumes env hp l MouseAction.MouseMove ⟨x, y⟩)
    (hdrag : l.draggedSplitter = some s)
    (hpa : (hp.item s.a).Primitive = some pa) (hpb : (hp.item s.b).Primitive = some pb)
    (hne : pa ≠ pb) :
    ∃ r, l.MouseHandler env hp action event = some r ∧
      axisLen l.direction (r.heap.rect pa) + axisLen l.direction (r.heap.rect pb)
        = axisLen l.direction (hp.rect pa) + axisLen l.direction (hp.rect pb) ∧
      axisStart l.direction (r.heap.rect pa) = axisStart l.direction (hp.rect pa) ∧
      axisStart l.direction (r.heap.rect pb) + axisLen l.direction (r.heap.rect pb)
        = axisStart l.direction (hp.rect pb) + axisLen l.direction (hp.rect pb) ∧
      (l.items.Nodup → s.a ∈ l.items → s.b ∈ l.items →
        ((hp.item s.a).Size ≠ AutoSize → (hp.item s.a).Size = axisLen l.direction (hp.rect pa)) →
        ((hp.item s.b).Size ≠ AutoSize → (hp.item s.b).Size = axisLen l.direction (hp.rect pb)) →
        fixedSum r.heap r.l
          = fixedSum hp l + autoLen hp l.direction s.a pa + autoLen hp l.direction s.b pb) := by
  have hab : s.a ≠ s.b := by
    intro h
    rw [h, hpb] at hpa
    exact hne (Option.some.inj hpa).symm
  obtain ⟨r, hr, _, _, _, hoth, hH, hV⟩ :=
    move_effect_of_drag env hp l action event x y s pa pb hd hcap hin hnc hdrag hpa hpb hne
  have hitems : r.l.items = l.items := by
    rw [MouseHandler_of_captured env hp l action MouseAction.MouseMove event ⟨x, y⟩ hcap] at hr
    exact (mouseHandler_inv env hp l MouseAction.MouseMove ⟨x, y⟩ r hr).2.1
  have hsizes : ∃ δ : Int,
      axisLen l.direction (r.heap.rect pa) = axisLen l.direction (hp.rect pa) + δ ∧
      axisLen l.direction (r.heap.rect pb) = axisLen l.direction (hp.rect pb) - δ ∧
      axisStart l.direction (r.heap.rect pa) = axisStart l.direction (hp.rect pa) ∧
      axisStart l.direction (r.heap.rect pb) = axisStart l.direction (hp.rect pb) + δ ∧
      (r.heap.item s.a).Size = axisLen l.direction (hp.rect pa) + δ ∧
      (r.heap.item s.b).Size = axisLen l.direction (hp.rect pb) - δ := by
    rcases hd with h | h
    · obtain ⟨h1, h2, h3, h4⟩ := hH h
      refine ⟨x - l.dragX, ?_, ?_, ?_, ?_, ?_, ?_⟩ <;>
        simp [axisLen, axisStart, h, h1, h2, h3, h4]
    · have hnH : ¬ l.direction = HorizontalLayout := by rw [h]; decide
      obtain ⟨h1, h2, h3, h4⟩ := hV h
      refine ⟨y - l.dragY, ?_, ?_, ?_, ?_, ?_, ?_⟩ <;>
        simp [axisLen, axisStart, hnH, h1, h2, h3, h4]
  obtain ⟨δ, ha1, hb1, ha0, hb0, hsa, hsb⟩ := hsizes
  refine ⟨r, hr, ?_, ha0, ?_, ?_⟩
  · rw [ha1, hb1]; ring
  · rw [hb0, hb1]; ring
  · intro hnd hma hmb hfa hfb
    have hsum := sum_map_off_two (fun i => (hp.item i).Size) (fun i => (r.heap.item i).Size)
      s.a s.b hab (fun i hia hib => by simp only [hoth i hia hib]) l.items hnd hma hmb
    simp only [fixedSum, hitems]
    rw [hsum]
    beta_reduce
    rw [hsa, hsb]
    unfold autoLen
    by_cases h1 : (hp.item s.a).Size = AutoSize <;> by_cases h2 : (hp.item s.b).Size = AutoSize
    · rw [if_pos h1, if_pos h2, h1, h2]; simp only [AutoSize]; ring
    · rw [if_pos h1, if_neg h2, h1, hfb h2]; simp only [AutoSize]; ring
    · rw [if_neg h1, if_pos h2, h2, hfa h1]; simp only [AutoSize]; ring
    · rw [if_neg h1, if_neg h2, hfa h1, hfb h2]; ring

/-- C23, witness: the first splitter of `exPressed` dragged from column 12 to
column 13; both neighbours were auto-sized and 12 wide. -/
theorem drag_keeps_combined_length_witness :
    ∃ r, exPressed.2.MouseHandler envIdle exPressed.1 MouseAction.MouseMove ⟨13, 0⟩ = some r ∧
      axisLen exPressed.2.direction (r.heap.rect (Primitive.region 0))
          + axisLen exPressed.2.direction (r.heap.rect (Primitive.region 1))
        = axisLen exPressed.2.direction (exPressed.1.rect (Primitive.region 0))
          + axisLen exPressed.2.direction (exPressed.1.rect (Primitive.region 1)) ∧
      axisStart exPressed.2.direction (r.heap.rect (Primitive.region 0))
        = axisStart exPressed.2.direction (exPressed.1.rect (Primitive.region 0)) ∧
      axisStart exPressed.2.direction (r.heap.rect (Primitive.region 1))
          + axisLen exPressed.2.direction (r.heap.rect (Primitive.region 1))
        = axisStart exPressed.2.direction (exPressed.1.rect (Primitive.region 1))
          + axisLen exPressed.2.direction (exPressed.1.rect (Primitive.region 1)) ∧
      fixedSum r.heap r.l = fixedSum exPressed.1 exPressed.2
        + autoLen exPressed.1 exPressed.2.direction 0 (Primitive.region 0)
        + autoLen exPressed.1 exPressed.2.direction 1 (Primitive.region 1) ∧
      autoLen exPressed.1 exPressed.2.direction 0 (Primitive.region 0) = 12 ∧
      autoLen exPressed.1 exPressed.2.direction 1 (Primitive.region 1) = 12 := by
  obtain ⟨r, h1, h2, h3, h4, h5⟩ :=
    drag_keeps_combined_length envIdle exPressed.1 exPressed.2 MouseAction.MouseMove ⟨13, 0⟩ 13 0
      ⟨(12, 12), (0, 9), 0, 1⟩ (Primitive.region 0) (Primitive.region 1)
      (by decide) (by decide) (by decide) (by decide) (by decide) (by decide) (by decide)
      (by decide)
  exact ⟨r, h1, h2, h3, h4,
    h5 (by decide) (by decide) (by decide) (by decide) (by decide), by decide, by decide⟩

/-! ## The rectangles of a Draw pass do not overlap -/

theorem prefixSum_le_succ (f : Nat → Int) (items : List Nat) (hf : ∀ i ∈ items, 0 ≤ f i)
    (k : Nat) : prefixSum f items k ≤ prefixSum f items (k + 1) := by
  cases hk : items[k]? with
  | some j =>
    rw [prefixSum_succ f items k j hk]
    have := hf j (List.mem_iff_getElem?.mpr ⟨k, hk⟩)
    omega
  | none =>
    have hlen : items.length ≤ k := List.getElem?_eq_none_iff.mp hk
    unfold prefixSum
    rw [List.take_of_length_le hlen, List.take_of_length_le (Nat.le_succ_of_le hlen)]

theorem prefixSum_mono (f : Nat → Int) (items : List Nat) (hf : ∀ i ∈ items, 0 ≤ f i)
    (k m : Nat) (h : k ≤ m) : prefixSum f items k ≤ prefixSum f items m := by
  induction m, h using Nat.le_induction with
  | base => exact le_refl _
  | succ m _ ih => exact le_trans ih (prefixSum_le_succ f items hf m)

theorem autoSize_nonneg (hp : Heap) (l : Layout)
    (hd : l.direction = HorizontalLayout ∨ l.direction = VerticalLayout)
    (hslack : 0 ≤ slack hp l) : 0 ≤ l.autoSize hp := by
  rw [autoSize_eq hp l hd]
  have hc : 0 ≤ autoCount hp l := by unfold autoCount; exact Int.ofNat_nonneg _
  by_cases h : autoCount hp l ≠ 0
  · rw [if_pos h]; exact Int.tdiv_nonneg hslack hc
  · rw [if_neg h]

theorem itemLen_nonneg (hp : Heap) (q : Int) (hq : 0 ≤ q) (i : Nat) (hi : 0 ≤ (hp.item i).Size) :
    0 ≤ itemLen hp q i := by
  unfold itemLen
  split
  · exact hq
  · exact hi

theorem lengths_fit (hp : Heap) (l : Layout)
    (hd : l.direction = HorizontalLayout ∨ l.direction = VerticalLayout)
    (hslack : 0 ≤ slack hp l) :
    (l.items.map (itemLen hp (l.autoSize hp))).sum + max 0 (l.CountItems - 1)
      ≤ axisLen l.direction l.GetRect := by
  rw [sum_itemLen, autoSize_eq hp l hd]
  have hc : 0 ≤ autoCount hp l := by unfold autoCount; exact Int.ofNat_nonneg _
  have hs : slack hp l
      = axisLen l.direction l.GetRect - fixedSum hp l - max 0 (l.CountItems - 1) := rfl
  have hfs : (l.items.map (fun i => (hp.item i).Size)).sum = fixedSum hp l := rfl
  have hac : ((l.items.filter (fun i => decide ((hp.item i).Size = AutoSize))).length : Int)
      = autoCount hp l := rfl
  rw [hfs, hac]
  by_cases h : autoCount hp l ≠ 0
  · rw [if_pos h]
    have h1 := Int.tdiv_add_tmod (slack hp l) (autoCount hp l)
    have h2 := Int.tmod_nonneg (autoCount hp l) hslack
    linarith
  · rw [if_neg h]
    linarith

theorem sum_map_add_one (f : Nat → Int) (items : List Nat) :
    (items.map (fun i => f i + 1)).sum = (items.map f).sum + (items.length : Int) := by
  induction items with
  | nil => simp
  | cons x xs ih =>
    simp only [List.map_cons, List.sum_cons, List.length_cons, ih]
    push_cast
    ring

theorem placement_facts (hp : Heap) (l : Layout)
    (hd : l.direction = HorizontalLayout ∨ l.direction = VerticalLayout)
    (hsz : ∀ i ∈ l.items, 0 ≤ (hp.item i).Size) (hslack : 0 ≤ slack hp l) :
    (∀ k, 0 ≤ prefixSum (fun i => itemLen hp (l.autoSize hp) i + 1) l.items k) ∧
    (∀ k j, l.items[k]? = some j → 0 ≤ itemLen hp (l.autoSize hp) j ∧
      prefixSum (fun i => itemLen hp (l.autoSize hp) i + 1) l.items k
        + itemLen hp (l.autoSize hp) j ≤ axisLen l.direction l.GetRect) ∧
    (∀ k m j, k < m → l.items[k]? = some j →
      prefixSum (fun i => itemLen hp (l.autoSize hp) i + 1) l.items k
        + itemLen hp (l.autoSize hp) j + 1
        ≤ prefixSum (fun i => itemLen hp (l.autoSize hp) i + 1) l.items m) := by
  have hq := autoSize_nonneg hp l hd hslack
  have hlen : ∀ i ∈ l.items, 0 ≤ itemLen hp (l.autoSize hp) i :=
    fun i hi => itemLen_nonneg hp _ hq i (hsz i hi)
  have hg : ∀ i ∈ l.items, 0 ≤ (fun i => itemLen hp (l.autoSize hp) i + 1) i := by
    intro i hi
    have := hlen i hi
    show 0 ≤ itemLen hp (l.autoSize hp) i + 1
    omega
  have hmono := prefixSum_mono (fun i => itemLen hp (l.autoSize hp) i + 1) l.items hg
  have hthird : ∀ k m j, k < m → l.items[k]? = some j →
      prefixSum (fun i => itemLen hp (l.autoSize hp) i + 1) l.items k
        + itemLen hp (l.autoSize hp) j + 1
        ≤ prefixSum (fun i => itemLen hp (l.autoSize hp) i + 1) l.items m := by
    intro k m j hkm hj
    have h1 := prefixSum_succ (fun i => itemLen hp (l.autoSize hp) i + 1) l.items k j hj
    have h2 := hmono (k + 1) m hkm
    simp only at h1
    omega
  refine ⟨?_, ?_, hthird⟩
  · intro k
    have := hmono 0 k (Nat.zero_le k)
    rw [prefixSum_zero] at this
    exact this
  · intro k j hj
    have hjm : j ∈ l.items := List.mem_iff_getElem?.mpr ⟨k, hj⟩
    refine ⟨hlen j hjm, ?_⟩
    have hk : k < l.items.length := by
      by_contra hc
      rw [List.getElem?_eq_none_iff.mpr (Nat.le_of_not_lt hc)] at hj
      cases hj
    have h1 := hthird k l.items.length j hk hj
    rw [prefixSum_length, sum_map_add_one] at h1
    have h2 := lengths_fit hp l hd hslack
    have h3 : l.CountItems = (l.items.length : Int) := rfl
    rw [h3] at h2
    have h4 : (1 : Int) ≤ (l.items.length : Int) := by omega
    have h5 : max 0 ((l.items.length : Int) - 1) = (l.items.length : Int) - 1 := by omega
    rw [h5] at h2
    omega

/-- C24: in a HorizontalLayout or VerticalLayout whose items all hold a region
and have Sizes >= 0, and whose Sizes plus `max(0, itemCount - 1)` do not exceed
the axis length, Draw gives every item a rectangle that lies inside the
rectangle of the layout, the rectangles of two different items share no cell,
and no separator cell is in the rectangle of an item. -/
theorem draw_rects_inside_disjoint (hp : Heap) (l : Layout)
    (hd : l.direction = HorizontalLayout ∨ l.direction = VerticalLayout)
    (hreg : AllRegions hp l) (hsz : ∀ i ∈ l.items, 0 ≤ (hp.item i).Size)
    (hfit : fixedSum hp l + max 0 (l.CountItems - 1) ≤ axisLen l.direction l.GetRect) :
    ∃ out, l.Draw hp = some out ∧ out.calls.length = l.items.length ∧
      (∀ (k : Nat) (c : Primitive × Rect), out.calls[k]? = some c → c.2.inside l.GetRect) ∧
      (∀ (k m : Nat) (c d : Primitive × Rect), k ≠ m → out.calls[k]? = some c →
        out.calls[m]? = some d → ∀ x y, ¬ (c.2.has x y ∧ d.2.has x y)) ∧
      (∀ cell ∈ out.screen, cell.glyph ≠ Glyph.Blank →
        ∀ (k : Nat) (c : Primitive × Rect), out.calls[k]? = some c →
          ¬ c.2.has cell.x cell.y) := by
  have hslack : 0 ≤ slack hp l := by
    unfold slack
    omega
  obtain ⟨hP0, hPfit, hPord⟩ := placement_facts hp l hd hsz hslack
  obtain ⟨out, hout, _, hlen, hcalls⟩ := Draw_calls_all hp l hd hreg
  obtain ⟨out2, hout2, hsep⟩ := Draw_separator_glyph hp l hd hreg
  have hoo : out2 = out := by
    rw [hout] at hout2
    exact (Option.some.inj hout2).symm
  subst hoo
  have hrect : ∀ (k : Nat) (c : Primitive × Rect), out2.calls[k]? = some c →
      ∃ j, l.items[k]? = some j ∧ c.2 = drawnRect hp l k j := by
    intro k c hc
    obtain ⟨j, hj, _, hr⟩ := calls_getElem?_inv hp l out2 hcalls k c.1 c.2 hc
    exact ⟨j, hj, hr⟩
  have hdisj : ∀ (k m : Nat) (c d : Primitive × Rect), k < m → out2.calls[k]? = some c →
      out2.calls[m]? = some d → ∀ x y, ¬ (c.2.has x y ∧ d.2.has x y) := by
    intro k m c d hkm hc hd2 x y
    obtain ⟨j, hj, hcj⟩ := hrect k c hc
    obtain ⟨i, _, hdi⟩ := hrect m d hd2
    have h1 := hPord k m j hkm hj
    rw [hcj, hdi]
    rcases hd with hH | hV
    · simp only [drawnRect, if_pos hH, Rect.has]
      omega
    · have hnH : ¬ l.direction = HorizontalLayout := by rw [hV]; decide
      simp only [drawnRect, if_neg hnH, Rect.has]
      omega
  refine ⟨out2, hout, hlen, ?_, ?_, ?_⟩
  · intro k c hc
    obtain ⟨j, hj, hcj⟩ := hrect k c hc
    obtain ⟨_, h2⟩ := hPfit k j hj
    have h0 := hP0 k
    rw [hcj]
    rcases hd with hH | hV
    · simp only [axisLen, if_pos hH, Layout.GetRect] at h2
      simp only [drawnRect, if_pos hH, Rect.inside, Layout.GetRect]
      omega
    · have hnH : ¬ l.direction = HorizontalLayout := by rw [hV]; decide
      simp only [axisLen, if_neg hnH, Layout.GetRect] at h2
      simp only [drawnRect, if_neg hnH, Rect.inside, Layout.GetRect]
      omega
  · intro k m c d hkm hc hd2 x y
    rcases Nat.lt_or_gt_of_ne hkm with h | h
    · exact hdisj k m c d h hc hd2 x y
    · intro hboth
      exact hdisj m k d c h hd2 hc x y ⟨hboth.2, hboth.1⟩
  · intro cell hcell hglyph k c hc
    obtain ⟨j, hj, hcj⟩ := hrect k c hc
    obtain ⟨k2, j2, hj2, _, hsH, hsV⟩ := hsep cell hcell hglyph
    obtain ⟨hl2, _⟩ := hPfit k2 j2 hj2
    obtain ⟨hl1, _⟩ := hPfit k j hj
    rw [hcj]
    rcases Nat.lt_trichotomy k k2 with h | h | h
    · have h1 := hPord k k2 j h hj
      rcases hd with hH | hV
      · have hx := (hsH hH).1
        simp only [drawnRect, if_pos hH] at hx
        simp only [drawnRect, if_pos hH, Rect.has]
        omega
      · have hnH : ¬ l.direction = HorizontalLayout := by rw [hV]; decide
        have hy := (hsV hV).1
        simp only [drawnRect, if_neg hnH] at hy
        simp only [drawnRect, if_neg hnH, Rect.has]
        omega
    · subst h
      rw [hj] at hj2
      have hjj : j = j2 := Option.some.inj hj2
      subst hjj
      rcases hd with hH | hV
      · have hx := (hsH hH).1
        simp only [drawnRect, if_pos hH] at hx
        simp only [drawnRect, if_pos hH, Rect.has]
        omega
      · have hnH : ¬ l.direction = HorizontalLayout := by rw [hV]; decide
        have hy := (hsV hV).1
        simp only [drawnRect, if_neg hnH] at hy
        simp only [drawnRect, if_neg hnH, Rect.has]
        omega
    · have h1 := hPord k2 k j2 h hj2
      rcases hd with hH | hV
      · have hx := (hsH hH).1
        simp only [drawnRect, if_pos hH] at hx
        simp only [drawnRect, if_pos hH, Rect.has]
        omega
      · have hnH : ¬ l.direction = HorizontalLayout := by rw [hV]; decide
        have hy := (hsV hV).1
        simp only [drawnRect, if_neg hnH] at hy
        simp only [drawnRect, if_neg hnH, Rect.has]
        omega

/-- C24, witness: `exThree` with the splitter flag on. -/
theorem draw_rects_inside_disjoint_witness :
    ∃ out, (exThree.2.SetSplitter true).Draw exThree.1 = some out ∧
      out.calls.length = (exThree.2.SetSplitter true).items.length ∧
      (∀ (k : Nat) (c : Primitive × Rect), out.calls[k]? = some c →
        c.2.inside (exThree.2.SetSplitter true).GetRect) ∧
      (∀ (k m : Nat) (c d : Primitive × Rect), k ≠ m → out.calls[k]? = some c →
        out.calls[m]? = some d → ∀ x y, ¬ (c.2.has x y ∧ d.2.has x y)) ∧
      (∀ cell ∈ out.screen, cell.glyph ≠ Glyph.Blank →
        ∀ (k : Nat) (c : Primitive × Rect), out.calls[k]? = some c →
          ¬ c.2.has cell.x cell.y) :=
  draw_rects_inside_disjoint exThree.1 (exThree.2.SetSplitter true)
    (by decide) (by decide) (by decide) (by decide)

/-! ## The dragged splitter and the item list -/

theorem rebuildH_adjacent (hp : Heap) (q y height : Int) (items : List Nat) :
    ∀ (x seps : Int) (s : splitter), s ∈ rebuildH hp q y height items x seps →
      ∃ k, items[k]? = some s.a ∧ items[k + 1]? = some s.b := by
  induction items with
  | nil => intro x seps s hs; simp [rebuildH] at hs
  | cons a rest ih =>
    intro x seps s hs
    cases rest with
    | nil => simp [rebuildH] at hs
    | cons b rest2 =>
      rw [rebuildH] at hs
      by_cases hpos : seps > 0
      · simp only [hpos, if_true, List.mem_cons] at hs
        rcases hs with hs | hs
        · subst hs; exact ⟨0, by simp, by simp⟩
        · obtain ⟨k, h1, h2⟩ := ih _ _ s hs
          exact ⟨k + 1, by simpa using h1, by simpa using h2⟩
      · simp only [hpos, if_false] at hs
        obtain ⟨k, h1, h2⟩ := ih _ _ s hs
        exact ⟨k + 1, by simpa using h1, by simpa using h2⟩

theorem rebuildV_adjacent (hp : Heap) (q x width : Int) (items : List Nat) :
    ∀ (y seps : Int) (s : splitter), s ∈ rebuildV hp q x width items y seps →
      ∃ k, items[k]? = some s.a ∧ items[k + 1]? = some s.b := by
  induction items with
  | nil => intro y seps s hs; simp [rebuildV] at hs
  | cons a rest ih =>
    intro y seps s hs
    cases rest with
    | nil => simp [rebuildV] at hs
    | cons b rest2 =>
      rw [rebuildV] at hs
      by_cases hpos : seps > 0
      · simp only [hpos, if_true, List.mem_cons] at hs
        rcases hs with hs | hs
        · subst hs; exact ⟨0, by simp, by simp⟩
        · obtain ⟨k, h1, h2⟩ := ih _ _ s hs
          exact ⟨k + 1, by simpa using h1, by simpa using h2⟩
      · simp only [hpos, if_false] at hs
        obtain ⟨k, h1, h2⟩ := ih _ _ s hs
        exact ⟨k + 1, by simpa using h1, by simpa using h2⟩

theorem rebuildSplitters_adjacent (hp : Heap) (l : Layout) :
    SplittersAdjacent (Layout.rebuildSplitters hp l) := by
  intro s hs
  rw [rebuildSplitters_items]
  unfold Layout.rebuildSplitters at hs
  by_cases hH : l.direction = HorizontalLayout
  · simp only [if_pos hH] at hs
    exact rebuildH_adjacent hp _ _ _ l.items _ _ s hs
  · by_cases hV : l.direction = VerticalLayout
    · simp only [if_neg hH, if_pos hV] at hs
      exact rebuildV_adjacent hp _ _ _ l.items _ _ s hs
    · simp only [if_neg hH, if_neg hV] at hs
      simp at hs

theorem rebuildSplitters_dragged (hp : Heap) (l : Layout) :
    (Layout.rebuildSplitters hp l).draggedSplitter = l.draggedSplitter := by
  rw [rebuildSplitters_eq]

theorem findSplitter_mem (x y : Int) (ss : List splitter) :
    ∀ (n i : Nat) (s : splitter), findSplitter x y ss n = some (i, s) → s ∈ ss := by
  induction ss with
  | nil => intro n i s h; simp [findSplitter] at h
  | cons t rest ih =>
    intro n i s h
    rw [findSplitter] at h
    by_cases hc : t.contain x y = true
    · rw [if_pos hc] at h
      cases h
      exact List.mem_cons_self _ _
    · rw [if_neg hc] at h
      exact List.mem_cons_of_mem _ (ih _ _ _ h)

theorem mouseHandler_dragged (env : Env) (hp : Heap) (l : Layout) (action : MouseAction)
    (event : EventMouse) (r : MouseResult) (h : l.mouseHandler env hp action event = some r) :
    r.l.draggedSplitter = l.draggedSplitter ∨ r.l.draggedSplitter = none ∨
      ∃ s ∈ l.splitters, r.l.draggedSplitter = some s := by
  unfold Layout.mouseHandler at h
  by_cases hin : l.InRect event.x event.y = true
  · by_cases hc : (offerChildren env hp action event l.items false none).1 = true
    · simp only [hin, hc, Bool.not_true, Bool.false_eq_true, if_false, if_true] at h
      cases h; exact Or.inl rfl
    · simp only [hin, hc, Bool.not_true, Bool.false_eq_true, if_false] at h
      cases action with
      | MouseMove =>
        cases hds : l.draggedSplitter with
        | none =>
          simp only [hds] at h
          cases h; exact Or.inl hds
        | some s =>
          simp only [hds] at h
          cases hpa : (hp.item s.a).Primitive with
          | none => simp [hpa] at h
          | some pa =>
            cases hpb : (hp.item s.b).Primitive with
            | none => simp [hpa, hpb] at h
            | some pb =>
              simp only [hpa, hpb] at h
              by_cases hH : l.direction = HorizontalLayout
              · rw [if_pos hH] at h
                cases h; left; rfl
              · by_cases hV : l.direction = VerticalLayout
                · rw [if_neg hH, if_pos hV] at h
                  cases h; left; rfl
                · rw [if_neg hH, if_neg hV] at h
                  cases h
      | MouseLeftDown =>
        cases hf : findSplitter event.x event.y l.splitters 0 with
        | none =>
          simp only [hf] at h
          cases h; exact Or.inl rfl
        | some ns =>
          simp only [hf] at h
          cases h
          exact Or.inr (Or.inr ⟨ns.2, findSplitter_mem _ _ _ 0 ns.1 ns.2 hf, rfl⟩)
      | MouseLeftUp =>
        simp only at h
        cases h
        exact Or.inr (Or.inl (rebuildSplitters_dragged _ _))
      | MouseLeftClick =>
        simp only at h
        cases h; exact Or.inl rfl
      | other code =>
        simp only at h
        cases h; exact Or.inl rfl
  · simp only [hin, Bool.not_false, if_true] at h
    cases h; exact Or.inl rfl

theorem MouseHandler_cases (env : Env) (hp : Heap) (l : Layout) (action : MouseAction)
    (event : EventMouse) (r : MouseResult) (h : l.MouseHandler env hp action event = some r) :
    r.l = l ∨ ∃ a ev, l.mouseHandler env hp a ev = some r := by
  unfold Layout.MouseHandler at h
  cases hc : (l.captured action event).2 with
  | none =>
    simp only [hc] at h
    cases h
    exact Or.inl rfl
  | some ev =>
    simp only [hc] at h
    exact Or.inr ⟨_, _, h⟩

/-- Every reachable layout has its splitters between neighbours of its item
list: ClearItems empties both lists, the other operations rebuild the
splitters or leave both lists alone. -/
theorem Reachable_splittersAdjacent (l : Layout) (hr : l.Reachable) : SplittersAdjacent l := by
  induction hr with
  | new => intro s hs; simp [NewLayout] at hs
  | setDirection d _ _ ih => exact ih
  | setSplitter flag _ ih => exact ih
  | setBackgroundColor color _ ih => exact ih
  | setMouseCapture capture _ ih => exact ih
  | addItem hp p size _ _ => exact rebuildSplitters_adjacent _ _
  | @removeItem l0 hp i _ ih =>
    unfold Layout.RemoveItem
    by_cases hi : i < 0 ∨ i ≥ (l0.items.length : Int)
    · rw [if_pos hi]; exact ih
    · rw [if_neg hi]; exact rebuildSplitters_adjacent _ _
  | clearItems _ _ => intro s hs; simp [Layout.ClearItems] at hs
  | setRect hp x y width height _ _ => exact rebuildSplitters_adjacent _ _
  | blur _ ih => exact ih
  | @mouse l0 env hp action event r _ h ih =>
    rcases MouseHandler_cases env hp l0 action event r h with heq | ⟨a, ev, hm⟩
    · rw [heq]; exact ih
    · obtain ⟨_, hitems, hsp⟩ := mouseHandler_inv env hp l0 a ev r hm
      intro s hs
      rw [hitems]
      rcases hsp with hsp | hsp
      · rw [hsp] at hs; exact ih s hs
      · rw [hsp] at hs
        have := rebuildSplitters_adjacent hp { l0 with draggedSplitter := none } s hs
        rw [rebuildSplitters_items] at this
        exact this

/-- The drag invariant holds for a new layout and is kept by AddItem,
RemoveItem, SetRect and, in a layout whose splitters lie between neighbours
of its item list, by every mouse event. -/
theorem dragAdjacent_kept :
    DragAdjacent NewLayout ∧
    (∀ (hp : Heap) (l : Layout) (p : Option Primitive) (size : Int),
      DragAdjacent (Layout.AddItem hp l p size).2) ∧
    (∀ (hp : Heap) (l : Layout) (i : Int), DragAdjacent l → DragAdjacent (Layout.RemoveItem hp l i)) ∧
    (∀ (hp : Heap) (l : Layout) (x y width height : Int), DragAdjacent l →
      DragAdjacent (Layout.SetRect hp l x y width height)) ∧
    (∀ (env : Env) (hp : Heap) (l : Layout) (action : MouseAction) (event : EventMouse)
      (r : MouseResult), SplittersAdjacent l → DragAdjacent l →
      l.MouseHandler env hp action event = some r → DragAdjacent r.l) := by
  refine ⟨?_, ?_, ?_, ?_, ?_⟩
  · intro s hs; simp [NewLayout] at hs
  · intro hp l p size s hs
    simp only [Layout.AddItem, rebuildSplitters_dragged] at hs
    cases hs
  · intro hp l i hinv
    unfold Layout.RemoveItem
    by_cases hi : i < 0 ∨ i ≥ (l.items.length : Int)
    · rw [if_pos hi]; exact hinv
    · rw [if_neg hi]
      intro s hs
      simp only [rebuildSplitters_dragged] at hs
      cases hs
  · intro hp l x y width height hinv s hs
    simp only [Layout.SetRect, rebuildSplitters_dragged] at hs
    simp only [Layout.SetRect, rebuildSplitters_items]
    exact hinv s hs
  · intro env hp l action event r hsp hinv h
    rcases MouseHandler_cases env hp l action event r h with heq | ⟨a, ev, hm⟩
    · rw [heq]; exact hinv
    · obtain ⟨_, hitems, _⟩ := mouseHandler_inv env hp l a ev r hm
      intro s hs
      rw [hitems]
      rcases mouseHandler_dragged env hp l a ev r hm with hd | hd | ⟨t, ht, hd⟩
      · rw [hd] at hs; exact hinv s hs
      · rw [hd] at hs; cases hs
      · rw [hd] at hs
        cases hs
        exact hsp s ht

/-- C25, evaluation at the failing input.  In `exPressed` the first splitter
of three drawn items is being dragged and its items 0 and 1 are neighbours in
the item list.  ClearItems empties the item list and keeps the dragged
splitter, so the invariant fails; the next mouse move, to `(14, 0)`, is
consumed and resizes the items 0 and 1 and their regions, which are no longer
in the layout. -/
theorem clear_items_keeps_drag :
    DragAdjacent exPressed.2 ∧
    exCleared.2.items = [] ∧
    exCleared.2.draggedSplitter = some ⟨(12, 12), (0, 9), 0, 1⟩ ∧
    ¬ DragAdjacent exCleared.2 ∧
    ((exCleared.1.item 0).Size, (exCleared.1.item 1).Size,
      exCleared.1.rect (Primitive.region 0), exCleared.1.rect (Primitive.region 1))
      = (0, 0, ⟨0, 0, 12, 10⟩, ⟨13, 0, 12, 10⟩) ∧
    (exCleared.2.MouseHandler envIdle exCleared.1 MouseAction.MouseMove ⟨14, 0⟩).map
        (fun r => (r.consumed, r.l.items, (r.heap.item 0).Size, (r.heap.item 1).Size,
          r.heap.rect (Primitive.region 0), r.heap.rect (Primitive.region 1)))
      = some (true, [], 14, 10, ⟨0, 0, 14, 10⟩, ⟨15, 0, 10, 10⟩) := by
  have hdrag : exPressed.2.draggedSplitter = some ⟨(12, 12), (0, 9), 0, 1⟩ := by decide
  have hdrag2 : exCleared.2.draggedSplitter = some ⟨(12, 12), (0, 9), 0, 1⟩ := by decide
  have hitems : exCleared.2.items = [] := by decide
  refine ⟨?_, hitems, hdrag2, ?_, by decide, by decide⟩
  · intro s hs
    rw [hdrag] at hs
    cases hs
    exact ⟨0, by decide, by decide⟩
  · intro h
    obtain ⟨k, hk, _⟩ := h _ hdrag2
    rw [hitems] at hk
    simp at hk

end Tilman
